/-
Verification of the chemfetch SDS field-extraction pipeline
(ocr_service/sds_parser_new) against its natural-language specification.

The Python sources are shallowly embedded over `List Char`.  Each Python
regular expression is translated either into data for the small
backtracking matcher `mrun` below (which mirrors CPython `re` semantics:
leftmost match, alternatives tried in written order, greedy quantifiers
try the longest repetition first and backtrack downwards) or into a
bespoke structural function, documented at its definition site.

Conventions used throughout:
- `List Char` stands for a Python `str`; string literals appear as
  `"...".toList` in theorem statements.
- Python whitespace / digit / word character classes are modelled over
  ASCII (`isPyWs`, `isDigitCh`, `isWordCh`), which covers every string the
  pipeline manipulates in the claims below.
- fallible Python functions returning a value or `None` become `Option`.
- `datetime.date.today()` is modelled as an explicit `today` parameter.
-/
import Mathlib

set_option maxRecDepth 10000
set_option maxHeartbeats 4000000

/-- ASCII lower-casing, the effect of `re.IGNORECASE` / `str.lower()` on
the ASCII strings handled by the pipeline. -/
def lcc (c : Char) : Char :=
  if 65 ≤ c.toNat ∧ c.toNat ≤ 90 then Char.ofNat (c.toNat + 32) else c

/-- Python whitespace (`\s`, `str.strip()`), ASCII part:
space, tab, newline, carriage return, vertical tab, form feed. -/
def isPyWs (c : Char) : Bool :=
  c = ' ' || c = '\t' || c = '\n' || c = '\r' || c.toNat = 11 || c.toNat = 12

/-- Python `\d`, ASCII part. -/
def isDigitCh (c : Char) : Bool :=
  48 ≤ c.toNat && c.toNat ≤ 57

/-- ASCII letter (`[A-Za-z]`). -/
def isAlphaCh (c : Char) : Bool :=
  (65 ≤ c.toNat && c.toNat ≤ 90) || (97 ≤ c.toNat && c.toNat ≤ 122)

/-- ASCII upper-case letter (`[A-Z]`). -/
def isUpperCh (c : Char) : Bool :=
  65 ≤ c.toNat && c.toNat ≤ 90

/-- ASCII lower-case letter (`[a-z]`). -/
def isLowerCh (c : Char) : Bool :=
  97 ≤ c.toNat && c.toNat ≤ 122

/-- Python `\w`, ASCII part: letters, digits, underscore. -/
def isWordCh (c : Char) : Bool :=
  isAlphaCh c || isDigitCh c || c = '_'

/-- Any character except a newline: Python `.` (without `re.DOTALL`)
and `[^\n]`. -/
def notNl (c : Char) : Bool :=
  c ≠ '\n'

/-- Lower-case a whole string. -/
def lcL (l : List Char) : List Char :=
  l.map lcc

/-- Python `str.strip()` (both ends, whitespace). -/
def pyStrip (l : List Char) : List Char :=
  ((l.dropWhile isPyWs).reverse.dropWhile isPyWs).reverse

/-- Python `str.strip(chars)` for an explicit character set. -/
def pyStripCh (p : Char → Bool) (l : List Char) : List Char :=
  ((l.dropWhile p).reverse.dropWhile p).reverse

/-- Python `str.split('\n')`: always at least one piece, empty pieces kept. -/
def splitNl : List Char → List (List Char)
  | [] => [[]]
  | '\n' :: rest => [] :: splitNl rest
  | c :: rest =>
    match splitNl rest with
    | h :: t => (c :: h) :: t
    | [] => [[c]]

/-- Worker for `splitLines`: Python `str.splitlines()` on a non-empty
string (a trailing line terminator does not produce a final empty line). -/
def slGo : List Char → List (List Char)
  | [] => [[]]
  | '\n' :: rest => [] :: (match rest with | [] => [] | _ => slGo rest)
  | '\r' :: '\n' :: rest => [] :: (match rest with | [] => [] | _ => slGo rest)
  | '\r' :: rest => [] :: (match rest with | [] => [] | _ => slGo rest)
  | c :: rest =>
    match slGo rest with
    | h :: t => (c :: h) :: t
    | [] => [[c]]

/-- Python `str.splitlines()`. -/
def splitLines (l : List Char) : List (List Char) :=
  match l with
  | [] => []
  | _ => slGo l

/-- Join a list of lines with `'\n'`, Python `'\n'.join(lines)`. -/
def joinNl (ls : List (List Char)) : List Char :=
  match ls with
  | [] => []
  | [l] => l
  | l :: rest => l ++ '\n' :: joinNl rest

/-- Worker for `splitWs`; `acc` holds the current token, reversed. -/
def splitWsGo (acc : List Char) : List Char → List (List Char)
  | [] => if acc.isEmpty then [] else [acc.reverse]
  | c :: rest =>
    if isPyWs c then
      if acc.isEmpty then splitWsGo [] rest else acc.reverse :: splitWsGo [] rest
    else splitWsGo (c :: acc) rest

/-- Split a string on whitespace runs, dropping empty pieces
(Python `str.split()` with no argument). -/
def splitWs (l : List Char) : List (List Char) :=
  splitWsGo [] l

/-- Does the string contain the given (already lower-cased) substring,
Python `needle in s.lower()`? -/
def containsSub (needle : List Char) (hay : List Char) : Bool :=
  needle.isPrefixOf (lcL hay) ||
    (match hay with
     | [] => false
     | _ :: rest => containsSub needle rest)

/-- Case-insensitive string equality. -/
def ciEq (a b : List Char) : Bool :=
  lcL a = lcL b

/-- Parse a run of ASCII digits as a natural number (`int(...)`). -/
def digitsToNat (l : List Char) : Nat :=
  l.foldl (fun acc c => acc * 10 + (c.toNat - 48)) 0

/-- Take at most `n` leading characters satisfying `p`
(the greedy maximal munch of a `{0,n}` class repetition). -/
def takeAtMost (n : Nat) (p : Char → Bool) : List Char → List Char
  | [] => []
  | c :: rest =>
    match n with
    | 0 => []
    | m + 1 => if p c then c :: takeAtMost m p rest else []

/-- Tokens of the backtracking regular-expression matcher.  Each token
mirrors one construct used by the Python patterns of the pipeline:
character (classes and case-insensitive literals are both `chr`), greedy
class repetitions `starC`/`plusC`/`repLeC` (`x*`, `x+`, `x{0,n}`), greedy
optional groups `opt` (`(?:...)?`), ordered alternation `alts`
(`(?:a|b)`), and zero-width context tests `zw` (used for `\b`,
one-character lookahead `(?=[..])` and the negative lookaheads of the
section patterns); `zw` receives the previous character and the rest of
the input. -/
inductive RTok where
  | chr (p : Char → Bool)
  | starC (p : Char → Bool)
  | plusC (p : Char → Bool)
  | repLeC (n : Nat) (p : Char → Bool)
  | repLazyC (n : Nat) (p : Char → Bool)
  | opt (g : List RTok)
  | alts (gs : List (List RTok))
  | zw (f : Option Char → List Char → Bool)

mutual

/-- Backtracking matcher in continuation-passing style, mirroring CPython
`re` disambiguation: alternatives in written order, greedy repetitions
longest-first.  `prev` is the character just before the current position
(for word boundaries), `k` is invoked on every candidate match end until
it returns `some`; the fuel bounds backtracking work and is chosen large
enough for every concrete evaluation in this file. -/
def mrun {α : Type} (fuel : Nat) (toks : List RTok) (prev : Option Char)
    (cs : List Char) (k : Option Char → List Char → Option α) : Option α :=
  match fuel with
  | 0 => none
  | f + 1 =>
    match toks with
    | [] => k prev cs
    | .chr p :: ts =>
      match cs with
      | [] => none
      | c :: cs' => if p c then mrun f ts (some c) cs' k else none
    | .starC p :: ts =>
      let tk := cs.takeWhile p
      mrunBack f ts prev tk.reverse (cs.drop tk.length) k
    | .plusC p :: ts =>
      match cs with
      | [] => none
      | c :: cs' =>
        if p c then
          let tk := cs'.takeWhile p
          mrunBack f ts (some c) tk.reverse (cs'.drop tk.length) k
        else none
    | .repLeC n p :: ts =>
      let tk := takeAtMost n p cs
      mrunBack f ts prev tk.reverse (cs.drop tk.length) k
    | .repLazyC n p :: ts => mrunLazy f n p ts prev cs k
    | .opt g :: ts =>
      (mrun f (g ++ ts) prev cs k) <|> mrun f ts prev cs k
    | .alts gs :: ts => mrunAlts f gs ts prev cs k
    | .zw gf :: ts => if gf prev cs then mrun f ts prev cs k else none

/-- Greedy backtracking over an already-munched class repetition:
`taken` holds the munched characters reversed; try the continuation at
the longest munch first, then give characters back one at a time.
`prev0` is the character preceding the whole repetition. -/
def mrunBack {α : Type} (fuel : Nat) (ts : List RTok) (prev0 : Option Char)
    (taken : List Char) (rest : List Char)
    (k : Option Char → List Char → Option α) : Option α :=
  match fuel with
  | 0 => none
  | f + 1 =>
    let curPrev := match taken with | t :: _ => some t | [] => prev0
    (mrun f ts curPrev rest k) <|>
      (match taken with
       | [] => none
       | t :: tk' => mrunBack f ts prev0 tk' (t :: rest) k)

/-- Lazy bounded class repetition `x{0,n}?`: try the continuation with
zero characters consumed first, then grow one character at a time. -/
def mrunLazy {α : Type} (fuel : Nat) (n : Nat) (p : Char → Bool)
    (ts : List RTok) (prev : Option Char) (cs : List Char)
    (k : Option Char → List Char → Option α) : Option α :=
  match fuel with
  | 0 => none
  | f + 1 =>
    (mrun f ts prev cs k) <|>
      (match n, cs with
       | nn + 1, c :: cs' =>
         if p c then mrunLazy f nn p ts (some c) cs' k else none
       | _, _ => none)

/-- Ordered alternation: try each alternative group in written order. -/
def mrunAlts {α : Type} (fuel : Nat) (gs : List (List RTok)) (ts : List RTok)
    (prev : Option Char) (cs : List Char)
    (k : Option Char → List Char → Option α) : Option α :=
  match fuel with
  | 0 => none
  | f + 1 =>
    match gs with
    | [] => none
    | g :: gs' => (mrun f (g ++ ts) prev cs k) <|> mrunAlts f gs' ts prev cs k

end

/-- Fuel used by every concrete matcher invocation in this file. -/
def engineFuel : Nat := 20000

/-- Word-boundary token, Python `\b`. -/
def wbTok : RTok :=
  .zw (fun prev cs =>
    (match prev with | some c => isWordCh c | none => false) !=
      (match cs with | c :: _ => isWordCh c | [] => false))

/-- One-character lookahead token, Python `(?=[class])`. -/
def laTok (p : Char → Bool) : RTok :=
  .zw (fun _ cs => match cs with | c :: _ => p c | [] => false)

/-- Case-insensitive literal string as matcher tokens. -/
def litsCI (s : String) : List RTok :=
  s.toList.map (fun c => .chr (fun d => lcc d = lcc c))

/-- Case-sensitive literal string as matcher tokens. -/
def litsCS (s : String) : List RTok :=
  s.toList.map (fun c => .chr (fun d => d = c))

/-- `\s*` token. -/
def ws0 : RTok := .starC isPyWs

/-- `\s+` token. -/
def ws1 : RTok := .plusC isPyWs

/-- Match `toks` at the start of `cs` (with `prev` the preceding
character), returning the rest of the input after the preferred match:
Python `re.match` where the caller keeps the unmatched tail. -/
def reMatchRest (toks : List RTok) (prev : Option Char) (cs : List Char) :
    Option (List Char) :=
  mrun engineFuel toks prev cs (fun _ rest => some rest)

/-- Does `toks` match the whole of `cs`?  Python `re.fullmatch`. -/
def reFull (toks : List RTok) (cs : List Char) : Bool :=
  (mrun engineFuel toks none cs
    (fun _ rest => if rest.isEmpty then some () else none)).isSome

/-- Leftmost search, Python `re.search`: try the tokens at every
position (left to right), returning what the continuation produces for
the first position at which the pattern matches. -/
def reSearchK {α : Type} (toks : List RTok) (prev : Option Char)
    (cs : List Char) (k : Option Char → List Char → Option α) : Option α :=
  match mrun engineFuel toks prev cs k with
  | some r => some r
  | none =>
    match cs with
    | [] => none
    | c :: cs' => reSearchK toks (some c) cs' k

/-- Leftmost search returning the start index of the match
(Python `m.start()` of `re.search`). -/
def reSearchPos (toks : List RTok) (prev : Option Char) (cs : List Char)
    (acc : Nat) : Option Nat :=
  if (mrun engineFuel toks prev cs (fun _ rest => some rest)).isSome then
    some acc
  else
    match cs with
    | [] => none
    | c :: cs' => reSearchPos toks (some c) cs' (acc + 1)

/-- Is there a match of `toks` anywhere in `cs` (given preceding
character `prev`)?  Python `bool(re.search(...))`. -/
def reSearchB (toks : List RTok) (cs : List Char) : Bool :=
  (reSearchK toks none cs (fun _ rest => some rest)).isSome

/-- Strip a literal prefix, returning the rest (case-sensitive). -/
def stripPre (w : List Char) (cs : List Char) : Option (List Char) :=
  match w, cs with
  | [], cs => some cs
  | _ :: _, [] => none
  | a :: w', c :: cs' => if c = a then stripPre w' cs' else none

/-- Phrase pattern: a sequence of word positions, each position a list of
admissible literal words (spelled lower-case; input is lower-cased by
callers).  `[["no","not"],["regulated"]]` stands for the regex
`not?\s+regulated`, word positions being separated by `\s+`. -/
abbrev WSeq : Type := List (List (List Char))

/-- Whole-string match of a phrase pattern (Python `re.fullmatch` of the
phrase regex): each word position matched by one of its alternatives,
separated by non-empty whitespace runs, consuming the entire input. -/
def wSeqMatch (pat : WSeq) (cs : List Char) : Bool :=
  match pat with
  | [] => cs.isEmpty
  | altWords :: rest =>
    altWords.any (fun w =>
      match stripPre w cs with
      | none => false
      | some cs' =>
        if rest.isEmpty then cs'.isEmpty
        else
          ¬ (cs'.takeWhile isPyWs).isEmpty &&
            wSeqMatch rest (cs'.dropWhile isPyWs))

/-- Prefix match of a phrase pattern (Python `re.match` of a phrase regex
carrying no `$`): as `wSeqMatch`, but anything may follow the final word. -/
def wSeqMatchPre (pat : WSeq) (cs : List Char) : Bool :=
  match pat with
  | [] => true
  | altWords :: rest =>
    altWords.any (fun w =>
      match stripPre w cs with
      | none => false
      | some cs' =>
        if rest.isEmpty then true
        else
          ¬ (cs'.takeWhile isPyWs).isEmpty &&
            wSeqMatchPre rest (cs'.dropWhile isPyWs))

/-- Single digit 1-9, the class `[1-9]`. -/
def digit19 (c : Char) : Bool :=
  49 ≤ c.toNat && c.toNat ≤ 57

/-- config.py `VALID_DG_CLASSES = re.compile(r'^[1-9](?:\.[1-9])?$')`,
applied with `.match` (the `^...$` anchors make it a whole-string test;
all call sites pass strings without trailing newlines). -/
def VALID_DG_CLASSES_match (l : List Char) : Bool :=
  match l with
  | [c] => digit19 c
  | [a, '.', b] => digit19 a && digit19 b
  | _ => false

/-- config.py
`VALID_PACKING_GROUPS = re.compile(r'^(?:I{1,3}|IV?|N\.?/?A\.?|None|Not\s+(?:applicable|required|assigned)|Not\s+subject)$', re.IGNORECASE)`,
applied with `.match`.  Branch by branch (on the lower-cased input):
`I{1,3}|IV?` accepts exactly i, ii, iii, iv; `N\.?/?A\.?` accepts the
eight dot/slash combinations spelled out below; the `Not ...` branches
are phrase patterns.  The same regex text is inlined at
sds_extractor.py:430/444 (`extract_packing_group_from_table`), with the
group capturing instead of non-capturing, which does not change
acceptance. -/
def VALID_PACKING_GROUPS_match (l : List Char) : Bool :=
  let v := lcL l
  v = "i".toList || v = "ii".toList || v = "iii".toList || v = "iv".toList ||
  v = "na".toList || v = "n.a".toList || v = "n/a".toList || v = "n./a".toList ||
  v = "na.".toList || v = "n.a.".toList || v = "n/a.".toList || v = "n./a.".toList ||
  v = "none".toList ||
  wSeqMatch [[ "not".toList ],
             [ "applicable".toList, "required".toList, "assigned".toList ]] v ||
  wSeqMatch [[ "not".toList ], [ "subject".toList ]] v

/-- modules/utils.py `validate_dangerous_goods_class` (lines 105-131):
strip, accept on `VALID_DG_CLASSES.match`, else try each not-applicable
pattern with `re.fullmatch(..., re.IGNORECASE)` in source order.
Patterns: `not?\s+regulated`, `not?\s+applicable`, `not?\s+required`,
`not?\s+subject`, `none`, `n/?a`, `not\s+a\s+dangerous\s+good`. -/
def utils_validate_dangerous_goods_class (value : List Char) : Bool :=
  if value.isEmpty then false
  else
    let v := pyStrip value
    if VALID_DG_CLASSES_match v then true
    else
      let lv := lcL v
      [[[ "no".toList, "not".toList ], [ "regulated".toList ]],
       [[ "no".toList, "not".toList ], [ "applicable".toList ]],
       [[ "no".toList, "not".toList ], [ "required".toList ]],
       [[ "no".toList, "not".toList ], [ "subject".toList ]],
       [[ "none".toList ]],
       [[ "na".toList, "n/a".toList ]],
       [[ "not".toList ], [ "a".toList ], [ "dangerous".toList ], [ "good".toList ]]
      ].any (fun p => wSeqMatch p lv)

/-- sds_extractor.py `validate_dangerous_goods_class` (lines 195-222):
strip, accept on `re.match(r'^[1-9](?:\.[1-9])?$', value)`, else try each
not-applicable pattern with `re.match(..., re.IGNORECASE)` - NOTE:
`re.match` anchors only at the start, so the patterns without `$`
(`^not?\s+regulated`, `^not?\s+applicable`, `^not\s+a\s+dangerous\s+good`,
`^not\s+subject\s+to`) are prefix matches, while `^none$` and `^n/?a$`
are whole-string matches. -/
def sds_validate_dangerous_goods_class (value : List Char) : Bool :=
  if value.isEmpty then false
  else
    let v := pyStrip value
    if VALID_DG_CLASSES_match v then true
    else
      let lv := lcL v
      wSeqMatchPre [[ "no".toList, "not".toList ], [ "regulated".toList ]] lv ||
      wSeqMatchPre [[ "no".toList, "not".toList ], [ "applicable".toList ]] lv ||
      wSeqMatch [[ "none".toList ]] lv ||
      wSeqMatch [[ "na".toList, "n/a".toList ]] lv ||
      wSeqMatchPre [[ "not".toList ], [ "a".toList ], [ "dangerous".toList ],
                    [ "good".toList ]] lv ||
      wSeqMatchPre [[ "not".toList ], [ "subject".toList ], [ "to".toList ]] lv

/-- Case-insensitive literal words separated by `\s+`, as matcher tokens
(e.g. `Product\s+code`). -/
def ciWords (ws : List String) : List RTok :=
  match ws with
  | [] => []
  | [w] => litsCI w
  | w :: rest => litsCI w ++ ws1 :: ciWords rest

/-- `\d{2,4}` as matcher tokens. -/
def digits24 : List RTok :=
  [.chr isDigitCh, .chr isDigitCh, .repLeC 2 isDigitCh]

/-- config.py `NOISE_LABELS` (lines 77-86), each entry translated for
`re.fullmatch(pattern, text_clean, re.IGNORECASE)`.  Source order kept. -/
def NOISE_LABELS : List (List RTok) :=
  [ litsCI "telephone", litsCI "tel", litsCI "phone", litsCI "fax",
    -- E[-]?mail
    litsCI "e" ++ [.opt [.chr (fun c => c = '-')]] ++ litsCI "mail",
    litsCI "website", litsCI "email",
    litsCI "emergency", litsCI "address", litsCI "poison",
    ciWords ["product", "code"],
    -- SDS\s+no\.?
    ciWords ["sds", "no"] ++ [.opt [.chr (fun c => c = '.')]],
    ciWords ["sds", "number"],
    -- Page\s+\d+
    ciWords ["page"] ++ [ws1, .plusC isDigitCh],
    ciWords ["date", "of", "issue"],
    ciWords ["revision", "date"],
    litsCI "version",
    ciWords ["details", "of", "the", "supplier"],
    ciWords ["contact", "details"],
    ciWords ["emergency", "telephone"],
    ciWords ["msds", "date"],
    ciWords ["alternative", "number"],
    ciWords ["facsimile", "number"],
    litsCI "name",
    -- Australia\s+-\s+\d+
    litsCI "australia" ++ [ws1, .chr (fun c => c = '-'), ws1, .plusC isDigitCh],
    -- UK,?\s+NPIS
    litsCI "uk" ++ [.opt [.chr (fun c => c = ',')], ws1] ++ litsCI "npis",
    ciWords ["registered", "company", "name"],
    ciWords ["safety", "data", "sheet"],
    ciWords ["document", "number"],
    -- \d{2,4}\s+\d{2,4}\s+\d{2,4}
    digits24 ++ [ws1] ++ digits24 ++ [ws1] ++ digits24,
    ciWords ["document", "type"],
    litsCI "country", litsCI "language", litsCI "format" ]

/-- `^\d{2,4}[-\s]\d{2,4}[-\s]\d{2,4}$`-style separator class `[-\s]`. -/
def dashOrWs (c : Char) : Bool :=
  c = '-' || isPyWs c

/-- Phone-number shape `\d{2,4}[-\s]\d{2,4}[-\s]\d{2,4}`. -/
def phoneShape : List RTok :=
  digits24 ++ [.chr dashOrWs] ++ digits24 ++ [.chr dashOrWs] ++ digits24

/-- `^(UK|US|USA|EU|AU|NZ|JP|CN),?\s+[A-Z]{2,4}\b` - case-sensitive
(utils.py line 29 passes no flags), prefix match. -/
def countryCodePat : List RTok :=
  [.alts ([ "UK", "US", "USA", "EU", "AU", "NZ", "JP", "CN" ].map litsCS),
   .opt [.chr (fun c => c = ',')], ws1,
   .chr isUpperCh, .chr isUpperCh, .repLeC 2 isUpperCh, wbTok]

/-- `\b\d{2,4}\s+\d{2,4}\s+\d{2,4}\b` (utils.py line 31, `re.search`). -/
def spacedPhonePat : List RTok :=
  [wbTok] ++ digits24 ++ [ws1] ++ digits24 ++ [ws1] ++ digits24 ++ [wbTok]

/-- modules/utils.py `is_noise_text` (lines 11-41).  Order of checks as
in the source: empty / stripped shorter than 2, `NOISE_LABELS`
full-matches, punctuation-only (`^[:\-\s]*$`), phone shape with `$`,
country-code header, spaced phone search, bare-word list, country set. -/
def utils_is_noise_text (text : List Char) : Bool :=
  if text.isEmpty || (pyStrip text).length < 2 then true
  else
    let tc := pyStrip text
    if NOISE_LABELS.any (fun p => reFull p tc) then true
    else if tc.all (fun c => c = ':' || c = '-' || isPyWs c) then true
    else if reFull phoneShape tc then true
    else if (reMatchRest countryCodePat none tc).isSome then true
    else if reSearchB spacedPhonePat tc then true
    else if [ "name", "date", "address", "contact", "details",
              "information" ].any (fun w => lcL tc = w.toList) then true
    else if [ "australia", "new zealand", "united states", "united kingdom",
              "usa", "uk", "canada" ].any (fun w => lcL tc = w.toList) then true
    else false

/-- Case-insensitive single-character token. -/
def ciChr (c : Char) : RTok :=
  .chr (fun d => lcc d = lcc c)

/-- Apostrophe-like characters, the class `[’'`´]` of the possessive
artifact patterns (given by code point: right single quote, apostrophe,
grave accent, acute accent). -/
def isApos (c : Char) : Bool :=
  c.toNat = 8217 || c.toNat = 39 || c.toNat = 96 || c.toNat = 180

/-- sds_extractor.py `is_noise_text` noise patterns (lines 123-155), in
source order.  Each is tried with `re.match(pattern, text, re.IGNORECASE)`,
so a pattern ending in `$` is a whole-string test (first component
`true`) and one without `$` a prefix test (first component `false`). -/
def sdsNoisePatterns : List (Bool × List RTok) :=
  [ (true, ciWords ["msds", "date"]),
    (true, ciWords ["alternative", "number(s)"]),
    (true, ciWords ["facsimile", "number"]),
    (true, ciWords ["safety", "data", "sheet"]),
    (true, litsCI "name"),
    (true, ciWords ["registered", "company", "name"]),
    (true, [.chr (fun c => c = ':')]),
    (true, [.chr isApos, ciChr 's']),
    -- ^UK,?\s+NPIS.*\d{2,4}\s+\d{2,4}\s+\d{2,4}
    (false, litsCI "uk" ++ [.opt [.chr (fun c => c = ',')], ws1] ++ litsCI "npis"
      ++ [.starC notNl] ++ digits24 ++ [ws1] ++ digits24 ++ [ws1] ++ digits24),
    -- ^Australia\s+-\s+\d{2,4}\s+\d{2,4}\s+\d{2,4}
    (false, litsCI "australia" ++ [ws1, .chr (fun c => c = '-'), ws1]
      ++ digits24 ++ [ws1] ++ digits24 ++ [ws1] ++ digits24),
    (false, phoneShape),
    (false, ciWords ["emergency", "telephone"]),
    (false, ciWords ["contact", "details"]),
    (true, ciWords ["details", "of", "the", "supplier"]),
    (false, litsCI "telephone"),
    (false, litsCI "phone"),
    (false, litsCI "fax"),
    (false, litsCI "email"),
    (false, litsCI "address"),
    (false, litsCI "website"),
    (true, ciWords ["emergency", "telephone", "number"]),
    -- ^Company[:.]?\s*$
    (true, litsCI "company" ++ [.opt [.chr (fun c => c = ':' || c = '.')], ws0]),
    -- ^Company\s+No\.?[:.]?\s*$
    (true, ciWords ["company", "no"] ++
      [.opt [.chr (fun c => c = '.')],
       .opt [.chr (fun c => c = ':' || c = '.')], ws0]),
    (true, ciWords ["other", "name(s)"]),
    (true, ciWords ["formulation", "#"]),
    -- ^Registration\s+no\.?\s*–?\s*US:?\s*$  (en dash U+2013)
    (true, ciWords ["registration", "no"] ++
      [.opt [.chr (fun c => c = '.')], ws0,
       .opt [.chr (fun c => c.toNat = 8211)], ws0] ++ litsCI "us" ++
      [.opt [.chr (fun c => c = ':')], ws0]),
    (true, litsCI "group"),
    (false, litsCI "synonyms"),
    (false, ciWords ["product", "code"]),
    (false, ciWords ["hs", "code"]),
    -- ^-\s*-$
    (true, [.chr (fun c => c = '-'), ws0, .chr (fun c => c = '-')]) ]

/-- `^\d(?:\.\d)?$` - the short numeric DG-class shape allowed through
the length check of sds_extractor.py `is_noise_text`. -/
def sdsShortNumericPat (l : List Char) : Bool :=
  match l with
  | [c] => isDigitCh c
  | [a, '.', b] => isDigitCh a && isDigitCh b
  | _ => false

/-- sds_extractor.py `is_noise_text` (lines 109-162): empty or
whitespace-only strings are noise; stripped strings shorter than 2 are
noise unless they match `^\d(?:\.\d)?$` ("Allow short numeric values
like 9 for DG class"); otherwise the noise patterns above decide. -/
def sds_is_noise_text (text : List Char) : Bool :=
  if text.isEmpty then true
  else
    let t := pyStrip text
    if t.isEmpty then true
    else if t.length < 2 && ¬ sdsShortNumericPat t then true
    else
      sdsNoisePatterns.any (fun pr =>
        if pr.1 then reFull pr.2 t else (reMatchRest pr.2 none t).isSome)

/-- State machine for `collapseWs`: `inRun` records whether the previous
character was whitespace (a continuing run adds nothing). -/
def collapseWsGo (inRun : Bool) : List Char → List Char
  | [] => []
  | c :: rest =>
    if isPyWs c then
      if inRun then collapseWsGo true rest
      else ' ' :: collapseWsGo true rest
    else c :: collapseWsGo false rest

/-- Replace every whitespace run by a single space:
`re.sub(r"\s+", " ", value)`. -/
def collapseWs (l : List Char) : List Char :=
  collapseWsGo false l

/-- Scan for the backreference match of
`re.match(r"^(?P<p>.+?)\s+(?P=p)$", cleaned)`: non-greedy, so the
shortest prefix `p` (length `k`, tried upwards from 1) such that
`cleaned = p ++ run ++ p` with `run` a non-empty whitespace run wins.
(`cleaned` comes out of `collapseWs`, so runs are single spaces and `.`
never meets a newline.) -/
def dedupScan (cleaned : List Char) (k : Nat) : Nat → Option (List Char)
  | 0 => none
  | fuel + 1 =>
    if cleaned.length ≤ k then none
    else
      let q := cleaned.take k
      let rest := cleaned.drop k
      if 1 ≤ k && ¬ (rest.takeWhile isPyWs).isEmpty &&
          decide (rest.dropWhile isPyWs = q) then some q
      else dedupScan cleaned (k + 1) fuel

/-- sds_extractor.py `dedup_repeated_phrase` (lines 165-175): normalise
whitespace, then collapse an exact whole-phrase repetition. -/
def dedup_repeated_phrase (value : List Char) : List Char :=
  if value.isEmpty then value
  else
    let cleaned := pyStrip (collapseWs value)
    match dedupScan cleaned 1 cleaned.length with
    | some q => q
    | none => cleaned

/-- sds_extractor.py `COMMON_FIELD_LABELS` (lines 75-106), in source
order; used to trim values at an embedded second label via
`re.search(other + r'\s*[:\-]?', value, re.IGNORECASE)` (the appended
`\s*[:\-]?` can match empty, so the search start is decided by the label
pattern itself). -/
def COMMON_FIELD_LABELS : List (List RTok) :=
  [ ciWords ["product", "identifier"],
    ciWords ["product", "name"],
    ciWords ["trade", "name"],
    ciWords ["commercial", "product", "name"],
    litsCI "manufacturer",
    ciWords ["supplier", "name"],
    litsCI "supplier",
    ciWords ["company", "name", "of", "supplier"],
    litsCI "producer",
    ciWords ["company", "name"],
    ciWords ["registered", "company", "name"],
    litsCI "distributor",
    ciWords ["product", "description"],
    litsCI "description",
    ciWords ["use", "of", "the", "substance"],
    ciWords ["recommended", "use"],
    ciWords ["intended", "use"],
    ciWords ["product", "use"],
    ciWords ["relevant", "identified", "uses"],
    ciWords ["identified", "uses"],
    litsCI "application",
    ciWords ["chemical", "name"],
    ciWords ["product", "code"],
    litsCI "synonym" ++ [.opt [ciChr 's']],
    ciWords ["proper", "shipping", "name"],
    ciWords ["un", "number"],
    litsCI "hazchem",
    litsCI "epg",
    -- Packing\s*Group(?:\(s\))?
    litsCI "packing" ++ [ws0] ++ litsCI "group" ++ [.opt (litsCI "(s)")],
    -- Hazard\s*class(?:\(es\))?
    litsCI "hazard" ++ [ws0] ++ litsCI "class" ++ [.opt (litsCI "(es)")] ]

/-- One pass of sds_extractor.py `strip_leading_label_prefix`:
`re.sub(pat, "", out, flags=re.IGNORECASE).strip()` for an anchored
prefix pattern (at most one occurrence can match). -/
def subLabelPre (toks : List RTok) (out : List Char) : List Char :=
  match reMatchRest toks none out with
  | some rest => pyStrip rest
  | none => pyStrip out

/-- `\s*[:\-]?\s*` - the separator tail of the label-prefix patterns. -/
def sepTail : List RTok :=
  [ws0, .opt [.chr (fun c => c = ':' || c = '-')], ws0]

/-- sds_extractor.py `strip_leading_label_prefix` (lines 178-192),
renamed with a plural ending; removes leaked leading field labels,
applying the five anchored patterns in source order. -/
def strip_leading_label_prefixes (value : List Char) : List Char :=
  if value.isEmpty then value
  else
    [ ciWords ["product", "identifier"] ++ sepTail,
      ciWords ["product", "name"] ++ sepTail,
      ciWords ["trade", "name"] ++ sepTail,
      ciWords ["commercial", "product", "name"] ++ sepTail,
      [RTok.alts
        [ litsCI "manufacturer",
          ciWords ["supplier", "name"],
          litsCI "supplier",
          ciWords ["company", "name", "of", "supplier"],
          litsCI "producer",
          ciWords ["company", "name"],
          ciWords ["registered", "company", "name"],
          litsCI "distributor" ]] ++ sepTail
    ].foldl (fun out toks => subLabelPre toks out) value

/-- config.py `FIELD_LABELS['product_name']`. -/
def FIELD_LABELS_product_name : List (List RTok) :=
  [ ciWords ["trade", "name"],
    ciWords ["product", "name"],
    ciWords ["product", "identifier"],
    ciWords ["commercial", "product", "name"],
    ciWords ["product", "designation"],
    ciWords ["product", "code"] ]

/-- config.py `FIELD_LABELS['manufacturer']`. -/
def FIELD_LABELS_manufacturer : List (List RTok) :=
  [ litsCI "manufacturer",
    ciWords ["supplier", "name"],
    litsCI "supplier",
    ciWords ["company", "name", "of", "supplier"],
    ciWords ["details", "of", "the", "supplier"],
    litsCI "producer",
    ciWords ["company", "name"],
    ciWords ["registered", "company", "name"],
    litsCI "distributor",
    litsCI "manufacturer" ++ [ws0, .chr (fun c => c = '/'), ws0] ++ litsCI "supplier" ]

/-- config.py `FIELD_LABELS['product_use']`. -/
def FIELD_LABELS_product_use : List (List RTok) :=
  [ ciWords ["recommended", "use"],
    ciWords ["intended", "use"],
    ciWords ["use", "of", "the", "substance"],
    litsCI "use" ++ [ws0] ++ litsCI "(s)",
    litsCI "use" ++ [wbTok],
    ciWords ["product", "use"],
    ciWords ["relevant", "identified", "uses"],
    ciWords ["identified", "uses"],
    ciWords ["uses", "advised", "against"] ]

/-- config.py `FIELD_LABELS['dangerous_goods_class']`. -/
def FIELD_LABELS_dangerous_goods_class : List (List RTok) :=
  [ ciWords ["dg", "class"],
    litsCI "class",
    ciWords ["transport", "hazard", "class"],
    [RTok.opt [.alts [litsCI "imdg", litsCI "iata", litsCI "adg"]], ws0] ++
      ciWords ["hazard", "class"],
    ciWords ["australian", "dangerous", "goods", "class"],
    ciWords ["dangerous", "goods", "class"],
    ciWords ["un", "class"] ]

/-- config.py `FIELD_LABELS['subsidiary_risk']`. -/
def FIELD_LABELS_subsidiary_risk : List (List RTok) :=
  [ ciWords ["subsidiary", "risk"],
    ciWords ["subsidiary", "hazard"],
    ciWords ["secondary", "risk"] ]

/-- config.py `FIELD_LABELS['packing_group']`. -/
def FIELD_LABELS_packing_group : List (List RTok) :=
  [ ciWords ["packing", "group"],
    litsCI "pg",
    [RTok.starC notNl] ++ ciWords ["packing", "group"],
    ciWords ["australian", "dangerous", "goods", "packing", "group"] ]

/-- All `FIELD_LABELS` entries flattened in dict insertion order
(`[l for labs in FIELD_LABELS.values() for l in labs]`,
field_extractor.py line 162). -/
def FIELD_LABELS_all : List (List RTok) :=
  FIELD_LABELS_product_name ++ FIELD_LABELS_manufacturer ++
  FIELD_LABELS_product_use ++ FIELD_LABELS_dangerous_goods_class ++
  FIELD_LABELS_subsidiary_risk ++ FIELD_LABELS_packing_group

/-- End-of-line zero-width test: `$` under `re.MULTILINE`. -/
def eolTok : RTok :=
  .zw (fun _ cs => cs.isEmpty || cs.head? = some '\n')

/-- Colon-or-period class `[:\.]`. -/
def isColonDot (c : Char) : Bool :=
  c = ':' || c = '.'

/-- Whitespace, colon or period: the section-delimiter class
`(?:\s|:|\.)`. -/
def isSecDelim (c : Char) : Bool :=
  isPyWs c || c = ':' || c = '.'

/-- The literal decimal digits of `n` as matcher tokens. -/
def natLits (n : Nat) : List RTok :=
  litsCS (toString n)

/-- Optional `section\s*` head of every section pattern. -/
def optSection : RTok :=
  .opt (litsCI "section" ++ [ws0])

/-- Leftmost `re.search` under `re.MULTILINE` for a `^`-anchored pattern:
try the tokens at each line-start position (string start, or just after a
newline; a `firstIsStart` call treats position 0 as a line start, which
models searching inside a slice `text[p:]` where Python re-checks the
real character before `p` - callers pass `firstIsStart := true` together
with `prev := none` only for genuine starts).  Returns the match start
position offset by `pos`. -/
def scanLS (toks : List RTok) (prev : Option Char) (cs : List Char)
    (pos : Nat) (firstIsStart : Bool) : Option Nat :=
  if (firstIsStart || prev = some '\n') &&
      (mrun engineFuel toks prev cs (fun _ _ => some (0 : Nat))).isSome then
    some pos
  else
    match cs with
    | [] => none
    | c :: cs' => scanLS toks (some c) cs' (pos + 1) (decide (c = '\n'))

/-- As `scanLS` but also returning the number of characters consumed by
the (preferred) match. -/
def scanLSLen (toks : List RTok) (prev : Option Char) (cs : List Char)
    (pos : Nat) (firstIsStart : Bool) : Option (Nat × Nat) :=
  match (if firstIsStart || prev = some '\n' then
           mrun engineFuel toks prev cs (fun _ r => some (cs.length - r.length))
         else none) with
  | some len => some (pos, len)
  | none =>
    match cs with
    | [] => none
    | c :: cs' => scanLSLen toks (some c) cs' (pos + 1) (decide (c = '\n'))

/-- Strict section-start pattern of sds_extractor.py `get_section`
(lines 290-296): for section 1
`^\s*(?:section\s*)?1\s*[:\.]?\s.*identification.*$`, for section 14 the
same with `transport`, otherwise `^\s*(?:section\s*)?{n}\s*[:\.]\s.*$`
(delimiter required). -/
def sdsStrictStartToks (n : Nat) : List RTok :=
  if n = 1 then
    [ws0, optSection] ++ natLits 1 ++
      [ws0, .opt [.chr isColonDot], .chr isPyWs, .starC notNl] ++
      litsCI "identification" ++ [.starC notNl, eolTok]
  else if n = 14 then
    [ws0, optSection] ++ natLits 14 ++
      [ws0, .opt [.chr isColonDot], .chr isPyWs, .starC notNl] ++
      litsCI "transport" ++ [.starC notNl, eolTok]
  else
    [ws0, optSection] ++ natLits n ++
      [ws0, .chr isColonDot, .chr isPyWs, .starC notNl, eolTok]

/-- Next-section pattern of sds_extractor.py `get_section` (line 298):
`^\s*(?:section\s*)?\d{1,2}\s*[:\.]\s` - any one- or two-digit number. -/
def sdsNextToks : List RTok :=
  [ws0, optSection, .chr isDigitCh, .repLeC 1 isDigitCh, ws0,
   .chr isColonDot, .chr isPyWs]

/-- `(?!\s*/)` - not followed by optional whitespace and a slash. -/
def notWsSlash : RTok :=
  .zw (fun _ cs => ¬ ((cs.dropWhile isPyWs).head? = some '/'))

/-- `(?!\.\d)` - not followed by a period and a digit. -/
def notDotDigit : RTok :=
  .zw (fun _ cs =>
    match cs with
    | '.' :: d :: _ => ¬ isDigitCh d
    | _ => true)

/-- Head of the loose fallback pattern of sds_extractor.py `get_section`
(lines 309-310) after the `(?:^|\n)` entry:
`\s*(?:section\s*)?{n}(?!\s*/)(?:\s|:|\.)`. -/
def sdsLooseHeadToks (n : Nat) : List RTok :=
  [ws0, optSection] ++ natLits n ++ [notWsSlash, .chr isSecDelim]

/-- Terminator lookahead of the loose pattern:
`(?=\n\s*(?:section\s*)?\d{1,2}(?!\.\d)(?!\s*/)(?:\s|:|\.)|$)`. -/
def sdsLooseTermToks : List RTok :=
  [.chr (fun c => c = '\n'), ws0, optSection,
   .chr isDigitCh, .repLeC 1 isDigitCh, notDotDigit, notWsSlash,
   .chr isSecDelim]

/-- Length of the lazy `.*?` body of the loose pattern: extend the body
one character at a time until the terminator lookahead (or `$`: end of
text, or just before a final newline) succeeds. -/
def sdsLooseBodyLen (cs : List Char) : Nat :=
  if cs = ['\n'] then 0
  else if (mrun engineFuel sdsLooseTermToks none cs
            (fun _ _ => some (0 : Nat))).isSome then 0
  else
    match cs with
    | [] => 0
    | _ :: rest => 1 + sdsLooseBodyLen rest

/-- Loose-path search of sds_extractor.py `get_section`: leftmost
position where `(?:^|\n)` + head matches, returning
(match start, match length). -/
def sdsLooseSearch (n : Nat) (text : List Char) : Option (Nat × Nat) :=
  sdsLooseGo n text text 0
where
  /-- Try each position: at position 0 the `^` branch (no newline
  consumed); at a newline the `\n` branch (the newline belongs to the
  match). -/
  sdsLooseGo (n : Nat) (text : List Char) (cs : List Char) (pos : Nat) :
      Option (Nat × Nat) :=
    let tryHead : List Char → Option Nat := fun body =>
      mrun engineFuel (sdsLooseHeadToks n) none body
        (fun _ rest => some (body.length - rest.length + sdsLooseBodyLen rest))
    match
      (if pos = 0 then tryHead cs
       else match cs with
            | '\n' :: after => (tryHead after).map (· + 1)
            | _ => none) with
    | some len => some (pos, len)
    | none =>
      match cs with
      | [] => none
      | _ :: cs' => sdsLooseGo n text cs' (pos + 1)

/-- sds_extractor.py `get_section` (lines 278-312): strict line-start
header search (the slice search for the next header treats position
`start + 1` as a line start, as Python does for `text[start+1:]`), with
the loose single-pass fallback; the returned slice begins at the header
line itself. -/
def sds_get_section (text : List Char) (n : Nat) : List Char :=
  match scanLS (sdsStrictStartToks n) none text 0 true with
  | some start =>
    let slice := text.drop (start + 1)
    let endPos :=
      match scanLS sdsNextToks none slice 0 true with
      | some q => start + 1 + q
      | none => text.length
    (text.take endPos).drop start
  | none =>
    match sdsLooseSearch n text with
    | some (s, len) => (text.take (s + len)).drop s
    | none => []

/-- Is `p` a line-start position of `text` (Python `^` under
`re.MULTILINE`): the string start, or just after a newline? -/
def lineStartAt (text : List Char) (p : Nat) : Bool :=
  p = 0 || text.get? (p - 1) = some '\n'

/-- The number captured by config.py `SECTION_PATTERN`
(`^\s*(?:section\s*)?(\d{1,2})(?:\s|:|\.)(?=\s)`) when it matches at
position `p` of `text` (the `^` test is done by the caller): after
optional whitespace and an optional `section`, one or two digits
(greedy, so two digits are preferred when both parses succeed), a
delimiter, and a whitespace lookahead. -/
def secPatNumAt (text : List Char) (p : Nat) : Option Nat :=
  mrun engineFuel [ws0, optSection] none (text.drop p)
    (fun _ rest =>
      let try1 : List Char → Option Nat := fun cs =>
        match cs with
        | d :: c :: c2 :: _ =>
          if isDigitCh d && isSecDelim c && isPyWs c2 then
            some (digitsToNat [d])
          else none
        | _ => none
      match rest with
      | d1 :: d2 :: c :: c2 :: _ =>
        if isDigitCh d1 && isDigitCh d2 && isSecDelim c && isPyWs c2 then
          some (digitsToNat [d1, d2])
        else try1 rest
      | _ => try1 rest)

/-- Does a strictly-greater-numbered `SECTION_PATTERN` header start at
position `p` (the `finditer` loop of modules/utils.py `get_section`,
lines 147-151, keeps only `num > number`)? -/
def utilsGreaterHeaderAt (text : List Char) (n : Nat) (p : Nat) : Bool :=
  lineStartAt text p &&
    (match secPatNumAt text p with
     | some num => decide (n < num)
     | none => false)

/-- First position at or after `p` where a strictly-greater-numbered
section header starts, or `text.length` if none: the `finditer` scan of
modules/utils.py `get_section`. -/
def utilsFindEnd (text : List Char) (n : Nat) (p : Nat) : Nat → Nat
  | 0 => text.length
  | fuel + 1 =>
    if text.length ≤ p then text.length
    else if utilsGreaterHeaderAt text n p then p
    else utilsFindEnd text n (p + 1) fuel

/-- Start pattern of modules/utils.py `get_section` (line 138):
`^\s*(?:section\s*)?{number}\b[^\n]*` - note: only a word boundary after
the number, no delimiter required. -/
def utilsStartToks (n : Nat) : List RTok :=
  [ws0, optSection] ++ natLits n ++ [wbTok, .starC notNl]

/-- modules/utils.py `get_section` (lines 134-153): find the header line
(match start anywhere, `^`-anchored, multiline), take the body from the
end of the header match to the start of the next strictly-greater
`SECTION_PATTERN` header (or end of text). -/
def utils_get_section (text : List Char) (n : Nat) : List Char :=
  match scanLSLen (utilsStartToks n) none text 0 true with
  | none => []
  | some (s, mlen) =>
    let start := s + mlen
    let endP := utilsFindEnd text n start (text.length + 1)
    (text.take endP).drop start

/-- A calendar date as produced by `datetime.date`. -/
structure PyDate where
  y : Nat
  m : Nat
  d : Nat
deriving DecidableEq, Repr

/-- Order-embedding key: lexicographic on (year, month, day); months and
days never reach 32, so the comparison agrees with `datetime.date`
ordering on valid dates. -/
def dateKey (a : PyDate) : Nat :=
  a.y * 384 + a.m * 32 + a.d

/-- Gregorian leap year (`calendar.isleap`). -/
def isLeap (y : Nat) : Bool :=
  y % 4 = 0 && (y % 100 ≠ 0 || y % 400 = 0)

/-- Days in a month. -/
def daysInMonth (y m : Nat) : Nat :=
  if m = 2 then (if isLeap y then 29 else 28)
  else if m = 4 || m = 6 || m = 9 || m = 11 then 30
  else 31

/-- Validity check performed by the `datetime.date` constructor
(year bounds are irrelevant for the strings in this file). -/
def validDate (y m d : Nat) : Bool :=
  1 ≤ m && m ≤ 12 && 1 ≤ d && d ≤ daysInMonth y m

/-- Build a date, failing (like `datetime.date`) on invalid input. -/
def mkDate (y m d : Nat) : Option PyDate :=
  if validDate y m d then some ⟨y, m, d⟩ else none

/-- A natural number as decimal digits, zero-padded to width `w`. -/
def padNat (w n : Nat) : List Char :=
  let s := (toString n).toList
  List.replicate (w - s.length) '0' ++ s

/-- `d.strftime('%Y-%m-%d')`. -/
def fmtIso (a : PyDate) : List Char :=
  padNat 4 a.y ++ '-' :: (padNat 2 a.m ++ '-' :: padNat 2 a.d)

/-- English month names with their numbers (dateutil `parserinfo.MONTHS`
and the `%B` names of `strptime`), lower-cased. -/
def monthFullNames : List (List Char × Nat) :=
  [ ("january".toList, 1), ("february".toList, 2), ("march".toList, 3),
    ("april".toList, 4), ("may".toList, 5), ("june".toList, 6),
    ("july".toList, 7), ("august".toList, 8), ("september".toList, 9),
    ("october".toList, 10), ("november".toList, 11), ("december".toList, 12) ]

/-- Three-letter month abbreviations (`%b` and dateutil), lower-cased. -/
def monthAbbrevs : List (List Char × Nat) :=
  [ ("jan".toList, 1), ("feb".toList, 2), ("mar".toList, 3),
    ("apr".toList, 4), ("may".toList, 5), ("jun".toList, 6),
    ("jul".toList, 7), ("aug".toList, 8), ("sep".toList, 9),
    ("oct".toList, 10), ("nov".toList, 11), ("dec".toList, 12) ]

/-- Month number from a name token: full name or three-letter
abbreviation, case-insensitive, tolerating one trailing period
(dateutil tokenises `Sep.` as `Sep` plus punctuation). -/
def monthFromName (tok : List Char) : Option Nat :=
  let t := lcL tok
  let t := if t.getLast? = some '.' then t.dropLast else t
  match monthFullNames.find? (fun pr => pr.1 = t) with
  | some pr => some pr.2
  | none =>
    match monthAbbrevs.find? (fun pr => pr.1 = t) with
    | some pr => some pr.2
    | none => none

/-- dateutil two-digit-year convention (`parserinfo.convertyear` with
today in the 2000s): below 50 means 20xx, otherwise 19xx. -/
def duFixYear (y : Nat) : Nat :=
  if y < 100 then (if y < 50 then 2000 + y else 1900 + y) else y

/-- CPython `strptime` `%y` convention: 0-68 means 20xx, 69-99 19xx. -/
def pyFixY2 (y : Nat) : Nat :=
  if y ≤ 68 then 2000 + y else 1900 + y

/-- Tokens of a `strptime` format string: `%d`, `%m`, `%Y` (exactly four
digits), `%y` (exactly two), `%b`, `%B`, literal characters, and a
literal space (which `strptime` matches against `\s+`). -/
inductive FTok where
  | D | M | Y4 | Y2 | Babb | Bfull | lit (c : Char) | sp

/-- Parse one to two leading digits greedily (the CPython `TimeRE`
day/month classes accept `3[01]|[12]\d|0[1-9]|[1-9]` style one- or
two-digit values; the range itself is checked by the caller through
`validDate`); the continuation allows backtracking from two digits to
one. -/
def take12Digits {α : Type} (cs : List Char) (k : Nat → List Char → Option α) :
    Option α :=
  match cs with
  | d1 :: d2 :: rest =>
    if isDigitCh d1 && isDigitCh d2 then
      (k (digitsToNat [d1, d2]) rest) <|> (k (digitsToNat [d1]) (d2 :: rest))
    else if isDigitCh d1 then k (digitsToNat [d1]) (d2 :: rest)
    else none
  | [d1] => if isDigitCh d1 then k (digitsToNat [d1]) [] else none
  | [] => none

/-- Exactly `n` digits. -/
def takeNDigits {α : Type} (n : Nat) (cs : List Char)
    (k : Nat → List Char → Option α) : Option α :=
  let ds := cs.take n
  if ds.length = n && ds.all isDigitCh then k (digitsToNat ds) (cs.drop n)
  else none

/-- A month name at the front of the input: try the longest leading
letter run, falling back towards shorter prefixes as `strptime`'s
alternation would (month names never prefix each other problematically,
but `May.` style inputs need the case-insensitive lookup on the letter
run only). -/
def takeMonthName {α : Type} (abbrevOnly : Bool) (cs : List Char)
    (k : Nat → List Char → Option α) : Option α :=
  let run := cs.takeWhile isAlphaCh
  let table := if abbrevOnly then monthAbbrevs else monthFullNames
  match table.find? (fun pr => pr.1 = lcL run) with
  | some pr => k pr.2 (cs.drop run.length)
  | none => none

/-- Run a `strptime` format against the whole string, accumulating
day/month/year; mirrors `datetime.strptime(s, fmt).date()`, failing when
the string does not match exactly or the date is invalid. -/
def strptimeGo (fmt : List FTok) (cs : List Char) (d m y : Option Nat) :
    Option PyDate :=
  match fmt with
  | [] =>
    match cs, d, m, y with
    | [], some dv, some mv, some yv => mkDate yv mv dv
    | _, _, _, _ => none
  | .D :: rest => take12Digits cs (fun v cs' => strptimeGo rest cs' (some v) m y)
  | .M :: rest => take12Digits cs (fun v cs' => strptimeGo rest cs' d (some v) y)
  | .Y4 :: rest => takeNDigits 4 cs (fun v cs' => strptimeGo rest cs' d m (some v))
  | .Y2 :: rest =>
    takeNDigits 2 cs (fun v cs' => strptimeGo rest cs' d m (some (pyFixY2 v)))
  | .Babb :: rest => takeMonthName true cs (fun v cs' => strptimeGo rest cs' d (some v) y)
  | .Bfull :: rest => takeMonthName false cs (fun v cs' => strptimeGo rest cs' d (some v) y)
  | .lit c :: rest =>
    match cs with
    | c' :: cs' => if c' = c then strptimeGo rest cs' d m y else none
    | [] => none
  | .sp :: rest =>
    let run := cs.takeWhile isPyWs
    if run.isEmpty then none else strptimeGo rest (cs.dropWhile isPyWs) d m y

/-- `datetime.strptime(s, fmt).date()` for one format. -/
def strptimeFmt (fmt : List FTok) (s : List Char) : Option PyDate :=
  strptimeGo fmt s none none none

/-- Slash-or-dash class (regex `[/` + `-]`). -/
def isSlashDash (c : Char) : Bool :=
  c = '/' || c = '-'

/-- `[\-\/.]` class. -/
def isDashSlashDot (c : Char) : Bool :=
  c = '-' || c = '/' || c = '.'

/-- dateutil model, ISO shape `yyyy-mm-dd`. -/
def duParseIso (s : List Char) : Option PyDate :=
  takeNDigits 4 s (fun y cs =>
    match cs with
    | '-' :: cs2 =>
      takeNDigits 2 cs2 (fun m cs3 =>
        match cs3 with
        | '-' :: cs4 =>
          takeNDigits 2 cs4 (fun d cs5 =>
            if cs5.isEmpty then mkDate y m d else none)
        | _ => none)
    | _ => none)

/-- A trailing 2-4 digit year consuming the rest of the string,
two-digit years resolved with the dateutil convention. -/
def duYearEnd (cs : List Char) : Option Nat :=
  let ds := cs.takeWhile isDigitCh
  if 2 ≤ ds.length && ds.length ≤ 4 && (cs.drop ds.length).isEmpty then
    some (duFixYear (digitsToNat ds))
  else none

/-- dateutil model, numeric shape `a sep b sep year` parsed with
`dayfirst=True`: `b` is the month when it can be (1-12), otherwise the
two numbers swap roles; an out-of-range result is a parse failure. -/
def duParseNumeric (s : List Char) : Option PyDate :=
  take12Digits s (fun a cs =>
    match cs with
    | c1 :: cs2 =>
      if isDashSlashDot c1 then
        take12Digits cs2 (fun b cs3 =>
          match cs3 with
          | c2 :: cs4 =>
            if isDashSlashDot c2 then
              match duYearEnd cs4 with
              | some yv => if b ≤ 12 then mkDate yv b a else mkDate yv a b
              | none => none
            else none
          | [] => none)
      else none
    | [] => none)

/-- A month-name token at the front: letter run plus an optional
trailing period, resolved through `monthFromName`. -/
def duMonthTok {α : Type} (cs : List Char) (k : Nat → List Char → Option α) :
    Option α :=
  let run := cs.takeWhile isAlphaCh
  if run.isEmpty then none
  else
    match monthFromName run with
    | none => none
    | some mv =>
      let rest := cs.drop run.length
      let rest := match rest with
                  | '.' :: r => r
                  | r => r
      k mv rest

/-- dateutil model, `Month d, yyyy` shape. -/
def duParseMonthFirst (s : List Char) : Option PyDate :=
  duMonthTok s (fun mv cs =>
    let cs := cs.dropWhile isPyWs
    take12Digits cs (fun dv cs2 =>
      let cs2 := match cs2 with
                 | ',' :: r => r
                 | r => r
      let cs2 := cs2.dropWhile isPyWs
      takeNDigits 4 cs2 (fun yv cs3 =>
        if cs3.isEmpty then mkDate yv mv dv else none)))

/-- dateutil model, `d Month yyyy` shape. -/
def duParseDayMonth (s : List Char) : Option PyDate :=
  take12Digits s (fun dv cs =>
    let ws := cs.takeWhile isPyWs
    if ws.isEmpty then none
    else
      duMonthTok (cs.dropWhile isPyWs) (fun mv cs2 =>
        let ws2 := cs2.takeWhile isPyWs
        if ws2.isEmpty then none
        else
          takeNDigits 4 (cs2.dropWhile isPyWs) (fun yv cs3 =>
            if cs3.isEmpty then mkDate yv mv dv else none)))

/-- dateutil model, `d-Mon-yy` / `d.Mon.yyyy` shape. -/
def duParseDayMonSep (s : List Char) : Option PyDate :=
  take12Digits s (fun dv cs =>
    match cs with
    | c1 :: cs2 =>
      if isDashSlashDot c1 then
        duMonthTok cs2 (fun mv cs3 =>
          match cs3 with
          | c2 :: cs4 =>
            if isDashSlashDot c2 then
              match duYearEnd cs4 with
              | some yv => mkDate yv mv dv
              | none => none
            else none
          | [] => none)
      else none
    | [] => none)

/-- Model of `dateutil.parser.parse(candidate, dayfirst=True).date()` on
the date shapes matched by `DATE_PATTERN` (config.py lines 9-18): ISO,
day-first numeric, month-name-first, day-month-name, and
day/sep/month-abbreviation/sep/year; anything else is a parse failure
(in Python an exception that skips the candidate). -/
def duParse (s : List Char) : Option PyDate :=
  (duParseIso s) <|> (duParseNumeric s) <|> (duParseMonthFirst s) <|>
    (duParseDayMonth s) <|> (duParseDayMonSep s)

/-- Label alternatives of config.py `DATE_PATTERN`, in source order:
`Revision(?:\s*Date)?|Issue\s*Date|Date\s*of\s*issue|Version\s*date|SDS\s*creation\s*date|Date\s*Prepared|Prepared\s*on|Prepared|Issued|Printed\s*on|Print\s*date|Printing\s*date`. -/
def dateLabelAlts : List (List RTok) :=
  [ litsCI "revision" ++ [.opt ([ws0] ++ litsCI "date")],
    litsCI "issue" ++ [ws0] ++ litsCI "date",
    litsCI "date" ++ [ws0] ++ litsCI "of" ++ [ws0] ++ litsCI "issue",
    litsCI "version" ++ [ws0] ++ litsCI "date",
    litsCI "sds" ++ [ws0] ++ litsCI "creation" ++ [ws0] ++ litsCI "date",
    litsCI "date" ++ [ws0] ++ litsCI "prepared",
    litsCI "prepared" ++ [ws0] ++ litsCI "on",
    litsCI "prepared",
    litsCI "issued",
    litsCI "printed" ++ [ws0] ++ litsCI "on",
    litsCI "print" ++ [ws0] ++ litsCI "date",
    litsCI "printing" ++ [ws0] ++ litsCI "date" ]

/-- Date alternatives of config.py `DATE_PATTERN` (group 2), in source
order: numeric (one or two digits, slash-or-dash separators, 2-4 digit
year), ISO `\d{4}-\d{2}-\d{2}`,
`[A-Za-z]+\.?\s+\d{1,2},?\s*\d{4}`, `\d{1,2}\s+[A-Za-z]+\.?\s+\d{4}`,
`\d{1,2}[\-\/.][A-Za-z]{3,}\.?[\-\/.]\d{2,4}`. -/
def dateAltToks : List (List RTok) :=
  [ [.chr isDigitCh, .repLeC 1 isDigitCh, .chr isSlashDash,
     .chr isDigitCh, .repLeC 1 isDigitCh, .chr isSlashDash] ++ digits24,
    [.chr isDigitCh, .chr isDigitCh, .chr isDigitCh, .chr isDigitCh,
     .chr (fun c => c = '-'), .chr isDigitCh, .chr isDigitCh,
     .chr (fun c => c = '-'), .chr isDigitCh, .chr isDigitCh],
    [.plusC isAlphaCh, .opt [.chr (fun c => c = '.')], ws1,
     .chr isDigitCh, .repLeC 1 isDigitCh, .opt [.chr (fun c => c = ',')], ws0,
     .chr isDigitCh, .chr isDigitCh, .chr isDigitCh, .chr isDigitCh],
    [.chr isDigitCh, .repLeC 1 isDigitCh, ws1, .plusC isAlphaCh,
     .opt [.chr (fun c => c = '.')], ws1,
     .chr isDigitCh, .chr isDigitCh, .chr isDigitCh, .chr isDigitCh],
    [.chr isDigitCh, .repLeC 1 isDigitCh, .chr isDashSlashDot,
     .chr isAlphaCh, .chr isAlphaCh, .chr isAlphaCh, .starC isAlphaCh,
     .opt [.chr (fun c => c = '.')], .chr isDashSlashDot] ++ digits24 ]

/-- Separator part of `DATE_PATTERN` between the label group and the
date group: `\s*[:]?\s*(?:\nPage[^\n]*\n)?\s*`. -/
def dateSepToks : List RTok :=
  [ws0, .opt [.chr (fun c => c = ':')], ws0,
   .opt ([.chr (fun c => c = '\n')] ++ litsCI "page" ++
         [.starC notNl, .chr (fun c => c = '\n')]),
   ws0]

/-- One attempt of `DATE_PATTERN` at the current position: the label
group is `(\b(?:alternatives)[^\n]{0,40})` - the trailing `[^\n]{0,40}`
is greedy, so the longest label tail that still lets the separator and a
date alternative match is preferred (backtracking flows through the
continuations).  Returns (group 1, group 2, rest after the match). -/
def DATE_PATTERN_at (prev : Option Char) (cs : List Char) :
    Option (List Char × List Char × List Char) :=
  (mrun engineFuel ([wbTok, .alts dateLabelAlts, .repLeC 40 notNl]) prev cs
    (fun prev1 r1 =>
      mrun engineFuel dateSepToks prev1 r1
        (fun prev2 r2 =>
          mrun engineFuel [.alts dateAltToks] prev2 r2
            (fun _ r3 => some (r1, r2, r3))))).map
    (fun t => (cs.take (cs.length - t.1.length),
               t.2.1.take (t.2.1.length - t.2.2.length),
               t.2.2))

/-- `DATE_PATTERN.finditer(text)`: non-overlapping matches, scanning
left to right; yields (group 1, group 2) pairs. -/
def dateFinditer (prev : Option Char) (cs : List Char) (fuel : Nat) :
    List (List Char × List Char) :=
  match fuel with
  | 0 => []
  | f + 1 =>
    match DATE_PATTERN_at prev cs with
    | some (g1, g2, rest) =>
      (g1, g2) :: dateFinditer (g2.getLast? <|> prev) rest f
    | none =>
      match cs with
      | [] => []
      | c :: cs' => dateFinditer (some c) cs' f

/-- High-priority label keys of modules/date_parser.py line 39. -/
def highPriorityKeys : List (List Char) :=
  [ "issue".toList, "prepared".toList, "issued".toList,
    "creation".toList, "revision".toList, "version".toList ]

/-- The candidate-resolution loop of modules/date_parser.py
`extract_issue_date` (lines 21-47): parse each candidate with day-first
preference, skip future dates, return immediately on a high-priority
label, otherwise remember the first valid candidate. -/
def resolveDates (today : PyDate) (ms : List (List Char × List Char))
    (chosen : Option (List Char)) : Option (List Char) :=
  match ms with
  | [] => chosen
  | (label, cand) :: rest =>
    match duParse (pyStrip cand) with
    | none => resolveDates today rest chosen
    | some d =>
      if dateKey today < dateKey d then resolveDates today rest chosen
      else
        let iso := fmtIso d
        if highPriorityKeys.any (fun k => containsSub k label) then some iso
        else resolveDates today rest (some (chosen.getD iso))

/-- modules/date_parser.py `extract_issue_date` (lines 11-53), with
`date.today()` passed in as `today` and python-dateutil modelled as
available (the `ImportError` branch would instead log a warning and
return `None`). -/
def extract_issue_date (today : PyDate) (text : List Char) :
    Option (List Char) :=
  resolveDates today (dateFinditer none text (text.length + 1)) none

/-- `re.sub(r'\b([A-Za-z]{3,})\.', r'\1', s)` - drop each period that
directly follows a word-boundary-started run of at least three letters
(used to normalise `Jan.` to `Jan`).  `prevWord` tracks whether the
previous character was a word character, `runLen` the current letter-run
length, `runOk` whether that run began at a word boundary. -/
def dotSubGo (prevWord : Bool) (runLen : Nat) (runOk : Bool) :
    List Char → List Char
  | [] => []
  | c :: rest =>
    if isAlphaCh c then
      let newLen := runLen + 1
      let newOk := if runLen = 0 then ¬ prevWord else runOk
      c :: dotSubGo true newLen newOk rest
    else if c = '.' && 3 ≤ runLen && runOk then
      -- the whole `letters.` match is consumed; scanning resumes after it
      dotSubGo false 0 true rest
    else
      c :: dotSubGo (isWordCh c) 0 true rest

/-- The month-abbreviation period normalisation used by the date
fallbacks (sds_extractor.py line 671, field_extractor.py line 510). -/
def dotSub (s : List Char) : List Char :=
  dotSubGo false 0 true s

/-- Leftmost search where the pattern splits into a prefix and a
capturing tail: returns the text consumed by the tail (Python
`re.search(pre + r'(cap)', line, re.IGNORECASE).group(1)`). -/
def searchCapture (preToks capToks : List RTok) (line : List Char) :
    Option (List Char) :=
  reSearchK (α := List Char) preToks none line
    (fun prev1 r1 =>
      mrun engineFuel capToks prev1 r1
        (fun _ r2 => some (r1.take (r1.length - r2.length))))

/-- `[:\s]+` of the header date patterns. -/
def colonWs1 : List RTok :=
  [.plusC (fun c => c = ':' || isPyWs c)]

/-- ISO capture `\d{4}-\d{2}-\d{2}`. -/
def isoToks : List RTok :=
  [.chr isDigitCh, .chr isDigitCh, .chr isDigitCh, .chr isDigitCh,
   .chr (fun c => c = '-'), .chr isDigitCh, .chr isDigitCh,
   .chr (fun c => c = '-'), .chr isDigitCh, .chr isDigitCh]

/-- Numeric capture: one or two digits, slash-or-dash, one or two
digits, slash-or-dash, two to four digits. -/
def numDateToks : List RTok :=
  [.chr isDigitCh, .repLeC 1 isDigitCh, .chr isSlashDash,
   .chr isDigitCh, .repLeC 1 isDigitCh, .chr isSlashDash] ++ digits24

/-- Capture `\d{1,2}` sep `[A-Za-z]{3,}\.?` sep `\d{2,4}` with
dash/slash/dot separators. -/
def dMonSepToks : List RTok :=
  [.chr isDigitCh, .repLeC 1 isDigitCh, .chr isDashSlashDot,
   .chr isAlphaCh, .chr isAlphaCh, .chr isAlphaCh, .starC isAlphaCh,
   .opt [.chr (fun c => c = '.')], .chr isDashSlashDot] ++ digits24

/-- Capture `\d{1,2}\s+[A-Za-z]{3,}\.?\s+\d{2,4}`. -/
def dMonWs24Toks : List RTok :=
  [.chr isDigitCh, .repLeC 1 isDigitCh, ws1,
   .chr isAlphaCh, .chr isAlphaCh, .chr isAlphaCh, .starC isAlphaCh,
   .opt [.chr (fun c => c = '.')], ws1] ++ digits24

/-- Capture `\d{1,2}\s+[A-Za-z]{3,}\.?\s+\d{4}`. -/
def dMonWs4Toks : List RTok :=
  [.chr isDigitCh, .repLeC 1 isDigitCh, ws1,
   .chr isAlphaCh, .chr isAlphaCh, .chr isAlphaCh, .starC isAlphaCh,
   .opt [.chr (fun c => c = '.')], ws1,
   .chr isDigitCh, .chr isDigitCh, .chr isDigitCh, .chr isDigitCh]

/-- The `revision_patterns` of field_extractor.py `extract_date_from_header`
(lines 489-503), as (prefix, capture) token pairs in source order. -/
def headerDatePatterns : List (List RTok × List RTok) :=
  let revPre := litsCI "revision" ++ [.opt ([ws0] ++ litsCI "date")] ++ colonWs1
  let rvPre := litsCI "rev" ++ colonWs1
  let datePre := litsCI "date" ++ colonWs1
  [ (revPre, isoToks), (revPre, numDateToks), (revPre, dMonSepToks),
    (rvPre, isoToks), (rvPre, numDateToks), (rvPre, dMonSepToks),
    (datePre, isoToks), (datePre, numDateToks), (datePre, dMonWs24Toks),
    (ciWords ["printing", "date"] ++ colonWs1, dMonWs4Toks),
    (ciWords ["printed", "on"] ++ colonWs1, dMonSepToks) ]

/-- The `strptime` formats tried by `extract_date_from_header`
(field_extractor.py line 514), in source order. -/
def headerFmts : List (List FTok) :=
  [ [.Y4, .lit '-', .M, .lit '-', .D],
    [.D, .lit '/', .M, .lit '/', .Y4],
    [.M, .lit '/', .D, .lit '/', .Y4],
    [.D, .lit '-', .M, .lit '-', .Y4],
    [.D, .sp, .Babb, .sp, .Y4],
    [.D, .sp, .Bfull, .sp, .Y4],
    [.D, .lit '-', .Babb, .lit '-', .Y4],
    [.D, .lit '-', .Babb, .lit '-', .Y2],
    [.D, .lit '.', .Babb, .lit '.', .Y4],
    [.D, .lit '.', .Babb, .lit '.', .Y2] ]

/-- Accept a parsed date only if it is not in the future, rendering it
in ISO form (`parsed_date <= date.today()` guard shared by all date
fallbacks). -/
def acceptPast (today : PyDate) (d : Option PyDate) : Option (List Char) :=
  match d with
  | some dv => if dateKey dv ≤ dateKey today then some (fmtIso dv) else none
  | none => none

/-- field_extractor.py `extract_date_from_header` (lines 474-527): scan
the first 20 lines; on each stripped non-empty line try every header
pattern; for a captured date string, normalise month periods and try the
formats in order, returning the first parse that is not in the future. -/
def extract_date_from_header (today : PyDate) (text : List Char) :
    Option (List Char) :=
  if text.isEmpty then none
  else
    ((splitLines text).take 20).findSome? (fun line =>
      let line := pyStrip line
      if line.isEmpty then none
      else
        headerDatePatterns.findSome? (fun pr =>
          match searchCapture pr.1 pr.2 line with
          | none => none
          | some dstr =>
            let cleaned := dotSub dstr
            headerFmts.findSome? (fun fmt =>
              acceptPast today (strptimeFmt fmt cleaned))))

/-- Label alternatives of the legacy labelled pattern of
sds_extractor.py `extract_date` (line 655), in source order (no `\b`). -/
def legacyLabelAlts : List (List RTok) :=
  [ litsCI "issue" ++ [ws0] ++ litsCI "date",
    litsCI "revision" ++ [.opt ([ws0] ++ litsCI "date")],
    litsCI "date" ++ [ws0] ++ litsCI "of" ++ [ws0] ++ litsCI "issue",
    litsCI "version" ++ [ws0] ++ litsCI "date",
    litsCI "date" ++ [ws0] ++ litsCI "prepared",
    litsCI "prepared" ++ [ws0] ++ litsCI "on",
    litsCI "issued",
    litsCI "msds" ++ [ws0] ++ litsCI "date" ]

/-- Date alternatives of the legacy labelled pattern (line 656): as the
`DATE_PATTERN` group but with `[\-\/\.]+` (one **or more** separator
characters) in the numeric shape. -/
def legacyDateAlts : List (List RTok) :=
  [ [.chr isDigitCh, .repLeC 1 isDigitCh, .plusC isDashSlashDot,
     .chr isDigitCh, .repLeC 1 isDigitCh, .plusC isDashSlashDot] ++ digits24,
    isoToks,
    [.plusC isAlphaCh, .opt [.chr (fun c => c = '.')], ws1,
     .chr isDigitCh, .repLeC 1 isDigitCh, .opt [.chr (fun c => c = ',')], ws0,
     .chr isDigitCh, .chr isDigitCh, .chr isDigitCh, .chr isDigitCh],
    [.chr isDigitCh, .repLeC 1 isDigitCh, ws1, .plusC isAlphaCh,
     .opt [.chr (fun c => c = '.')], ws1,
     .chr isDigitCh, .chr isDigitCh, .chr isDigitCh, .chr isDigitCh],
    dMonSepToks ]

/-- `re.findall` over (prefix, capture) tokens: non-overlapping leftmost
matches, collecting the capture group of each. -/
def findAllCap (preToks capToks : List RTok) (prev : Option Char)
    (cs : List Char) (fuel : Nat) : List (List Char) :=
  match fuel with
  | 0 => []
  | f + 1 =>
    match
      mrun (α := List Char × List Char) engineFuel preToks prev cs
        (fun prev1 r1 =>
          mrun engineFuel capToks prev1 r1
            (fun _ r2 => some (r1.take (r1.length - r2.length), r2))) with
    | some (cap, rest) =>
      cap :: findAllCap preToks capToks (cap.getLast? <|> prev) rest f
    | none =>
      match cs with
      | [] => []
      | c :: cs' => findAllCap preToks capToks (some c) cs' f

/-- The seven legacy `date_patterns` of sds_extractor.py `extract_date`
(lines 653-663) as (prefix, capture) pairs: the big labelled pattern
(with lazy `[^\n]{0,30}?` and optional `[:\-]`), then the
`Revision[:\s]*...` and `REVISION\s+DATE[:\s]*...` variants. -/
def legacyDatePatterns : List (List RTok × List RTok) :=
  let revPre := litsCI "revision" ++ [.starC (fun c => c = ':' || isPyWs c)]
  let revDatePre := litsCI "revision" ++ [ws1] ++ litsCI "date" ++
    [.starC (fun c => c = ':' || isPyWs c)]
  [ ([.alts legacyLabelAlts, .repLazyC 30 notNl,
      .opt [.chr (fun c => c = ':' || c = '-')], ws0],
     [.alts legacyDateAlts]),
    (revPre, isoToks),
    (revPre,
     [.chr isDigitCh, .repLeC 1 isDigitCh, .chr isSlashDash,
      .chr isDigitCh, .repLeC 1 isDigitCh, .chr isSlashDash,
      .chr isDigitCh, .chr isDigitCh, .chr isDigitCh, .chr isDigitCh]),
    (revPre, dMonSepToks),
    (revDatePre,
     [.chr isDigitCh, .repLeC 1 isDigitCh, ws1, .plusC isWordCh,
      .opt [.chr (fun c => c = '.')], ws1,
      .chr isDigitCh, .chr isDigitCh, .chr isDigitCh, .chr isDigitCh]),
    (revDatePre,
     [.chr isDigitCh, .repLeC 1 isDigitCh, .chr isSlashDash,
      .chr isDigitCh, .repLeC 1 isDigitCh, .chr isSlashDash,
      .chr isDigitCh, .chr isDigitCh, .chr isDigitCh, .chr isDigitCh]),
    (revDatePre, dMonSepToks) ]

/-- The `strptime` formats of the legacy date loop (sds_extractor.py
line 672), in source order. -/
def legacyFmts : List (List FTok) :=
  [ [.D, .lit '/', .M, .lit '/', .Y4],
    [.M, .lit '/', .D, .lit '/', .Y4],
    [.Y4, .lit '-', .M, .lit '-', .D],
    [.D, .lit '-', .M, .lit '-', .Y4],
    [.D, .lit '.', .M, .lit '.', .Y4],
    [.D, .sp, .Babb, .sp, .Y4],
    [.D, .sp, .Bfull, .sp, .Y4],
    [.Babb, .sp, .D, .sp, .Y4],
    [.Bfull, .sp, .D, .sp, .Y4],
    [.D, .lit '-', .Babb, .lit '-', .Y4],
    [.D, .lit '-', .Babb, .lit '-', .Y2],
    [.D, .lit '.', .Babb, .lit '.', .Y4],
    [.D, .lit '.', .Babb, .lit '.', .Y2] ]

/-- sds_extractor.py `extract_date` (lines 634-690): the modular
labelled extractor first, then the legacy labelled regexes with the
`strptime` format list (future dates skipped), then the header-based
fallback.  `datetime` and `dateutil` are modelled as importable. -/
def sds_extract_date (today : PyDate) (text : List Char) :
    Option (List Char) :=
  match extract_issue_date today text with
  | some v => some v
  | none =>
    match
      legacyDatePatterns.findSome? (fun pr =>
        (findAllCap pr.1 pr.2 none text (text.length + 1)).findSome?
          (fun dstr =>
            let cleaned := dotSub dstr
            legacyFmts.findSome? (fun fmt =>
              acceptPast today (strptimeFmt fmt cleaned)))) with
    | some v => some v
    | none => extract_date_from_header today text

/-- Case-sensitive literal words separated by `\s+` (for the
`re.sub` calls that pass `re.IGNORECASE` positionally as the `count`
argument and are therefore case-sensitive). -/
def csWords (ws : List String) : List RTok :=
  match ws with
  | [] => []
  | [w] => litsCS w
  | w :: rest => litsCS w ++ ws1 :: csWords rest

/-- Global `re.sub(pattern, "", s)`: remove every non-overlapping
leftmost match, resuming after each removed span (the previous character
carried over a removal is the last character of the removed span, as
Python matches against original positions). -/
def reSubAll (toks : List RTok) (prev : Option Char) (cs : List Char)
    (fuel : Nat) : List Char :=
  match fuel with
  | 0 => cs
  | f + 1 =>
    match mrun (α := Option Char × List Char) engineFuel toks prev cs
        (fun p r => some (p, r)) with
    | some (p, rest) => reSubAll toks p rest f
    | none =>
      match cs with
      | [] => []
      | c :: cs' => c :: reSubAll toks (some c) cs' f

/-- Leading bullet/arrow class of utils.py `clean_company_candidate`
step 1: whitespace, dash, en/em dash, colon, asterisk and the bullet
symbols, given by code point. -/
def isBulletCh (c : Char) : Bool :=
  isPyWs c || c = '-' || c = ':' || c = '*' ||
  c.toNat = 8211 || c.toNat = 8212 || c.toNat = 8226 || c.toNat = 9632 ||
  c.toNat = 9679 || c.toNat = 9658 || c.toNat = 10148 || c.toNat = 9660 ||
  c.toNat = 9670 || c.toNat = 9642

/-- The inline label prefix of `clean_company_candidate` step 2:
`^(?:Company\s+and\s+address|Company|Manufacturer|Supplier(?:\s+Name)?|Distributor|Producer)\s*[:\-]\s*`
(case-insensitive, separator required). -/
def companyLabelPreToks : List RTok :=
  [.alts
    [ ciWords ["company", "and", "address"],
      litsCI "company",
      litsCI "manufacturer",
      litsCI "supplier" ++ [.opt ([ws1] ++ litsCI "name")],
      litsCI "distributor",
      litsCI "producer" ],
   ws0, .chr (fun c => c = ':' || c = '-'), ws0]

/-- Section-header shape of `clean_company_candidate` step 3:
`^(Section\s*\d+\b|\d+\.?\s*(Identification|Hazard)\b)` (prefix test). -/
def sectionHeaderShapeToks : List RTok :=
  [.alts
    [ litsCI "section" ++ [ws0, .plusC isDigitCh, wbTok],
      [.plusC isDigitCh, .opt [.chr (fun c => c = '.')], ws0,
       .alts [litsCI "identification", litsCI "hazard"], wbTok] ]]

/-- Registry parenthetical of step 4:
`\s*\([^)]*(?:ABN|ACN|Formerly)\s*[^)]*\)` (removed globally). -/
def registryParenToks : List RTok :=
  [ws0, .chr (fun c => c = '('), .starC (fun c => c ≠ ')'),
   .alts [litsCI "abn", litsCI "acn", litsCI "formerly"],
   ws0, .starC (fun c => c ≠ ')'), .chr (fun c => c = ')')]

/-- Noise tokens of step 5, wrapped `\b(?:...)\b`, in source order. -/
def companyNoiseToks : List RTok :=
  [wbTok, .alts
    [ litsCI "association" ++ [ws0, .opt [.chr (fun c => c = '/')], ws0] ++
        litsCI "organisation",
      litsCI "poison" ++ [.opt [ciChr 's']] ++ [ws1] ++ litsCI "information",
      litsCI "poison" ++ [ws1] ++ litsCI "information",
      litsCI "emergency" ++
        [.opt [.alts [[ws1] ++ litsCI "telephone", [ws1] ++ litsCI "phone"]]],
      litsCI "abn" ++ [wbTok],
      litsCI "acn" ++ [wbTok],
      litsCI "address",
      litsCI "contact",
      litsCI "website",
      litsCI "email",
      litsCI "tel" ++ [.opt [.chr (fun c => c = '.')]],
      litsCI "phone",
      litsCI "fax" ],
   wbTok]

/-- Corporate-suffix alternatives of step 6, in source order. -/
def corpSuffixAlts : List (List RTok) :=
  [ ciWords ["pty", "ltd"],
    litsCI "p/l",
    litsCI "ltd",
    litsCI "limited",
    litsCI "inc" ++ [.opt [.chr (fun c => c = '.')]],
    litsCI "corp" ++ [.opt [.chr (fun c => c = '.')]],
    litsCI "corporation",
    litsCI "gmbh",
    litsCI "plc",
    litsCI "bv",
    litsCI "s" ++ [.opt [.chr (fun c => c = '.')]] ++ litsCI "a" ++
      [.opt [.chr (fun c => c = '.')]],
    litsCI "s.p.a.",
    litsCI "llc" ]

/-- The lazy suffix clip of step 6:
`^(.*?\b(?:PTY\s+LTD|...|LLC))\b.*$` - find the earliest position where
a corporate suffix (preceded by a word boundary) matches and whose tail
satisfies the final `\b.*$`; group 1 is everything up to the end of that
suffix.  Returns the clipped string, or the input when there is no
match.  (`.` does not cross newlines; candidates are single lines.) -/
def corpSuffixClip (s : List Char) : List Char :=
  go none s 0
where
  go (prev : Option Char) (cs : List Char) (pos : Nat) : List Char :=
    match
      mrun (α := Nat) engineFuel
        ([wbTok, .alts corpSuffixAlts,
          .zw (fun p r =>
            ((match p with | some c => isWordCh c | none => false) !=
              (match r with | c :: _ => isWordCh c | [] => false)) &&
            (r.all notNl ||
              (r.dropLast.all notNl && r.getLast? = some '\n')))])
        prev cs (fun _ r => some (cs.length - r.length)) with
    | some consumed => pyStrip (s.take (pos + consumed))
    | none =>
      match cs with
      | [] => s
      | c :: cs' => if notNl c then go (some c) cs' (pos + 1) else s

/-- modules/utils.py `clean_company_candidate` (lines 44-102): strip,
drop leading bullets, drop an inline company label, reject section
headers, remove registry parentheticals, cut at noise tokens, clip after
a corporate suffix, and trim trailing punctuation. -/
def clean_company_candidate (value : List Char) : List Char :=
  if value.isEmpty then []
  else
    let s := pyStrip value
    let s := s.dropWhile isBulletCh
    let s := match reMatchRest companyLabelPreToks none s with
             | some rest => rest
             | none => s
    if (reMatchRest sectionHeaderShapeToks none s).isSome then []
    else
      let s := reSubAll registryParenToks none s (s.length + 1)
      let s := match reSearchPos companyNoiseToks none s 0 with
               | some p => pyStrip (s.take p)
               | none => s
      let s := corpSuffixClip s
      let s := (s.reverse.dropWhile
        (fun c => isPyWs c || c = ',' || c = '.' || c = ';' || c = ':')).reverse
      pyStrip s

/-- State machine for `compressRuns`: drop a character equal to the
previous one. -/
def compressRunsGo (prev : Char) : List Char → List Char
  | [] => []
  | c :: rest =>
    if c = prev then compressRunsGo prev rest
    else c :: compressRunsGo c rest

/-- `re.sub(r"(.)\1+", r"\1", token)` - collapse every run of a repeated
character (utils.py `_compress_consecutive_duplicates`). -/
def compressRuns (l : List Char) : List Char :=
  match l with
  | [] => []
  | c :: rest => c :: compressRunsGo c rest

/-- ASCII upper-casing (`str.upper()`). -/
def ucc (c : Char) : Char :=
  if 97 ≤ c.toNat ∧ c.toNat ≤ 122 then Char.ofNat (c.toNat - 32) else c

/-- The strip set `" :\t-._"` of utils.py `strip_doubled_label_prefix`. -/
def isLabelTrimCh (c : Char) : Bool :=
  c = ' ' || c = ':' || c = '\t' || c = '-' || c = '.' || c = '_'

/-- modules/utils.py `strip_doubled_label_prefix` (lines 167-204),
renamed with a plural ending: remove a leading label even when rendered
with doubled letters, by comparing the duplicate-compressed, upper-cased,
trimmed head tokens with the known label word lists. -/
def strip_doubled_label_prefixes (text : List Char) : List Char :=
  if text.isEmpty then text
  else
    let raw := pyStrip text
    if raw.isEmpty then raw
    else
      let labels : List (List (List Char)) :=
        [ ["PRODUCT".toList, "NAME".toList],
          ["PRODUCT".toList, "IDENTIFIER".toList],
          ["TRADE".toList, "NAME".toList],
          ["GHS".toList, "PRODUCT".toList, "IDENTIFIER".toList] ]
      let parts := splitWs raw
      match labels.findSome? (fun tokens =>
        let n := tokens.length
        if n ≤ parts.length then
          let head := parts.take n
          let normHead := head.map (fun p =>
            pyStripCh isLabelTrimCh ((compressRuns p).map ucc))
          if normHead = tokens then
            let remainder :=
              pyStrip ((joinWithSpace (parts.drop n)).dropWhile isLabelTrimCh)
            some (if remainder.isEmpty then raw else remainder)
          else none
        else none) with
      | some r => r
      | none => raw
where
  /-- Python `" ".join(parts)`. -/
  joinWithSpace (ls : List (List Char)) : List Char :=
    match ls with
    | [] => []
    | [l] => l
    | l :: rest => l ++ ' ' :: joinWithSpace rest

/-- modules/utils.py `looks_like_numeric_code` (lines 207-215): at least
six characters, no letters, at least one digit. -/
def looks_like_numeric_code (value : List Char) : Bool :=
  if value.isEmpty then false
  else
    let s := pyStrip value
    6 ≤ s.length && ¬ s.any isAlphaCh && s.any isDigitCh

/-- modules/utils.py `compress_duplicates_with_map` (lines 217-243):
collapse consecutive duplicate letters case-insensitively, keeping an
index map back into the original string; non-letters are kept, and a
non-whitespace non-letter resets the duplicate tracking while
whitespace preserves it.  Accumulators are reversed. -/
def cdwmGo (prevAlpha : Option Char) (idx : Nat) (acc : List Char)
    (accMap : List Nat) : List Char → (List Char × List Nat)
  | [] => (acc.reverse, accMap.reverse)
  | ch :: rest =>
    if isAlphaCh ch then
      let low := lcc ch
      if prevAlpha = some low then
        let accMap' := match accMap with
                       | _ :: t => idx :: t
                       | [] => []
        cdwmGo prevAlpha (idx + 1) acc accMap' rest
      else cdwmGo (some low) (idx + 1) (ch :: acc) (idx :: accMap) rest
    else
      let prevAlpha' := if isPyWs ch then prevAlpha else none
      cdwmGo prevAlpha' (idx + 1) (ch :: acc) (idx :: accMap) rest

/-- Entry point of `compress_duplicates_with_map`. -/
def compress_duplicates_with_map (s : List Char) : List Char × List Nat :=
  if s.isEmpty then ([], [])
  else cdwmGo none 0 [] [] s

/-- Leftmost search returning (start position, consumed length) of the
preferred match. -/
def searchPosLen (toks : List RTok) (prev : Option Char) (cs : List Char)
    (acc : Nat) : Option (Nat × Nat) :=
  match mrun (α := Nat) engineFuel toks prev cs
      (fun _ r => some (cs.length - r.length)) with
  | some len => some (acc, len)
  | none =>
    match cs with
    | [] => none
    | c :: cs' => searchPosLen toks (some c) cs' (acc + 1)

/-- The four header-continuation phrases shared by field_extractor.py
(lines 49-54, 128-133, 171-176) and section_1.py (lines 11-16), as
whole-string phrase patterns over the lower-cased input:
`of the chemical and restrictions on use`, `of the safety data sheet`,
`or supplier'?s details`, `of the company/undertaking`. -/
def headerContinuationPats : List WSeq :=
  [ [ ["of".toList], ["the".toList], ["chemical".toList], ["and".toList],
      ["restrictions".toList], ["on".toList], ["use".toList] ],
    [ ["of".toList], ["the".toList], ["safety".toList], ["data".toList],
      ["sheet".toList] ],
    [ ["or".toList],
      [ "suppliers".toList, "supplier".toList ++ Char.ofNat 39 :: "s".toList ],
      ["details".toList] ],
    [ ["of".toList], ["the".toList], ["company/undertaking".toList] ] ]

/-- `any(re.fullmatch(p, text, re.IGNORECASE) for p in HEADER_CONTINUATIONS)`. -/
def isHeaderContinuation (s : List Char) : Bool :=
  headerContinuationPats.any (fun p => wSeqMatch p (lcL s))

/-- Quote-like class of the possessive-artifact pattern
`^[\"'`]+s\b\s*` of field_extractor.py line 90 (double quote, ASCII
apostrophe twice, grave accent, by code point). -/
def isQuoteCh (c : Char) : Bool :=
  c.toNat = 34 || c.toNat = 39 || c.toNat = 96

/-- Possessive-artifact prefix removal of field_extractor.py line 90
(this `re.sub` passes no flags, so the `s` is case-sensitive). -/
def stripPossessive (value : List Char) : List Char :=
  match reMatchRest [.plusC isQuoteCh, .chr (fun c => c = 's'), wbTok, ws0]
      none value with
  | some rest => rest
  | none => value

/-- The label-continuation normalisation of field_extractor.py
lines 94-96:
`^(?:of\s+the\s+(?:substance|chemical)(?:\s*/\s*mixture|\s+or\s+mixture)?)(?:\s+and\s+uses\s+advised\s+against)?\s*[:\-]*\s*`
(with proper `flags=`, hence case-insensitive). -/
def useContinuationToks : List RTok :=
  litsCI "of" ++ [ws1] ++ litsCI "the" ++ [ws1] ++
  [.alts [litsCI "substance", litsCI "chemical"],
   .opt [.alts
     [[ws0, .chr (fun c => c = '/'), ws0] ++ litsCI "mixture",
      [ws1] ++ litsCI "or" ++ [ws1] ++ litsCI "mixture"]],
   .opt ([ws1] ++ litsCI "and" ++ [ws1] ++ litsCI "uses" ++ [ws1] ++
         litsCI "advised" ++ [ws1] ++ litsCI "against"),
   ws0, .starC (fun c => c = ':' || c = '-'), ws0]

/-- Anchored prefix `re.sub(pat, "", value)` (single possible match). -/
def subPre (toks : List RTok) (value : List Char) : List Char :=
  match reMatchRest toks none value with
  | some rest => rest
  | none => value

/-- The same-line separator splitters of field_extractor.py
lines 111-117, in source order (case-insensitive via `flags=`). -/
def valueSeparators : List (List RTok) :=
  [ [ws1] ++ litsCI "tel:",
    [ws1] ++ litsCI "phone:",
    [ws1] ++ litsCI "fax:",
    [ws1] ++ litsCI "email:",
    [ws1] ++ litsCI "website:",
    [ws1] ++ litsCI "emergency:",
    [ws1] ++ litsCI "address:",
    [ws1] ++ litsCI "contact:",
    [ws1] ++ litsCI "product" ++ [ws1] ++ litsCI "code:",
    [ws1] ++ litsCI "intended" ++ [ws1] ++ litsCI "use" ++ [wbTok],
    [ws1] ++ litsCI "identified" ++ [ws1] ++ litsCI "uses" ++ [wbTok],
    [ws1] ++ litsCI "uses" ++ [ws1] ++ litsCI "advised" ++ [ws1] ++
      litsCI "against" ++ [wbTok],
    [ws1] ++ litsCI "use" ++ [ws1] ++ litsCI "of" ++ [ws1] ++ litsCI "the" ++
      [ws1] ++ litsCI "substance" ++ [wbTok],
    [ws1] ++ litsCI "restrictions" ++ [ws1] ++ litsCI "on" ++ [ws1] ++
      litsCI "use" ++ [wbTok] ]

/-- End-of-string zero-width test (for `$` on single-line strings). -/
def endTok : RTok :=
  .zw (fun _ cs => cs.isEmpty)

/-- Trailing `re.sub(r'\s*[:\-]\s*$', '', value)`: find the leftmost
position whose suffix is optional whitespace, one colon or dash, then
optional whitespace to the end, and truncate there. -/
def stripTrailingColonDash (value : List Char) : List Char :=
  match reSearchPos [ws0, .chr (fun c => c = ':' || c = '-'), ws0, endTok]
      none value 0 with
  | some p => value.take p
  | none => value

/-- Trailing `re.sub(r'\s+Page\s+\d+.*$', '', value, flags=re.IGNORECASE)`. -/
def stripTrailingPage (value : List Char) : List Char :=
  match reSearchPos ([ws1] ++ litsCI "page" ++ [ws1, .plusC isDigitCh])
      none value 0 with
  | some p => value.take p
  | none => value

/-- The same-line value clean-up of field_extractor.py
`extract_after_label` (lines 87-125) applied to a matched candidate:
possessive strip, use-continuation strip, the two case-sensitive
safety-data-sheet subs, separator split, trailing colon/dash and page
trims.  Returns `none` when the product-code guard fires (`continue` in
the source). -/
def ealCleanValue (v0 : List Char) : Option (List Char) :=
  let value := pyStrip v0
  let value := stripPossessive value
  let value := subPre useContinuationToks value
  -- lines 99-100 pass re.IGNORECASE positionally (as count), hence
  -- case-sensitive literal patterns
  let value := subPre (csWords ["of", "the", "safety", "data", "sheet"] ++ [ws0])
    value
  let value := subPre
    (csWords ["of", "the", "substance", "or", "mixture", "and", "uses",
              "advised", "against"] ++ [ws0]) value
  if reSearchB (ciWords ["product", "code"]) value then none
  else
    let value :=
      match valueSeparators.findSome? (fun sep =>
        (reSearchPos sep none value 0).map (fun p => pyStrip (value.take p))) with
      | some v => v
      | none => value
    let value := stripTrailingColonDash value
    let value := stripTrailingPage value
    some value

/-- Result of scanning the next lines in `extract_after_label` case 2. -/
inductive JScan where
  | found (v : List Char)
  | stop

/-- The next-line scan of field_extractor.py `extract_after_label`
(lines 148-188): up to four following lines; blank lines and various
rejected shapes are skipped, another recognised label stops the scan,
and the first non-noise candidate is returned. -/
def ealScanNext (fieldName : String) : List (List Char) → JScan
  | [] => .stop
  | line :: rest =>
    let candidateLine := pyStrip line
    if candidateLine.isEmpty then ealScanNext fieldName rest
    else
      let candidate :=
        match candidateLine with
        | ':' :: t => pyStrip t
        | c => c
      if FIELD_LABELS_all.any (fun lab => reSearchB lab candidate) then .stop
      else if fieldName = "product_name" &&
          (reMatchRest (litsCI "registration" ++ [ws1] ++ litsCI "no" ++
            [.opt [.chr (fun c => c = '.')]]) none candidate).isSome then
        ealScanNext fieldName rest
      else if isHeaderContinuation candidate then ealScanNext fieldName rest
      else if fieldName = "product_name" &&
          (reMatchRest [ws0, optSection, .chr isDigitCh] none
            candidate).isSome then
        ealScanNext fieldName rest
      else if ¬ candidate.isEmpty && ¬ utils_is_noise_text candidate then
        .found candidate
      else ealScanNext fieldName rest

/-- Outcome of trying one label on one line. -/
inductive LabelTry where
  | ret (v : List Char)
  | next

/-- Try one label against the current line (field_extractor.py
`extract_after_label`, lines 34-188).  `nextLines` are the lines after
the current one (the case-2 scan looks at the next four).  Case 1:
label and value on the same line (`^label\s*[:\-]\s*(.+)$`), with the
delimiter-free variant guarded against header continuations, the
mid-line fallback, and for description/product_use the
duplicate-letter-tolerant fallback; the cleaned value is returned unless
it is noise.  Case 2: when the candidate was rejected as noise or the
label fills the whole line, scan the next lines. -/
def ealTryLabel (fieldName : String) (label : List RTok) (clean : List Char)
    (nextLines : List (List Char)) : LabelTry :=
  let same1 : Option (List Char) :=
    mrun engineFuel (label ++ [ws0, .chr (fun c => c = ':' || c = '-'), ws0])
      none clean (fun _ r => if r.isEmpty then none else some r)
  let same2 : Option (List Char) :=
    match same1 with
    | some v => some v
    | none =>
      match mrun engineFuel (label ++ [ws1]) none clean
          (fun _ r => if r.isEmpty then none else some r) with
      | some tail =>
        if isHeaderContinuation (pyStrip tail) then none else some tail
      | none => none
  let same3 : Option (List Char) :=
    match same2 with
    | some v => some v
    | none =>
      reSearchK (label ++ [ws0, .chr (fun c => c = ':' || c = '-'), ws0])
        none clean (fun _ r => if r.isEmpty then none else some r)
  let same4 : Option (List Char) :=
    match same3 with
    | some v => some v
    | none =>
      if fieldName = "description" || fieldName = "product_use" then
        let nm := compress_duplicates_with_map clean
        match searchPosLen label none nm.1 0 with
        | some (pos, len) =>
          let endNorm := pos + len
          let startOrig :=
            if 0 < endNorm ∧ endNorm ≤ nm.2.length then
              (nm.2.getD (endNorm - 1) 0) + 1
            else 0
          let tailOrig := (clean.drop startOrig).dropWhile
            (fun c => c = ' ' || c = ':' || c = '\t' || c = '-' || c = '.')
          if tailOrig.isEmpty then none else some tailOrig
        | none => none
      else none
  match same4 with
  | some v0 =>
    match ealCleanValue v0 with
    | none => .next      -- product-code guard: continue with the next label
    | some value =>
      let searchNextValue :=
        if isHeaderContinuation value then ([] : List Char) else value
      if ¬ searchNextValue.isEmpty && ¬ utils_is_noise_text searchNextValue then
        .ret searchNextValue
      else
        -- candidate rejected as noise (or header continuation): look below
        match ealScanNext fieldName (nextLines.take 4) with
        | .found v => .ret v
        | .stop => .next
  | none =>
    if reFull label clean then
      match ealScanNext fieldName (nextLines.take 4) with
      | .found v => .ret v
      | .stop => .next
    else .next

/-- Try every label in priority order on one line. -/
def ealTryLabels (fieldName : String) (labels : List (List RTok))
    (clean : List Char) (nextLines : List (List Char)) : Option (List Char) :=
  match labels with
  | [] => none
  | label :: moreLabels =>
    match ealTryLabel fieldName label clean nextLines with
    | .ret v => some v
    | .next => ealTryLabels fieldName moreLabels clean nextLines

/-- Line loop of `extract_after_label`. -/
def ealLines (fieldName : String) (labels : List (List RTok)) :
    List (List Char) → Option (List Char)
  | [] => none
  | line :: rest =>
    let clean := pyStrip line
    if clean.isEmpty then ealLines fieldName labels rest
    else
      match ealTryLabels fieldName labels clean rest with
      | some v => some v
      | none => ealLines fieldName labels rest

/-- field_extractor.py `extract_after_label` (lines 22-190). -/
def extract_after_label (sectionText : List Char) (labels : List (List RTok))
    (fieldName : String) : Option (List Char) :=
  if sectionText.isEmpty then none
  else ealLines fieldName labels (splitLines sectionText)

/-- `re.split(r'\s{2,}|\t|\|', line)` - table-cell splitting on runs of
two or more whitespace characters, single tabs, or pipes (a greedy
whitespace run of length at least two is consumed whole). -/
def tableSplitGo (skip : Bool) (acc : List Char) (l : List Char) :
    List (List Char) :=
  match l with
  | [] => [acc.reverse]
  | c :: rest =>
    -- `skip` records that a matched whitespace run is being consumed
    if skip && isPyWs c then tableSplitGo true acc rest
    -- a whitespace run of length at least two starts here exactly when
    -- `c` is whitespace and the next character is too
    else if isPyWs c && ¬ (rest.takeWhile isPyWs).isEmpty then
      acc.reverse :: tableSplitGo true [] rest
    else if c = '\t' || c = '|' then acc.reverse :: tableSplitGo false [] rest
    else tableSplitGo false (c :: acc) rest

/-- The table-cell splitter. -/
def tableSplit (l : List Char) : List (List Char) :=
  tableSplitGo false [] l

/-- `re.split(r'\s+|\|', line)` - token splitting on whitespace runs or
single pipes. -/
def wsPipeSplitGo (skip : Bool) (acc : List Char) (l : List Char) :
    List (List Char) :=
  match l with
  | [] => [acc.reverse]
  | c :: rest =>
    -- `skip` records that a matched whitespace run is being consumed
    if skip && isPyWs c then wsPipeSplitGo true acc rest
    else if isPyWs c then acc.reverse :: wsPipeSplitGo true [] rest
    else if c = '|' then acc.reverse :: wsPipeSplitGo false [] rest
    else wsPipeSplitGo false (c :: acc) rest

/-- The token splitter. -/
def wsPipeSplit (l : List Char) : List (List Char) :=
  wsPipeSplitGo false [] l

/-- `str.strip(',;')`. -/
def stripCommaSemi (l : List Char) : List Char :=
  pyStripCh (fun c => c = ',' || c = ';') l

/-- The packing-group branch of field_extractor.py
`extract_from_table_structure` (lines 201-226): on a line mentioning
`packing group`, test the further cells of that line, then the cells of
the next three lines, against `VALID_PACKING_GROUPS`. -/
def tablePackingGroup : List (List Char) → Option (List Char)
  | [] => none
  | line :: rest =>
    if reSearchB (ciWords ["packing", "group"]) line then
      let parts := tableSplit line
      let fromHeader :=
        (parts.drop 1).findSome? (fun part =>
          let part := pyStrip part
          if ¬ part.isEmpty && VALID_PACKING_GROUPS_match part then some part
          else none)
      match fromHeader with
      | some v => some v
      | none =>
        let fromRows :=
          (rest.take 3).findSome? (fun tableLine =>
            let tableLine := pyStrip tableLine
            if tableLine.isEmpty then none
            else
              (tableSplit tableLine).findSome? (fun cell =>
                let cell := pyStrip cell
                if ¬ cell.isEmpty && VALID_PACKING_GROUPS_match cell then
                  some cell
                else none))
        match fromRows with
        | some v => some v
        | none => tablePackingGroup rest
    else tablePackingGroup rest

/-- Header test of the DG-class branch (line 232):
`(?:DG\s*Class|Hazard\s*Class|Transport\s+hazard(?:\s+class(?:\(es\))?)?)`. -/
def dgHeaderToks : List RTok :=
  [.alts
    [ litsCI "dg" ++ [ws0] ++ litsCI "class",
      litsCI "hazard" ++ [ws0] ++ litsCI "class",
      litsCI "transport" ++ [ws1] ++ litsCI "hazard" ++
        [.opt ([ws1] ++ litsCI "class" ++ [.opt (litsCI "(es)")])] ]]

/-- The split-header test (line 235): the current line is just
`class(es)` (`^\s*class(?:\(es\))?\s*$`) and the previous line mentions
`Transport hazard`. -/
def dgSplitHeaderHit (prevLine : Option (List Char)) (line : List Char) :
    Bool :=
  (reFull ([ws0] ++ litsCI "class" ++ [.opt (litsCI "(es)")] ++ [ws0])
    line) &&
  (match prevLine with
   | some pl => reSearchB (ciWords ["transport", "hazard"]) pl
   | none => false)

/-- The DG-class branch of `extract_from_table_structure`
(lines 229-251): on a header hit, gather the line plus the next three
non-empty (stripped) lines and test every whitespace/pipe-separated
token (trimmed of commas/semicolons) with the utils validator. -/
def tableDgClass (prevLine : Option (List Char)) :
    List (List Char) → Option (List Char)
  | [] => none
  | line :: rest =>
    let headerHit :=
      reSearchB dgHeaderToks line || dgSplitHeaderHit prevLine line
    if headerHit then
      let segment := line :: (rest.take 3).filterMap (fun nxt =>
        let nxt := pyStrip nxt
        if nxt.isEmpty then none else some nxt)
      let hit := segment.findSome? (fun segLine =>
        (wsPipeSplit segLine).findSome? (fun tok =>
          let tok := stripCommaSemi tok
          if utils_validate_dangerous_goods_class tok then some tok else none))
      match hit with
      | some v => some v
      | none => tableDgClass (some line) rest
    else tableDgClass (some line) rest

/-- field_extractor.py `extract_from_table_structure` (lines 193-253). -/
def extract_from_table_structure (text : List Char) (fieldName : String) :
    Option (List Char) :=
  if text.isEmpty then none
  else if fieldName = "packing_group" then
    tablePackingGroup (splitLines text)
  else if fieldName = "dangerous_goods_class" then
    tableDgClass none (splitLines text)
  else none

/-- `^(Pty\s+Ltd|Ltd|Inc\.?|Corp\.?|Company)$` - bare company suffix
(field_extractor.py lines 267, 356). -/
def companySuffixOnly (s : List Char) : Bool :=
  reFull [.alts
    [ ciWords ["pty", "ltd"], litsCI "ltd",
      litsCI "inc" ++ [.opt [.chr (fun c => c = '.')]],
      litsCI "corp" ++ [.opt [.chr (fun c => c = '.')]],
      litsCI "company" ]] s

/-- Mojibake dash class `[\-â€“]` of field_extractor.py line 347 (the
source bytes spell a literal dash plus the three characters of a
UTF-8-mangled en dash). -/
def isMojibakeDash (c : Char) : Bool :=
  c = '-' || c.toNat = 226 || c.toNat = 8364 || c.toNat = 8220

/-- Keyword skip of product-name strategy 3 (line 312):
`identification|supplier|manufacturer|emergency|contact|telephone|fax|email|web\s*site|details|address|synonym|regulation`. -/
def pnKeywordToks : List RTok :=
  [.alts
    [ litsCI "identification", litsCI "supplier", litsCI "manufacturer",
      litsCI "emergency", litsCI "contact", litsCI "telephone",
      litsCI "fax", litsCI "email",
      litsCI "web" ++ [ws0] ++ litsCI "site",
      litsCI "details", litsCI "address", litsCI "synonym",
      litsCI "regulation" ]]

/-- Use-header skip of strategy 3 (line 315):
`^use\(s\)|^use\s+of\s+the\s+substance|uses\s+advised\s+against|of\s+the\s+chemical\s+and\s+restrictions\s+on\s+use`
(the first two anchored, searched). -/
def pnUseHeaderHit (clean : List Char) : Bool :=
  (reMatchRest (litsCI "use(s)") none clean).isSome ||
  (reMatchRest (ciWords ["use", "of", "the", "substance"]) none clean).isSome ||
  reSearchB (ciWords ["uses", "advised", "against"]) clean ||
  reSearchB (ciWords ["of", "the", "chemical", "and", "restrictions", "on",
                      "use"]) clean

/-- Registration skip of strategy 3 (line 318):
`^registration\s+no\.?|\bregistration\s+no\.\b`. -/
def pnRegistrationHit (clean : List Char) : Bool :=
  (reMatchRest (ciWords ["registration", "no"] ++
    [.opt [.chr (fun c => c = '.')]]) none clean).isSome ||
  reSearchB ([wbTok] ++ ciWords ["registration", "no"] ++
    [.chr (fun c => c = '.'), wbTok]) clean

/-- Is the line (up to optional punctuation) exactly one of the
configured field labels (`re.fullmatch(rf"{label}\s*[:\-]?", clean)`,
lines 329-335)? -/
def isBareFieldLabel (clean : List Char) : Bool :=
  FIELD_LABELS_all.any (fun label =>
    reFull (label ++ [ws0, .opt [.chr (fun c => c = ':' || c = '-')]]) clean)

/-- The line survives the strategy-3 filters of field_extractor.py
`extract_product_name` (lines 304-338). -/
def pnMeaningfulLine (clean : List Char) : Bool :=
  ¬ ((reMatchRest ([ws0, optSection] ++ natLits 1 ++
       [.zw (fun _ cs => cs.isEmpty ||
         (match cs with | c :: _ => isPyWs c | [] => false))])
       none clean).isSome) &&
  ¬ reSearchB pnKeywordToks clean &&
  ¬ pnUseHeaderHit clean &&
  ¬ pnRegistrationHit clean &&
  ¬ (clean.head? = some '(') &&
  ¬ (reSearchB (ciWords ["safety", "data", "sheet"]) clean ||
     reSearchB (ciWords ["according", "to"]) clean) &&
  ¬ utils_is_noise_text clean &&
  ¬ clean.all (fun c => c = ':' || c = '-' || isPyWs c)

/-- One candidate of strategy 3 (lines 341-358): strip the leading
numeric prefix and a leaked `product identifier` label, reject
`product name` / SDS-number heads and numbered-dash lines, strip doubled
labels, then apply the content checks. -/
def pnStrategy3Candidate (line : List Char) : Option (List Char) :=
  let candidate := subPre
    [.plusC isDigitCh,
     .opt [.chr (fun c => c = '.'), .plusC isDigitCh], ws0] line
  let candidate := subPre
    (ciWords ["product", "identifier"] ++
     [ws0, .opt [.chr (fun c => c = ':' || c = '-')], ws0]) candidate
  if (reMatchRest
      [.alts [ciWords ["product", "name"],
              ciWords ["sds", "no"] ++ [.opt [.chr (fun c => c = '.')]],
              ciWords ["sds", "number"]]] none candidate).isSome then none
  else if (reMatchRest [.plusC isDigitCh, ws0, .chr isMojibakeDash] none
      candidate).isSome then none
  else
    let candidate := strip_doubled_label_prefixes candidate
    if candidate.any (fun c => isAlphaCh c || isDigitCh c) &&
        3 < candidate.length && ¬ looks_like_numeric_code candidate then
      if ¬ reSearchB spacedDashPhonePat candidate then
        if ¬ (candidate.any (fun c => c = '@') ||
              containsSub "www.".toList candidate ||
              containsSub ".com".toList candidate ||
              containsSub ".org".toList candidate) then
          if ¬ companySuffixOnly candidate then some candidate else none
        else none
      else none
    else none
where
  /-- `\b\d{2,4}[-\s]\d{2,4}[-\s]\d{2,4}\b` (line 353). -/
  spacedDashPhonePat : List RTok :=
    [wbTok] ++ digits24 ++ [.chr dashOrWs] ++ digits24 ++ [.chr dashOrWs] ++
      digits24 ++ [wbTok]

/-- field_extractor.py `extract_product_name` (lines 256-361). -/
def fe_extract_product_name (sectionText : List Char) : Option (List Char) :=
  if sectionText.isEmpty then none
  else
    -- Strategy 1: explicit labels
    let s1 :=
      match extract_after_label sectionText FIELD_LABELS_product_name
          "product_name" with
      | some pn =>
        let pn := strip_doubled_label_prefixes pn
        if ¬ pn.isEmpty && ¬ utils_is_noise_text pn &&
            ¬ looks_like_numeric_code pn && ¬ companySuffixOnly pn then
          some pn
        else none
      | none => none
    match s1 with
    | some v => some v
    | none =>
      -- Strategy 2: split-table `Product\s+Name[:\t ]*([^:\n]*)`
      let s2 :=
        match
          reSearchK (α := List Char)
            (ciWords ["product", "name"] ++
             [.starC (fun c => c = ':' || c = '\t' || c = ' ')])
            none sectionText
            (fun _ r =>
              some (r.takeWhile (fun c => c ≠ ':' && c ≠ '\n'))) with
        | some cap =>
          let candidate := pyStrip cap
          -- line 278 passes re.IGNORECASE positionally: case-sensitive
          let candidate :=
            match reSearchPos
                ([ws1, .alts [csWords ["Pty", "Ltd"], litsCS "Ltd",
                   litsCS "Inc" ++ [.opt [.chr (fun c => c = '.')]],
                   litsCS "Corp" ++ [.opt [.chr (fun c => c = '.')]]]])
                none candidate 0 with
            | some p => candidate.take p
            | none => candidate
          let candidate := strip_doubled_label_prefixes candidate
          if ¬ candidate.isEmpty && ¬ utils_is_noise_text candidate &&
              2 < candidate.length && ¬ looks_like_numeric_code candidate then
            some candidate
          else none
        | none => none
      match s2 with
      | some v => some v
      | none =>
        let lines := splitLines sectionText
        -- Strategy 2b: value on the line above a bare `Product Name` label
        let s2b := pnAboveLabel lines
        match s2b with
        | some v => some v
        | none =>
          -- Strategy 3: first meaningful line
          let meaningful := (lines.take 15).filterMap (fun line =>
            let clean := pyStrip line
            if clean.isEmpty then none
            else if pnMeaningfulLine clean && ¬ isBareFieldLabel clean then
              some clean
            else none)
          meaningful.findSome? pnStrategy3Candidate
where
  /-- Strategy 2b (lines 285-299): for a line that is exactly
  `Product Name`, walk upwards to the first non-empty line; accept it
  unless it is a section number, boilerplate, noise or a numeric code
  (one attempt only - the upward walk stops at the first non-empty
  line). -/
  pnAboveLabel (lines : List (List Char)) : Option (List Char) :=
    go [] lines
  /-- `above` holds the lines before the current one, nearest first. -/
  go (above : List (List Char)) : List (List Char) → Option (List Char)
    | [] => none
    | line :: rest =>
      if reFull ([ws0] ++ ciWords ["product", "name"] ++ [ws0]) line then
        match (above.map pyStrip).find? (fun prev => ¬ prev.isEmpty) with
        | some prev =>
          if ¬ (reMatchRest [.plusC isDigitCh, .chr (fun c => c = '.')] none
                prev).isSome &&
              ¬ (reSearchB (ciWords ["safety", "data", "sheet"]) prev ||
                 reSearchB (litsCI "version") prev ||
                 reSearchB (ciWords ["msds", "date"]) prev ||
                 reSearchB (ciWords ["page"] ++ [ws1, .plusC isDigitCh])
                   prev) then
            let prev := strip_doubled_label_prefixes prev
            if ¬ utils_is_noise_text prev && ¬ looks_like_numeric_code prev
            then some prev
            else go (line :: above) rest
          else go (line :: above) rest
        | none => go (line :: above) rest
      else go (line :: above) rest

/-- `\b\d{2,4}[-\s]\d{2,4}[-\s]\d{2,4}\b` - the phone-shape search used
by several manufacturer guards. -/
def phoneGuardToks : List RTok :=
  [wbTok] ++ digits24 ++ [.chr dashOrWs] ++ digits24 ++ [.chr dashOrWs] ++
    digits24 ++ [wbTok]

/-- Corporate indicator search of manufacturer strategy 3 (line 413):
`\b(?:Pty\s+Ltd|Ltd|Inc\.?|Corp\.?|Company|Corporation)\b`
(case-insensitive). -/
def corpIndicatorToks : List RTok :=
  [wbTok, .alts
    [ ciWords ["pty", "ltd"], litsCI "ltd",
      litsCI "inc" ++ [.opt [.chr (fun c => c = '.')]],
      litsCI "corp" ++ [.opt [.chr (fun c => c = '.')]],
      litsCI "company", litsCI "corporation" ],
   wbTok]

/-- The extraction sub of manufacturer strategy 3 (lines 417-418):
`re.sub(r'^.*?([A-Z][^:\n]*(?:Pty\s+Ltd|Ltd|Inc\.?|Corp\.?|Company|Corporation)[^:\n]*).*$', r'\1', clean, re.IGNORECASE)`
- `re.IGNORECASE` is passed positionally as `count`, so the suffix
alternatives are case-sensitive here; a full match replaces the line by
group 1, which starts at the earliest capital letter from which a
corporate suffix is reachable within the line. -/
def companyNameSub (clean : List Char) : List Char :=
  go none clean 0
where
  groupToks : List RTok :=
    [.chr isUpperCh, .starC (fun c => c ≠ ':' && c ≠ '\n'),
     .alts
       [ csWords ["Pty", "Ltd"], litsCS "Ltd",
         litsCS "Inc" ++ [.opt [.chr (fun c => c = '.')]],
         litsCS "Corp" ++ [.opt [.chr (fun c => c = '.')]],
         litsCS "Company", litsCS "Corporation" ],
     .starC (fun c => c ≠ ':' && c ≠ '\n')]
  go (prev : Option Char) (cs : List Char) (pos : Nat) : List Char :=
    match
      mrun (α := Nat) engineFuel groupToks prev cs
        (fun _ r => some (cs.length - r.length)) with
    | some consumed => (clean.drop pos).take consumed
    | none =>
      match cs with
      | [] => clean
      | c :: cs' => if notNl c then go (some c) cs' (pos + 1) else clean

/-- field_extractor.py `extract_manufacturer` (lines 364-431). -/
def fe_extract_manufacturer (sectionText : List Char) : Option (List Char) :=
  if sectionText.isEmpty then none
  else
    -- Strategy 1: explicit labels plus company clean-up
    let s1 :=
      match extract_after_label sectionText FIELD_LABELS_manufacturer
          "manufacturer" with
      | some m0 =>
        let m := clean_company_candidate m0
        if ¬ m.isEmpty && ¬ utils_is_noise_text m then
          if ¬ (reMatchRest (ciWords ["of", "the", "safety", "data", "sheet"])
                 none m).isSome &&
             ¬ wSeqMatch
                 [ ["or".toList],
                   [ "suppliers".toList,
                     "supplier".toList ++ Char.ofNat 39 :: "s".toList ],
                   ["details".toList] ] (lcL m) then
            if 2 < m.length &&
                ¬ m.all (fun c => c = ':' || c = '-' || isPyWs c) then
              some m
            else none
          else none
        else none
      | none => none
    match s1 with
    | some v => some v
    | none =>
      -- Strategy 1b: inline `Details of the supplier ... : value`
      let s1b :=
        match
          reSearchK (α := List Char)
            (ciWords ["details", "of", "the", "supplier"] ++
             [.repLazyC 1000000 notNl, .chr (fun c => c = ':'), ws0])
            none sectionText
            (fun _ r =>
              let cap := r.takeWhile notNl
              if cap.isEmpty then none else some cap) with
        | some cap =>
          let candidate := pyStrip ((splitLines cap).headD [])
          let candidate := clean_company_candidate candidate
          if ¬ candidate.isEmpty && ¬ utils_is_noise_text candidate then
            some candidate
          else none
        | none => none
      match s1b with
      | some v => some v
      | none =>
        -- Strategy 2: block after a `Details of the supplier` heading
        let s2 :=
          match supplierBlock sectionText with
          | some blk =>
            (splitLines blk).findSome? (fun line =>
              let clean := pyStrip line
              if ¬ clean.isEmpty && ¬ utils_is_noise_text clean &&
                  3 < clean.length then
                if ¬ reSearchB phoneGuardToks clean then
                  let cleaned := clean_company_candidate clean
                  if ¬ cleaned.isEmpty && ¬ utils_is_noise_text cleaned then
                    some cleaned
                  else none
                else none
              else none)
          | none => none
        match s2 with
        | some v => some v
        | none =>
          -- Strategy 3: company-suffix lines
          (splitLines sectionText).findSome? (fun line =>
            let clean := pyStrip line
            if clean.isEmpty then none
            else if reSearchB corpIndicatorToks clean then
              if ¬ reSearchB (ciWords ["product", "name"] ++
                  [ws0, .chr (fun c => c = ':')]) clean then
                let companyName := companyNameSub clean
                if companyName ≠ clean && ¬ companyName.isEmpty then
                  let cc := clean_company_candidate (pyStrip companyName)
                  if ¬ cc.isEmpty && ¬ utils_is_noise_text cc then some cc
                  else none
                else
                  let fb := clean_company_candidate clean
                  if ¬ fb.isEmpty && ¬ utils_is_noise_text fb then some fb
                  else none
              else none
            else none)
where
  /-- Strategy 2's block regex (lines 390-391):
  `Details\s+of\s+the\s+supplier[^\n]*\n([^:]+?)(?:\n\s*[A-Z]|\n\s*\d|$)`
  with `re.IGNORECASE | re.DOTALL`: after the heading line, the lazily
  shortest non-empty colon-free stretch (which may cross newlines) that
  is followed by a newline-plus-letter, a newline-plus-digit, or the end
  of the text (`$` also matches just before a final newline). -/
  supplierBlock (sectionText : List Char) : Option (List Char) :=
    reSearchK (α := List Char)
      (ciWords ["details", "of", "the", "supplier"] ++
       [.starC notNl, .chr (fun c => c = '\n')])
      none sectionText
      (fun prev r => lazyBody prev r 1 r.length)
  /-- Find the shortest `[^:]+?` (length `k` from 1 up) whose following
  position satisfies the terminator; `re.IGNORECASE` makes `[A-Z]` match
  any letter. -/
  lazyBody (prev : Option Char) (r : List Char) (k maxK : Nat) :
      Option (List Char) :=
    match maxK with
    | 0 => none
    | mk + 1 =>
      let body := r.take k
      if body.length < k || body.any (fun c => c = ':') then none
      else
        let rest := r.drop k
        let termOk :=
          rest.isEmpty || rest = ['\n'] ||
          (reMatchRest [.chr (fun c => c = '\n'), ws0, .chr isAlphaCh]
            none rest).isSome ||
          (reMatchRest [.chr (fun c => c = '\n'), ws0, .chr isDigitCh]
            none rest).isSome
        if termOk then some body else lazyBody prev r (k + 1) mk

/-- Description labels of field_extractor.py `extract_description`
(lines 440-452), in source order. -/
def descriptionLabels : List (List RTok) :=
  [ ciWords ["product", "description"],
    litsCI "description",
    ciWords ["use", "of", "the", "substance"],
    litsCI "use" ++ [ws0] ++ litsCI "(s)",
    litsCI "use" ++ [wbTok],
    ciWords ["recommended", "use"],
    ciWords ["intended", "use"],
    ciWords ["product", "use"],
    ciWords ["relevant", "identified", "uses"],
    ciWords ["identified", "uses"],
    litsCI "application" ]

/-- Case-sensitive variant of the use-continuation prefix (the
`re.sub` calls of field_extractor.py lines 458-462 pass `re.IGNORECASE`
positionally as `count`). -/
def useContinuationToksCS : List RTok :=
  litsCS "of" ++ [ws1] ++ litsCS "the" ++ [ws1] ++
  [.alts [litsCS "substance", litsCS "chemical"],
   .opt [.alts
     [[ws0, .chr (fun c => c = '/'), ws0] ++ litsCS "mixture",
      [ws1] ++ litsCS "or" ++ [ws1] ++ litsCS "mixture"]],
   .opt ([ws1] ++ litsCS "and" ++ [ws1] ++ litsCS "uses" ++ [ws1] ++
         litsCS "advised" ++ [ws1] ++ litsCS "against"),
   ws0, .starC (fun c => c = ':' || c = '-'), ws0]

/-- field_extractor.py `extract_description` (lines 434-471). -/
def fe_extract_description (sectionText : List Char) : Option (List Char) :=
  if sectionText.isEmpty then none
  else
    match extract_after_label sectionText descriptionLabels "description" with
    | some d =>
      if utils_is_noise_text d then none
      else
        let d := subPre useContinuationToksCS d
        let d := subPre
          (csWords ["of", "the", "substance", "or", "mixture", "and", "uses",
                    "advised", "against"] ++ [ws0]) d
        let d := subPre (litsCS "/Mixture" ++ [ws0, .chr (fun c => c = ':'),
          ws0]) d
        let d := d.dropWhile
          (fun c => isPyWs c || c = ':' || c = ';' || c = '-')
        if (pyStrip d).isEmpty then none else some (pyStrip d)
    | none => none

/-- field_extractor.py `extract_section14_field` (lines 530-555): label
extraction first, validated per field; then the table fallback. -/
def extract_section14_field (sec14 : List Char) (labels : List (List RTok))
    (fieldName : String) : Option (List Char) :=
  if sec14.isEmpty then none
  else
    let labelled :=
      match extract_after_label sec14 labels fieldName with
      | some result =>
        if fieldName = "dangerous_goods_class" then
          if utils_validate_dangerous_goods_class result then some result
          else none
        else if fieldName = "packing_group" then
          if VALID_PACKING_GROUPS_match result then some result else none
        else some result
      | none => none
    match labelled with
    | some v => some v
    | none => extract_from_table_structure sec14 fieldName

/-- section_1.py `product_name` (lines 23-27). -/
def s1_product_name (sectionText : List Char) : Option (List Char) :=
  match fe_extract_product_name sectionText with
  | some name =>
    if ¬ name.isEmpty && ¬ isHeaderContinuation (pyStrip name) then some name
    else none
  | none => none

/-- section_1.py `manufacturer` (lines 30-34). -/
def s1_manufacturer (sectionText : List Char) : Option (List Char) :=
  match fe_extract_manufacturer sectionText with
  | some m =>
    if ¬ m.isEmpty && ¬ isHeaderContinuation (pyStrip m) then some m else none
  | none => none

/-- section_1.py `description` (lines 37-41). -/
def s1_description (sectionText : List Char) : Option (List Char) :=
  match fe_extract_description sectionText with
  | some d =>
    if ¬ d.isEmpty && ¬ isHeaderContinuation (pyStrip d) then some d else none
  | none => none

/-- Upper-case letter or digit, class `[A-Z0-9]`. -/
def isUpperDigit (c : Char) : Bool :=
  isUpperCh c || isDigitCh c

/-- Class `[/A-Z0-9\-]`. -/
def isCodeTail (c : Char) : Bool :=
  c = '/' || isUpperCh c || isDigitCh c || c = '-'

/-- `re.sub(r'\b[A-Z0-9]{2,}[/A-Z0-9\-]*$', '', value).strip()` - remove
a trailing upper-case/numeric code (case-sensitive, no flags given). -/
def stripTrailingCode (value : List Char) : List Char :=
  match reSearchPos
      [wbTok, .chr isUpperDigit, .chr isUpperDigit, .starC isUpperDigit,
       .starC isCodeTail, endTok] none value 0 with
  | some p => pyStrip (value.take p)
  | none => pyStrip value

/-- Possessive-artifact strip of sds_extractor.py (lines 341, 380):
`re.sub(r"^[’'`´]+s\b\s*", "", value)` with the apostrophe-like class. -/
def sdsStripPossessive (value : List Char) : List Char :=
  match reMatchRest [.plusC isApos, .chr (fun c => c = 's'), wbTok, ws0]
      none value with
  | some rest => rest
  | none => value

/-- Case-sensitive contact-trailer truncation of sds_extractor.py
(lines 344, 371): `re.sub(r'\s+(Tel|Phone|Fax|Email|Emergency).*$', '',
value, re.IGNORECASE)` - the flag lands in the `count` argument, so the
alternatives are case-sensitive. -/
def sdsContactTrim (value : List Char) : List Char :=
  match reSearchPos
      ([ws1, .alts [litsCS "Tel", litsCS "Phone", litsCS "Fax",
                    litsCS "Email", litsCS "Emergency"]]) none value 0 with
  | some p => value.take p
  | none => value

/-- Truncation at an embedded second label (sds_extractor.py
lines 346-350 and 372-376): the first `COMMON_FIELD_LABELS` entry found
anywhere in the value decides the cut position. -/
def commonLabelTrim (value : List Char) : List Char :=
  match COMMON_FIELD_LABELS.findSome?
      (fun other => reSearchPos other none value 0) with
  | some p => pyStrip (value.take p)
  | none => value

/-- The shared value clean-up of sds_extractor.py `extract_field_value`
(next-line branch order, lines 370-380): trailing colon/dash, contact
trailer, embedded label, trailing code, possessive artifact. -/
def sdsNextLineClean (candidate : List Char) : List Char :=
  let value := stripTrailingColonDash candidate
  let value := sdsContactTrim value
  let value := commonLabelTrim value
  let value := stripTrailingCode value
  sdsStripPossessive value

/-- The same-line clean-up (lines 338-352): strip, possessive artifact,
trailing colon/dash, contact trailer, embedded label, trailing code. -/
def sdsSameLineClean (v0 : List Char) : List Char :=
  let value := pyStrip v0
  let value := sdsStripPossessive value
  let value := stripTrailingColonDash value
  let value := sdsContactTrim value
  let value := commonLabelTrim value
  stripTrailingCode value

/-- The next-line scan of `extract_field_value` (lines 362-383): up to
five following lines; bare or leading colons are skipped, and the first
cleaned non-noise value is returned. -/
def efvScanNext : List (List Char) → Option (List Char)
  | [] => none
  | line :: rest =>
    let candidate := pyStrip line
    if candidate.isEmpty || candidate = [':'] then efvScanNext rest
    else if candidate.head? = some ':' then efvScanNext rest
    else
      let value := sdsNextLineClean candidate
      if ¬ value.isEmpty && ¬ sds_is_noise_text value then some value
      else efvScanNext rest

/-- Try one label of `extract_field_value` on one line (lines 331-383).
`isManufLabels` is the pre-computed value of the source's
`any('manufacturer' in label.lower() or 'supplier' in label.lower() ...)`
test over the label list. -/
def efvTryLabel (isManufLabels : Bool) (label : List RTok)
    (line : List Char) (nextLines : List (List Char)) : Option (List Char) :=
  let m1 :=
    mrun engineFuel
      (label ++ [ws0, .opt [.chr (fun c => c = ':' || c = '-')], ws0])
      none line (fun _ r => if r.isEmpty then none else some r)
  let m2 :=
    match m1 with
    | some v => some v
    | none =>
      reSearchK (label ++ [ws0, .chr (fun c => c = ':' || c = '-'), ws0])
        none line (fun _ r => if r.isEmpty then none else some r)
  let fromSame :=
    match m2 with
    | some v0 =>
      let value := sdsSameLineClean v0
      if isManufLabels &&
          reFull (ciWords ["of", "the", "safety", "data", "sheet"] ++ [ws0])
            value then
        none
      else if ¬ value.isEmpty && ¬ sds_is_noise_text value then some value
      else none
    | none => none
  match fromSame with
  | some v => some v
  | none =>
    if reFull (label ++ [ws0, .opt [.chr (fun c => c = ':' || c = '-')], ws0])
        line then
      efvScanNext (nextLines.take 5)
    else none

/-- Line loop of `extract_field_value`. -/
def efvLines (isManufLabels : Bool) (labels : List (List RTok)) :
    List (List Char) → Option (List Char)
  | [] => none
  | line :: rest =>
    let clean := pyStrip line
    if clean.isEmpty then efvLines isManufLabels labels rest
    else
      match labels.findSome?
          (fun label => efvTryLabel isManufLabels label clean rest) with
      | some v => some v
      | none => efvLines isManufLabels labels rest

/-- sds_extractor.py `extract_field_value` (lines 315-385): the section
text when non-empty, else the full text, split on `'\n'`. -/
def extract_field_value (text : List Char) (labels : List (List RTok))
    (isManufLabels : Bool) (sectionText : List Char) : Option (List Char) :=
  let searchText := if sectionText.isEmpty then text else sectionText
  if searchText.isEmpty then none
  else efvLines isManufLabels labels (splitNl searchText)

/-- sds_extractor.py `extract_dg_class_from_table` (lines 388-412):
find the first stripped non-empty line matching `DG\s+Class|Class\s*:`,
then test every whitespace-separated token (pipes replaced by spaces,
commas/semicolons trimmed) of that line and the next five against the
module's own `validate_dangerous_goods_class`. -/
def extract_dg_class_from_table (sectionText : List Char) :
    Option (List Char) :=
  if sectionText.isEmpty then none
  else
    let lines := (splitLines sectionText).filterMap (fun l =>
      let s := pyStrip l
      if s.isEmpty then none else some s)
    match findHeader lines with
    | none => none
    | some (line, rest) =>
      (line :: rest.take 5).findSome? (fun ln =>
        (splitWs (ln.map (fun c => if c = '|' then ' ' else c))).findSome?
          (fun tok =>
            let tok := stripCommaSemi tok
            if sds_validate_dangerous_goods_class tok then some tok else none))
where
  findHeader : List (List Char) → Option (List Char × List (List Char))
    | [] => none
    | l :: rest =>
      if reSearchB [.alts [ciWords ["dg", "class"],
          litsCI "class" ++ [ws0, .chr (fun c => c = ':')]]] l then
        some (l, rest)
      else findHeader rest

/-- sds_extractor.py `extract_packing_group_from_table` (lines 415-448):
on a line mentioning `packing group`, test the further cells of that
line (comma/semicolon-trimmed) and the cells of the next three stripped
lines against the inline packing-group pattern. -/
def extract_packing_group_from_table (sectionText : List Char) :
    Option (List Char) :=
  if sectionText.isEmpty then none
  else pgGo (splitLines sectionText)
where
  pgGo : List (List Char) → Option (List Char)
    | [] => none
    | line :: rest =>
      if reSearchB (ciWords ["packing", "group"]) line then
        let parts := tableSplit line
        let fromHeader :=
          if 1 < parts.length then
            (parts.drop 1).findSome? (fun part =>
              let part := stripCommaSemi part
              if ¬ part.isEmpty && VALID_PACKING_GROUPS_match part then
                some part
              else none)
          else none
        match fromHeader with
        | some v => some v
        | none =>
          match
            (rest.take 3).findSome? (fun tableLine =>
              let tableLine := pyStrip tableLine
              if tableLine.isEmpty then none
              else
                (tableSplit tableLine).findSome? (fun cell =>
                  let cell := stripCommaSemi cell
                  if ¬ cell.isEmpty && VALID_PACKING_GROUPS_match cell then
                    some cell
                  else none)) with
          | some v => some v
          | none => pgGo rest
      else pgGo rest

/-- Bare-label/suffix rejection of sds extract_product_name strategy 1
(line 473):
`^(Pty\s+Ltd|Ltd|Inc\.?|Corp\.?|Company|Alternative\s+number\(s\)|Other\s+Name\(s\)|Formulation\s+#|Registration\s+no\.?\s*–?\s*US:?|Group)$`. -/
def pnRejectFull (s : List Char) : Bool :=
  reFull [.alts
    [ ciWords ["pty", "ltd"], litsCI "ltd",
      litsCI "inc" ++ [.opt [.chr (fun c => c = '.')]],
      litsCI "corp" ++ [.opt [.chr (fun c => c = '.')]],
      litsCI "company",
      ciWords ["alternative", "number(s)"],
      ciWords ["other", "name(s)"],
      ciWords ["formulation", "#"],
      ciWords ["registration", "no"] ++
        [.opt [.chr (fun c => c = '.')], ws0,
         .opt [.chr (fun c => c.toNat = 8211)], ws0] ++ litsCI "us" ++
        [.opt [.chr (fun c => c = ':')]],
      litsCI "group" ]] s

/-- Is the value exactly one of the four generic product-name labels
(line 477)? -/
def pnGenericLabelFull (lowered : List Char) : Bool :=
  reFull [.alts
    [ ciWords ["product", "identifier"], ciWords ["product", "name"],
      ciWords ["trade", "name"], ciWords ["commercial", "product", "name"] ]]
    lowered

/-- Date-header head of sds_extractor.py (lines 521, 739):
`^(msds\s+date|date\s+of\s+issue|revision\s+date|version\s+date)\b`. -/
def dateHeaderHead (s : List Char) : Bool :=
  (reMatchRest [.alts
    [ ciWords ["msds", "date"], ciWords ["date", "of", "issue"],
      ciWords ["revision", "date"], ciWords ["version", "date"] ], wbTok]
    none s).isSome

/-- One strategy-2 line of sds_extractor.py `extract_product_name`
(lines 490-526): skip headers, labels, noise and transport phrases;
accept a plausible product-like line, label-stripped and de-duplicated
(which can make the accepted candidate empty - the source then returns
`None` outright). -/
def sdsPnLine (line : List Char) : Option (Option (List Char)) :=
  -- `none`: keep scanning; `some v`: the source returns (v may be none
  -- for `return candidate or None` with an empty candidate)
  if (reMatchRest [.alts
      [ [.plusC isDigitCh, .chr (fun c => c = '.')],
        [wbTok] ++ litsCI "section" ++ [wbTok],
        [wbTok] ++ litsCI "identification" ++ [wbTok] ]] none line).isSome then
    none
  else if [ "supplier", "emergency", "telephone", "contact",
            "details" ].any (fun x => containsSub x.toList line) then none
  else if (reMatchRest (litsCI "synonym(s)") none line).isSome then none
  else if (reMatchRest [.alts
      [ litsCI "use(s)",
        litsCI "use of the substance",
        litsCI "recommended use" ]] none line).isSome then none
  else if (reMatchRest ([.alts [litsCI "msds", litsCI "sds"], ws1] ++
      litsCI "date" ++ [wbTok]) none line).isSome then none
  else if sds_is_noise_text line then none
  else if line.any (fun c => isAlphaCh c || isDigitCh c) &&
      3 ≤ line.length && line.length ≤ 100 then
    if ¬ (line.any (fun c => c = '@') || containsSub "www.".toList line ||
          containsSub ".com".toList line || containsSub ".org".toList line)
    then
      if ¬ (¬ line.isEmpty &&
            line.all (fun c => c = ':' || c = '-' || isPyWs c)) then
        if ¬ reFull [.alts
            [ ciWords ["alternative", "number(s)"],
              ciWords ["other", "name(s)"],
              ciWords ["formulation", "#"],
              ciWords ["registration", "no"] ++
                [.opt [.chr (fun c => c = '.')], ws0,
                 .opt [.chr (fun c => c.toNat = 8211)], ws0] ++ litsCI "us" ++
                [.opt [.chr (fun c => c = ':')]],
              litsCI "group" ]] line then
          let lowered := lcL line
          if [ "proper shipping name", "shipping name", "un number",
               "transport", "hazchem", "epg", "chemical formula",
               "not applicable" ].any
              (fun tok => containsSub tok.toList lowered) then none
          else if dateHeaderHead lowered then none
          else
            let candidate := strip_leading_label_prefixes line
            let candidate := dedup_repeated_phrase candidate
            some (if candidate.isEmpty then none else some candidate)
        else none
      else none
    else none
  else none

/-- sds_extractor.py `extract_product_name` (lines 451-528). -/
def sds_extract_product_name (section1Text : List Char) :
    Option (List Char) :=
  -- Strategy 0: the modular extractor
  match s1_product_name section1Text with
  | some v => if v.isEmpty then strategies section1Text else some v
  | none => strategies section1Text
where
  pnLabels : List (List RTok) :=
    [ ciWords ["product", "identifier"], ciWords ["product", "name"],
      ciWords ["trade", "name"], ciWords ["commercial", "product", "name"] ]
  strategies (section1Text : List Char) : Option (List Char) :=
    -- Strategy 1: explicit labels through extract_field_value
    let s1 : Option (Option (List Char)) :=
      match extract_field_value [] pnLabels false section1Text with
      | some result =>
        if ¬ sds_is_noise_text result && ¬ pnRejectFull result then
          let lowered := lcL result
          if pnGenericLabelFull lowered then none
          else if [ "proper shipping name", "chemical formula",
                    "un number" ].any
              (fun tok => containsSub tok.toList lowered) ||
              lowered = "not applicable".toList ||
              lowered = "n/a".toList || lowered = "na".toList then none
          else
            let cleaned := strip_leading_label_prefixes result
            let cleaned := dedup_repeated_phrase cleaned
            some (if cleaned.isEmpty then none else some cleaned)
        else none
      | none => none
    match s1 with
    | some r => r
    | none =>
      -- Strategy 2: first meaningful-looking early line (`sdsPnLine`
      -- yields `some r` when the source returns `r`, `none` to continue)
      match ((splitNl section1Text).take 15).findSome? (fun line =>
        let line := pyStrip line
        if line.isEmpty then none else sdsPnLine line) with
      | some r => r
      | none => none

/-- sds_extractor.py `extract_manufacturer` strategy-1 labels
(lines 543-552). -/
def sdsManufLabels : List (List RTok) :=
  [ litsCI "manufacturer",
    ciWords ["supplier", "name"],
    litsCI "supplier",
    ciWords ["company", "name", "of", "supplier"],
    litsCI "producer",
    ciWords ["company", "name"],
    ciWords ["registered", "company", "name"],
    litsCI "distributor" ]

/-- The strategy-1 noise-fragment rejection of sds `extract_manufacturer`
(line 557):
`^(of\s+the\s+safety\s+data\s+sheet|Emergency\s+Telephone\s+Number|Company[:.]?\s*$|Company\s+No\.?[:.]?\s*$)$`. -/
def sdsManufReject (s : List Char) : Bool :=
  reFull (ciWords ["of", "the", "safety", "data", "sheet"]) s ||
  reFull (ciWords ["emergency", "telephone", "number"]) s ||
  reFull (litsCI "company" ++
    [.opt [.chr (fun c => c = ':' || c = '.')], ws0]) s ||
  reFull (ciWords ["company", "no"] ++
    [.opt [.chr (fun c => c = '.')],
     .opt [.chr (fun c => c = ':' || c = '.')], ws0]) s

/-- sds_extractor.py `extract_manufacturer` (lines 531-584). -/
def sds_extract_manufacturer (section1Text : List Char) :
    Option (List Char) :=
  match s1_manufacturer section1Text with
  | some v => if v.isEmpty then strategies section1Text else some v
  | none => strategies section1Text
where
  strategies (section1Text : List Char) : Option (List Char) :=
    -- Strategy 1: explicit labels through extract_field_value
    let s1 : Option (Option (List Char)) :=
      match extract_field_value [] sdsManufLabels true section1Text with
      | some result =>
        if ¬ sds_is_noise_text result && ¬ sdsManufReject result then
          let cleaned := strip_leading_label_prefixes result
          let cleaned := dedup_repeated_phrase cleaned
          some (if cleaned.isEmpty then none else some cleaned)
        else none
      | none => none
    match s1 with
    | some r => r
    | none =>
      -- Strategy 2: `Details of the supplier` block
      match supplierSection section1Text with
      | none => none
      | some blk =>
        match (splitNl blk).findSome? (fun line =>
          let line := pyStrip line
          if ¬ line.isEmpty && ¬ sds_is_noise_text line &&
              3 < line.length then
            if ¬ reSearchB phoneGuardToks line then
              if ¬ (reMatchRest [.alts
                  [ ciWords ["emergency", "telephone", "number"],
                    litsCI "company" ++
                      [.opt [.chr (fun c => c = ':' || c = '.')], ws0,
                       endTok] ]] none line).isSome then
                if reSearchB (ciWords ["safety", "data", "sheet"]) line ||
                   (reMatchRest (litsCI "section" ++ [wbTok]) none
                     line).isSome ||
                   (reMatchRest (litsCI "page" ++ [wbTok]) none
                     line).isSome then
                  none
                else
                  let cleaned := strip_leading_label_prefixes line
                  let cleaned := dedup_repeated_phrase cleaned
                  some (if cleaned.isEmpty then none else some cleaned)
              else none
            else none
          else none) with
        | some r => r
        | none => none
  /-- The strategy-2 block regex (lines 564-565):
  `Details\s+of\s+the\s+supplier[^\n]*\n(.{1,500}?)(?:\n\s*[A-Z][a-z]|\n\s*\d|$)`
  with `re.IGNORECASE | re.DOTALL`: `.{1,500}?` is lazy and crosses
  newlines; under `re.IGNORECASE` both `[A-Z]` and `[a-z]` match any
  letter. -/
  supplierSection (t : List Char) : Option (List Char) :=
    reSearchK (α := List Char)
      (ciWords ["details", "of", "the", "supplier"] ++
       [.starC notNl, .chr (fun c => c = '\n')])
      none t
      (fun _ r => lazyBlock r 1 (min 500 r.length))
  lazyBlock (r : List Char) (k maxK : Nat) : Option (List Char) :=
    match maxK with
    | 0 => none
    | mk + 1 =>
      let body := r.take k
      if body.length < k then none
      else
        let rest := r.drop k
        let termOk :=
          rest.isEmpty || rest = ['\n'] ||
          (reMatchRest [.chr (fun c => c = '\n'), ws0, .chr isAlphaCh,
            .chr isAlphaCh] none rest).isSome ||
          (reMatchRest [.chr (fun c => c = '\n'), ws0, .chr isDigitCh]
            none rest).isSome
        if termOk then some body else lazyBlock r (k + 1) mk

/-- sds_extractor.py `extract_manufacturer_global` (lines 609-631):
label scan over the first sixty lines of the whole document. -/
def extract_manufacturer_global (fullText : List Char) :
    Option (List Char) :=
  if fullText.isEmpty then none
  else
    let head := joinNl ((splitLines fullText).take 60)
    let labels := sdsManufLabels ++
      [ litsCI "manufacturer" ++ [ws0, .chr (fun c => c = '/'), ws0] ++
          litsCI "supplier",
        ciWords ["details", "of", "the", "supplier"] ]
    match extract_field_value head labels true head with
    | some val =>
      if ¬ sds_is_noise_text val then
        some (strip_leading_label_prefixes (dedup_repeated_phrase val))
      else none
    | none => none

/-- sds_extractor.py `extract_description` (lines 587-607): the modular
extractor (the legacy fallback only runs on an exception, which the
model cannot raise). -/
def sds_extract_description (section1Text : List Char) :
    Option (List Char) :=
  s1_description section1Text

/-- A per-field result: `{'value': ..., 'confidence': 1.0 or 0.0}`;
the confidence float is modelled as a `Nat` in `{0, 1}`. -/
structure FieldResult where
  value : Option (List Char)
  confidence : Nat
deriving DecidableEq, Repr

/-- Python truthiness of an optional string (`None` and `''` falsy). -/
def pyTruthy (v : Option (List Char)) : Bool :=
  match v with
  | some l => ¬ l.isEmpty
  | none => false

/-- `{'value': v, 'confidence': 1.0 if v else 0.0}`. -/
def mkFR (v : Option (List Char)) : FieldResult :=
  ⟨v, if pyTruthy v then 1 else 0⟩

/-- The result record of sds_extractor.py `parse_pdf`: either the
explicit error record returned when no text could be extracted (which
carries only an error message and extraction metadata, no field values),
or the assembled per-field results. -/
inductive SdsParseResult where
  | error
  | parsed (product_name manufacturer description product_use
      dangerous_goods_class subsidiary_risk packing_group issue_date :
      FieldResult)
deriving DecidableEq

/-- sds `dg_labels` (lines 773-782). -/
def sdsDgLabels : List (List RTok) :=
  [ litsCI "dg" ++ [ws0] ++ litsCI "class",
    litsCI "class",
    litsCI "class/division",
    litsCI "transport" ++ [ws0] ++ litsCI "hazard" ++ [ws0] ++
      litsCI "class" ++ [.opt (litsCI "(es)")],
    [RTok.opt [.alts [litsCI "imdg", litsCI "iata", litsCI "adg"]], ws0] ++
      litsCI "hazard" ++ [ws0] ++ litsCI "class" ++ [.opt (litsCI "(es)")],
    litsCI "hazard" ++ [ws0] ++ litsCI "class" ++ [.opt (litsCI "(es)")],
    litsCI "dangerous" ++ [ws0] ++ litsCI "goods" ++ [ws0] ++ litsCI "class",
    litsCI "un" ++ [ws0] ++ litsCI "class" ]

/-- sds `pg_labels` (lines 806-810). -/
def sdsPgLabels : List (List RTok) :=
  [ litsCI "packing" ++ [ws0] ++ litsCI "group" ++ [.opt (litsCI "(s)")],
    litsCI "packing" ++ [ws0] ++ litsCI "group" ++ [ws0] ++ litsCI "(if" ++
      [ws0] ++ litsCI "applicable)",
    litsCI "pg" ]

/-- sds product-use labels (lines 762-768). -/
def sdsUseLabels : List (List RTok) :=
  [ ciWords ["recommended", "use"],
    ciWords ["intended", "use"],
    ciWords ["use", "of", "the", "substance"],
    ciWords ["product", "use"],
    ciWords ["relevant", "identified", "uses"] ]

/-- Final-sweep bare-label pattern (line 828):
`(product\s+identifier|product\s+name|trade\s+name|commercial\s+product\s+name)\s*$`,
applied with `fullmatch` to the stripped value. -/
def labelLikeFull (s : List Char) : Bool :=
  reFull ([.alts
    [ ciWords ["product", "identifier"], ciWords ["product", "name"],
      ciWords ["trade", "name"], ciWords ["commercial", "product", "name"] ],
    ws0]) s

/-- Final-sweep header pattern (line 829):
`^\s*\d+\.?\s*(identification|hazard)\b` (prefix match). -/
def headerLikeHit (s : List Char) : Bool :=
  (reMatchRest [ws0, .plusC isDigitCh, .opt [.chr (fun c => c = '.')], ws0,
    .alts [litsCI "identification", litsCI "hazard"], wbTok] none s).isSome

/-- The final defence-in-depth sweep of `parse_pdf` (lines 827-834)
applied to one field value; `isProductName` selects the extra
header-shape test. -/
def finalSweep (isProductName : Bool) (fr : FieldResult) : FieldResult :=
  match fr.value with
  | some v =>
    if ¬ v.isEmpty &&
        (sds_is_noise_text v || labelLikeFull (pyStrip v) ||
         (isProductName && headerLikeHit v)) then
      ⟨none, 0⟩
    else fr
  | none => fr

/-- The manufacturer final clean-up of `parse_pdf` (lines 751-754):
truncate before a leaked `Product Name`/`Trade name` label
(capturing `re.split`, piece 0), strip, then label-prefix strip and
de-duplication. -/
def manufacturerCleanup (m : List Char) : List Char :=
  let m :=
    match reSearchPos
        [wbTok, .alts [ciWords ["product", "name"], ciWords ["trade", "name"]],
         wbTok] none m 0 with
    | some p => pyStrip (m.take p)
    | none => m
  strip_leading_label_prefixes (dedup_repeated_phrase m)

/-- parse_pdf lines 733-744: the product-name field.  Section 1 first,
then the first 15 lines of the document, then the date-label override,
final validation sweep included (lines 828-835). -/
def pp_product_name (text : List Char) : FieldResult :=
  let section1 := sds_get_section text 1
  let productName0 := sds_extract_product_name section1
  let prefixText := joinNl ((splitLines text).take 15)
  let productName1 :=
    if pyTruthy productName0 then productName0
    else sds_extract_product_name prefixText
  let productName :=
    match productName1 with
    | some v =>
      if dateHeaderHead v then
        match sds_extract_product_name prefixText with
        | some alt =>
          if ¬ alt.isEmpty && ¬ dateHeaderHead alt then some alt else some v
        | none => some v
      else some v
    | none => none
  finalSweep true (mkFR productName)

/-- parse_pdf lines 746-755: the manufacturer field.  Section 1 first,
then the global scan, then the final cleanup (split at leaked
Product-Name/Trade-name labels, dedup, label-prefix strip), final
validation sweep included. -/
def pp_manufacturer (text : List Char) : FieldResult :=
  let section1 := sds_get_section text 1
  let manufacturer0 := sds_extract_manufacturer section1
  let manufacturer1 :=
    if pyTruthy manufacturer0 then manufacturer0
    else extract_manufacturer_global text
  let manufacturer :=
    if pyTruthy manufacturer1 then manufacturer1.map manufacturerCleanup
    else manufacturer1
  finalSweep false (mkFR manufacturer)

/-- parse_pdf lines 757-759: the description field (Section 1 only). -/
def pp_description (text : List Char) : FieldResult :=
  mkFR (sds_extract_description (sds_get_section text 1))

/-- parse_pdf lines 761-768: the product-use field. -/
def pp_product_use (text : List Char) : FieldResult :=
  mkFR (extract_field_value text sdsUseLabels false (sds_get_section text 1))

/-- parse_pdf lines 771-798: the dangerous-goods-class field: modular
Section 14 extractor, then `extract_field_value`, then the table path,
then validation. -/
def pp_dg_class (text : List Char) : FieldResult :=
  let section14 := sds_get_section text 14
  let dgClass0 := extract_section14_field section14 sdsDgLabels
    "dangerous_goods_class"
  let dgClass1 :=
    if pyTruthy dgClass0 then dgClass0
    else extract_field_value text sdsDgLabels false section14
  let dgClass2 :=
    if pyTruthy dgClass1 then dgClass1
    else extract_dg_class_from_table section14
  let dgClass :=
    match dgClass2 with
    | some v =>
      if ¬ v.isEmpty && ¬ sds_validate_dangerous_goods_class v then none
      else some v
    | none => none
  mkFR dgClass

/-- parse_pdf lines 800-802: the subsidiary-risk field. -/
def pp_subsidiary_risk (text : List Char) : FieldResult :=
  mkFR (extract_field_value text [ciWords ["subsidiary", "risk"]] false
    (sds_get_section text 14))

/-- parse_pdf lines 804-821: the packing-group field: modular Section 14
extractor, then `extract_field_value`, then the table path. -/
def pp_packing_group (text : List Char) : FieldResult :=
  let section14 := sds_get_section text 14
  let packingGroup0 := extract_section14_field section14 sdsPgLabels
    "packing_group"
  let packingGroup1 :=
    if pyTruthy packingGroup0 then packingGroup0
    else extract_field_value text sdsPgLabels false section14
  mkFR (if pyTruthy packingGroup1 then packingGroup1
    else extract_packing_group_from_table section14)

/-- parse_pdf lines 823-825: the issue-date field. -/
def pp_issue_date (today : PyDate) (text : List Char) : FieldResult :=
  mkFR (sds_extract_date today text)

/-- sds_extractor.py `parse_pdf` (lines 693-836), with the PDF reading
already done: empty text is the terminal error exit (lines 700-712);
otherwise each of the eight fields is produced by its own block of the
source, embedded above as an independent function of the text. -/
def parse_pdf_with_text (today : PyDate) (text : List Char) :
    SdsParseResult :=
  if text.isEmpty then .error
  else
    .parsed
      (pp_product_name text)
      (pp_manufacturer text)
      (pp_description text)
      (pp_product_use text)
      (pp_dg_class text)
      (pp_subsidiary_risk text)
      (pp_packing_group text)
      (pp_issue_date today text)

/-- config.py `MIN_TEXT_LENGTH`. -/
def MIN_TEXT_LENGTH : Nat := 50

/-- Length of the stripped text, the comparison key of
text_extractor.py (`len(text.strip())`). -/
def stripLen (t : List Char) : Nat :=
  (pyStrip t).length

/-- The best-text fold of text_extractor.py `extract_text`
(lines 24-87): each backend attempt that produced text replaces the
running best exactly when its stripped length is strictly greater
(`none` stands for an unavailable backend or one whose extraction threw
and was skipped). -/
def bestOf (attempts : List (Option (List Char))) : List Char :=
  attempts.foldl
    (fun best att =>
      match att with
      | some t => if stripLen best < stripLen t then t else best
      | none => best) []

/-- The OCR page concatenation of text_extractor.py lines 125-140:
successful pages contribute `\n--- Page i ---\n` plus their text
(numbered from 1 by original image position), failed pages are skipped. -/
def ocrConcat (pages : List (Option (List Char))) : List Char :=
  (pages.enum.map (fun pr =>
    match pr.2 with
    | some t => "\n--- Page ".toList ++ (toString (pr.1 + 1)).toList ++
        " ---\n".toList ++ t
    | none => [])).flatten

/-- text_extractor.py `extract_text` (lines 20-163), text component:
the direct backend attempts are folded into the longest-stripped text;
when that is shorter than `MIN_TEXT_LENGTH` and OCR is available, the
document is rasterised (`images = none` models an unavailable or failing
converter, which returns the best direct text) and non-empty OCR output
replaces the direct text; otherwise the best direct text is returned
(the empty string when even it is whitespace-only). -/
def extract_text (attempts : List (Option (List Char))) (ocrAvailable : Bool)
    (images : Option (List (Option (List Char)))) : List Char :=
  let best := bestOf attempts
  if stripLen best < MIN_TEXT_LENGTH && ocrAvailable then
    match images with
    | none => best
    | some pages =>
      let ocrText := ocrConcat pages
      if ¬ (pyStrip ocrText).isEmpty then ocrText
      else if (pyStrip best).isEmpty then [] else best
  else
    if (pyStrip best).isEmpty then [] else best

/-- sds_extractor.py `extract_text_from_pdf` (lines 225-275), the
extractor `parse_pdf` itself calls (line 699).  The four backends are
tried in the fixed order pdfplumber, PyMuPDF, pdfminer, OCR; each
argument is `some t` when that backend is available and its extraction
completes with output `t`, and `none` when it is unavailable or raises
(a raise that had already appended partial page text is modelled as
contributing nothing).  The accumulator mirrors the source's `text`
variable: pdfplumber and PyMuPDF append to it (`text +=`), pdfminer
REASSIGNS it (`text = pdfminer_extract(f)`), OCR appends again; the
FIRST point where the accumulated text has a non-empty strip returns it
- there is no length comparison between backends. -/
def extract_text_from_pdf (plumber pymupdf miner ocr :
    Option (List Char)) : List Char :=
  let acc0 : List Char := []
  let afterPlumber :=
    match plumber with
    | some t => some (acc0 ++ t)
    | none => none
  match afterPlumber with
  | some acc1 =>
    if ¬ (pyStrip acc1).isEmpty then acc1
    else fromPymupdf acc1
  | none => fromPymupdf acc0
where
  fromPymupdf (acc : List Char) : List Char :=
    match pymupdf with
    | some t =>
      let acc2 := acc ++ t
      if ¬ (pyStrip acc2).isEmpty then acc2 else fromMiner acc2
    | none => fromMiner acc
  fromMiner (acc : List Char) : List Char :=
    match miner with
    | some t =>
      if ¬ t.isEmpty && ¬ (pyStrip t).isEmpty then t else fromOcr t
    | none => fromOcr acc
  fromOcr (acc : List Char) : List Char :=
    match ocr with
    | some t =>
      let acc2 := acc ++ t
      if ¬ (pyStrip acc2).isEmpty then acc2 else []
    | none => []

/-
-------------------------------------------------------------------------
Specification-side definitions.  Everything below this banner up to the
first theorem is written from the WORDING of the specification claims,
not from the Python source, and is used to state refinement directions
and counterexamples against the source-side definitions above.
-------------------------------------------------------------------------
-/

/-- All full strings denoted by a phrase pattern: one admissible word per
position, positions joined by single spaces.  A whitespace-flexible
whole-string phrase match is membership of the whitespace-collapsed
input in this list (proved below). -/
def seqJoins : WSeq → List (List Char)
  | [] => [[]]
  | slot :: rest =>
    slot.flatMap (fun w =>
      (seqJoins rest).map (fun t => if t.isEmpty then w else w ++ ' ' :: t))

/-- A phrase word is non-empty and contains no whitespace. -/
def wordOK (w : List Char) : Prop :=
  w ≠ [] ∧ ∀ c ∈ w, isPyWs c = false

/-- Every word of every position of a phrase pattern is `wordOK`. -/
def wseqOK (pat : WSeq) : Prop :=
  ∀ slot ∈ pat, ∀ w ∈ slot, wordOK w

/-- C1, specification side: the recognized not-applicable phrases of the
DG-class validator, read as WHOLE-STRING matches ("matched
case-insensitively against the whole string"): every string denoted by
the validator's phrase patterns `not?\s+regulated`, `not?\s+applicable`,
`not?\s+required`, `not?\s+subject`, `none`, `n/?a`,
`not\s+a\s+dangerous\s+good`, with `\s+` normalised to one space. -/
def dgNaPhrasesSpec : List (List Char) :=
  [ "no regulated", "not regulated", "no applicable", "not applicable",
    "no required", "not required", "no subject", "not subject",
    "none", "na", "n/a", "not a dangerous good" ].map String.toList

/-- C1, specification side: the claim's acceptance predicate.  After
trimming, the value matches `^[1-9](\.[1-9])?$`, or one of the
recognized not-applicable phrases matches the whole string
case-insensitively (whitespace-flexibly). -/
def dgSpecWhole (value : List Char) : Prop :=
  let v := pyStrip value
  (∃ a, v = [a] ∧ digit19 a = true) ∨
  (∃ a b, v = [a, '.', b] ∧ digit19 a = true ∧ digit19 b = true) ∨
  collapseWs (lcL v) ∈ dgNaPhrasesSpec

/-- C1, amended, specification side: what the sds_extractor homonym
actually accepts beyond the class pattern - four of its phrases start
the (trimmed, lower-cased) value without having to exhaust it
(`re.match` without `$`), while `none` and `n/?a` must be the whole
string. -/
def dgSpecSdsBeyond (v : List Char) : Prop :=
  (∃ p, p ∈ ([ "no regulated", "not regulated", "no applicable",
       "not applicable", "not a dangerous good",
       "not subject to" ].map String.toList) ∧
     p <+: collapseWs (lcL v)) ∨
  collapseWs (lcL v) ∈ ([ "none", "na", "n/a" ].map String.toList)

/-- C6, specification side, the claim's ORIGINAL acceptance predicate:
Roman numerals I, II, III case-insensitively, "with legacy tolerance for
IV / V", or a recognized not-applicable phrase (whole string). -/
def pgClaimSpec (s : List Char) : Prop :=
  lcL s ∈ ([ "i", "ii", "iii", "iv", "v" ].map String.toList) ∨
  collapseWs (lcL s) ∈
    ([ "na", "n.a", "n/a", "n./a", "na.", "n.a.", "n/a.", "n./a.", "none",
       "not applicable", "not required", "not assigned",
       "not subject" ].map String.toList)

/-- C6, amended, specification side: the strings the packing-group
validator `VALID_PACKING_GROUPS` accepts, as a whitespace-collapsed
whole-string membership - the Roman-numeral branch `I{1,3}|IV?` denotes
exactly i, ii, iii, iv (bare v is NOT among them). -/
def pgSpecAmended (s : List Char) : Prop :=
  collapseWs (lcL s) ∈
    ([ "i", "ii", "iii", "iv",
       "na", "n.a", "n/a", "n./a", "na.", "n.a.", "n/a.", "n./a.", "none",
       "not applicable", "not required", "not assigned",
       "not subject" ].map String.toList)


/-- No two adjacent whitespace characters (the shape of
whitespace-collapsed text, used to analyse `dedup_repeated_phrase`). -/
def noAdjWs : List Char → Prop
  | [] => True
  | [_] => True
  | c :: d :: r => ¬ (isPyWs c = true ∧ isPyWs d = true) ∧ noAdjWs (d :: r)

/-
-------------------------------------------------------------------------
Theorems.  General lemmas about the embedded text utilities first, then
one theorem per claim, each with its witness or counterexample where
required.
-------------------------------------------------------------------------
-/

theorem collapseWsGo_true_eq (r : List Char) :
    collapseWsGo true r = collapseWsGo false (r.dropWhile isPyWs) := by
  induction r with
  | nil => rfl
  | cons d r ih =>
    cases hd : isPyWs d with
    | true => simpa [collapseWsGo, hd, List.dropWhile] using ih
    | false => simp [collapseWsGo, hd, List.dropWhile]

theorem collapseWs_nil_iff (v : List Char) : collapseWs v = [] ↔ v = [] := by
  cases v with
  | nil => simp [collapseWs, collapseWsGo]
  | cons c r =>
    simp only [collapseWs, collapseWsGo]
    cases hc : isPyWs c <;> simp [hc]

theorem collapseWs_cons_not_ws (c : Char) (r : List Char)
    (hc : isPyWs c = false) : collapseWs (c :: r) = c :: collapseWs r := by
  simp [collapseWs, collapseWsGo, hc]

theorem collapseWs_cons_ws (c : Char) (r : List Char) (hc : isPyWs c = true) :
    collapseWs (c :: r) = ' ' :: collapseWs (r.dropWhile isPyWs) := by
  simp [collapseWs, collapseWsGo, hc, collapseWsGo_true_eq]

theorem collapseWs_append_wsfree (w r : List Char)
    (hw : ∀ c ∈ w, isPyWs c = false) :
    collapseWs (w ++ r) = w ++ collapseWs r := by
  induction w with
  | nil => simp
  | cons c w ih =>
    have hc := hw c (by simp)
    simp only [List.cons_append]
    rw [collapseWs_cons_not_ws _ _ hc, ih (fun d hd => hw d (by simp [hd]))]

theorem collapseWs_peel_fwd (w : List Char) :
    (∀ c ∈ w, isPyWs c = false) → ∀ v u, collapseWs v = w ++ u →
      ∃ v2, v = w ++ v2 ∧ collapseWs v2 = u := by
  induction w with
  | nil => intro _ v u h; exact ⟨v, rfl, h⟩
  | cons c w ih =>
    intro hw v u h
    cases v with
    | nil => simp [collapseWs, collapseWsGo] at h
    | cons d v2 =>
      cases hd : isPyWs d with
      | true =>
        rw [collapseWs_cons_ws d v2 hd] at h
        obtain ⟨h1, -⟩ := List.cons.inj h
        have hc : isPyWs c = false := hw c (by simp)
        rw [← h1] at hc
        exact absurd hc (by decide)
      | false =>
        rw [collapseWs_cons_not_ws d v2 hd] at h
        obtain ⟨h1, h2⟩ := List.cons.inj h
        subst h1
        obtain ⟨v3, hv3, hc3⟩ := ih (fun e he => hw e (by simp [he])) v2 u h2
        exact ⟨v3, by simp [hv3], hc3⟩

theorem collapseWs_peel (w : List Char) (hw : ∀ c ∈ w, isPyWs c = false)
    (v u : List Char) :
    collapseWs v = w ++ u ↔ ∃ v2, v = w ++ v2 ∧ collapseWs v2 = u := by
  constructor
  · exact collapseWs_peel_fwd w hw v u
  · rintro ⟨v2, rfl, hc2⟩
    rw [collapseWs_append_wsfree _ _ hw, hc2]

theorem collapseWs_eq_wsfree (w : List Char) (hw : ∀ c ∈ w, isPyWs c = false)
    (v : List Char) : collapseWs v = w ↔ v = w := by
  have h := collapseWs_peel w hw v []
  simp only [List.append_nil] at h
  rw [h]
  constructor
  · rintro ⟨v2, rfl, hv2⟩
    rw [collapseWs_nil_iff] at hv2
    simp [hv2]
  · rintro rfl
    exact ⟨[], by simp, rfl⟩

theorem collapseWs_sp_head (v t : List Char)
    (h : collapseWs v = ' ' :: t) :
    (v.takeWhile isPyWs).isEmpty = false ∧
      collapseWs (v.dropWhile isPyWs) = t := by
  cases v with
  | nil => simp [collapseWs, collapseWsGo] at h
  | cons d r =>
    cases hd : isPyWs d with
    | true =>
      rw [collapseWs_cons_ws d r hd] at h
      obtain ⟨-, h2⟩ := List.cons.inj h
      refine ⟨by simp [List.takeWhile, hd], ?_⟩
      simpa [List.dropWhile, hd] using h2
    | false =>
      rw [collapseWs_cons_not_ws d r hd] at h
      obtain ⟨h1, -⟩ := List.cons.inj h
      rw [h1] at hd
      exact absurd hd (by decide)

theorem stripPre_eq_some (w : List Char) :
    ∀ v v', stripPre w v = some v' ↔ v = w ++ v' := by
  induction w with
  | nil => intro v v'; simp [stripPre]
  | cons a w ih =>
    intro v v'
    cases v with
    | nil => simp [stripPre]
    | cons c cs =>
      by_cases hca : c = a
      · subst hca
        simp [stripPre, ih]
      · simp [stripPre, hca, Ne.symm hca]

theorem seqJoins_ne_nil (pat : WSeq) (hpat : pat ≠ [])
    (hp : wseqOK pat) : ∀ t ∈ seqJoins pat, t ≠ [] := by
  cases pat with
  | nil => exact absurd rfl hpat
  | cons slot rest =>
    intro t ht
    simp only [seqJoins, List.mem_flatMap, List.mem_map] at ht
    obtain ⟨w, hw, t', _, rfl⟩ := ht
    have hwOK : wordOK w := hp slot (by simp) w hw
    cases h : t'.isEmpty <;> simp [h, hwOK.1]

theorem wSeqMatch_iff_seqJoins (pat : WSeq) (hp : wseqOK pat) :
    ∀ v, wSeqMatch pat v = true ↔ collapseWs v ∈ seqJoins pat := by
  induction pat with
  | nil =>
    intro v
    simp [wSeqMatch, seqJoins, List.isEmpty_iff, collapseWs_nil_iff]
  | cons slot rest ih =>
    intro v
    have hrest : wseqOK rest := fun s hs => hp s (by simp [hs])
    simp only [wSeqMatch, seqJoins, List.any_eq_true, List.mem_flatMap,
      List.mem_map]
    constructor
    · rintro ⟨w, hwmem, hw⟩
      have hwOK : wordOK w := hp slot (by simp) w hwmem
      cases hsp : stripPre w v with
      | none => rw [hsp] at hw; simp at hw
      | some v2 =>
        rw [hsp] at hw
        have hv : v = w ++ v2 := (stripPre_eq_some w v v2).mp hsp
        by_cases hre : rest = []
        · subst hre
          simp only [List.isEmpty_nil, if_true] at hw
          have hv2 : v2 = [] := List.isEmpty_iff.mp hw
          subst hv2
          refine ⟨w, hwmem, [], by simp [seqJoins], ?_⟩
          simp only [List.isEmpty_nil, if_true]
          rw [hv, List.append_nil, (collapseWs_eq_wsfree w hwOK.2 w).mpr rfl]
        · have hre' : rest.isEmpty = false := by
            simpa [List.isEmpty_iff] using hre
          simp only [hre', Bool.false_eq_true, if_false, Bool.and_eq_true,
            Bool.not_eq_true', decide_eq_true_eq] at hw
          obtain ⟨htw, hrec⟩ := hw
          have ht := (ih hrest (v2.dropWhile isPyWs)).mp hrec
          refine ⟨w, hwmem, collapseWs (v2.dropWhile isPyWs), ht, ?_⟩
          have hv2head :
              collapseWs v2 = ' ' :: collapseWs (v2.dropWhile isPyWs) := by
            cases v2 with
            | nil => simp [List.takeWhile] at htw
            | cons d r =>
              cases hd : isPyWs d with
              | true => simp [collapseWs_cons_ws d r hd, List.dropWhile, hd]
              | false => simp [List.takeWhile, hd] at htw
          have hne : ¬ (collapseWs (v2.dropWhile isPyWs)).isEmpty = true := by
            intro he
            exact seqJoins_ne_nil rest hre hrest _ ht (List.isEmpty_iff.mp he)
          rw [if_neg (by simpa using hne)]
          rw [hv, collapseWs_append_wsfree w v2 hwOK.2, hv2head]
    · rintro ⟨w, hwmem, t, ht, heq⟩
      have hwOK : wordOK w := hp slot (by simp) w hwmem
      by_cases hre : rest = []
      · subst hre
        simp only [seqJoins, List.mem_singleton] at ht
        subst ht
        simp only [List.isEmpty_nil, if_true] at heq
        have hv : v = w := (collapseWs_eq_wsfree w hwOK.2 v).mp heq.symm
        refine ⟨w, hwmem, ?_⟩
        have hsp : stripPre w v = some [] := by
          rw [stripPre_eq_some]; simp [hv]
        rw [hsp]
        simp
      · have htne : t ≠ [] := seqJoins_ne_nil rest hre hrest t ht
        rw [if_neg (by simpa using htne)] at heq
        obtain ⟨v2, hv2, hcv2⟩ := collapseWs_peel_fwd w hwOK.2 v _ heq.symm
        obtain ⟨htw, hdw⟩ := collapseWs_sp_head v2 t hcv2
        refine ⟨w, hwmem, ?_⟩
        rw [(stripPre_eq_some w v v2).mpr hv2]
        have hre' : rest.isEmpty = false := by
          simpa [List.isEmpty_iff] using hre
        simp only [hre', Bool.false_eq_true, if_false, Bool.and_eq_true,
          Bool.not_eq_true', decide_eq_true_eq]
        exact ⟨by simp [htw], (ih hrest (v2.dropWhile isPyWs)).mpr (hdw ▸ ht)⟩

theorem wSeqMatchPre_iff_seqJoins (pat : WSeq) (hp : wseqOK pat) :
    ∀ v, wSeqMatchPre pat v = true ↔
      ∃ t ∈ seqJoins pat, t <+: collapseWs v := by
  induction pat with
  | nil =>
    intro v
    simp [wSeqMatchPre, seqJoins]
  | cons slot rest ih =>
    intro v
    have hrest : wseqOK rest := fun s hs => hp s (by simp [hs])
    simp only [wSeqMatchPre, seqJoins, List.any_eq_true, List.mem_flatMap,
      List.mem_map]
    constructor
    · rintro ⟨w, hwmem, hw⟩
      have hwOK : wordOK w := hp slot (by simp) w hwmem
      cases hsp : stripPre w v with
      | none => rw [hsp] at hw; simp at hw
      | some v2 =>
        rw [hsp] at hw
        have hv : v = w ++ v2 := (stripPre_eq_some w v v2).mp hsp
        by_cases hre : rest = []
        · subst hre
          refine ⟨w, ⟨w, hwmem, [], by simp [seqJoins], by simp⟩, ?_⟩
          rw [hv, collapseWs_append_wsfree w v2 hwOK.2]
          exact ⟨collapseWs v2, rfl⟩
        · have hre' : rest.isEmpty = false := by
            simpa [List.isEmpty_iff] using hre
          simp only [hre', Bool.false_eq_true, if_false, Bool.and_eq_true,
            Bool.not_eq_true', decide_eq_true_eq] at hw
          obtain ⟨htw, hrec⟩ := hw
          obtain ⟨t, ht, hpre⟩ := (ih hrest (v2.dropWhile isPyWs)).mp hrec
          have htne : t ≠ [] := seqJoins_ne_nil rest hre hrest t ht
          refine ⟨w ++ ' ' :: t, ⟨w, hwmem, t, ht, by
            rw [if_neg (by simpa using htne)]⟩, ?_⟩
          have hv2head :
              collapseWs v2 = ' ' :: collapseWs (v2.dropWhile isPyWs) := by
            cases v2 with
            | nil => simp [List.takeWhile] at htw
            | cons d r =>
              cases hd : isPyWs d with
              | true => simp [collapseWs_cons_ws d r hd, List.dropWhile, hd]
              | false => simp [List.takeWhile, hd] at htw
          obtain ⟨rem, hrem⟩ := hpre
          refine ⟨rem, ?_⟩
          rw [hv, collapseWs_append_wsfree w v2 hwOK.2, hv2head, ← hrem]
          simp
    · rintro ⟨t0, ⟨w, hwmem, t, ht, hjoin⟩, hpre⟩
      have hwOK : wordOK w := hp slot (by simp) w hwmem
      by_cases hre : rest = []
      · subst hre
        simp only [seqJoins, List.mem_singleton] at ht
        subst ht
        simp only [List.isEmpty_nil, if_true] at hjoin
        subst hjoin
        obtain ⟨rem, hrem⟩ := hpre
        obtain ⟨v2, hv2, -⟩ := collapseWs_peel_fwd w hwOK.2 v rem hrem.symm
        refine ⟨w, hwmem, ?_⟩
        rw [(stripPre_eq_some w v v2).mpr hv2]
        simp
      · have htne : t ≠ [] := seqJoins_ne_nil rest hre hrest t ht
        rw [if_neg (by simpa using htne)] at hjoin
        subst hjoin
        obtain ⟨rem, hrem⟩ := hpre
        have hshape : collapseWs v = w ++ ' ' :: (t ++ rem) := by
          rw [← hrem]; simp
        obtain ⟨v2, hv2, hcv2⟩ := collapseWs_peel_fwd w hwOK.2 v _ hshape
        obtain ⟨htw, hdw⟩ := collapseWs_sp_head v2 _ hcv2
        refine ⟨w, hwmem, ?_⟩
        rw [(stripPre_eq_some w v v2).mpr hv2]
        have hre' : rest.isEmpty = false := by
          simpa [List.isEmpty_iff] using hre
        simp only [hre', Bool.false_eq_true, if_false, Bool.and_eq_true,
          Bool.not_eq_true', decide_eq_true_eq]
        refine ⟨by simp [htw], (ih hrest (v2.dropWhile isPyWs)).mpr ?_⟩
        exact ⟨t, ht, ⟨rem, by rw [hdw]⟩⟩

theorem VALID_DG_iff (v : List Char) :
    VALID_DG_CLASSES_match v = true ↔
      ((∃ a, v = [a] ∧ digit19 a = true) ∨
       (∃ a b, v = [a, '.', b] ∧ digit19 a = true ∧ digit19 b = true)) := by
  rcases v with _ | ⟨a, _ | ⟨b, _ | ⟨c, rest⟩⟩⟩
  · simp [VALID_DG_CLASSES_match]
  · simp [VALID_DG_CLASSES_match]
  · simp [VALID_DG_CLASSES_match]
  · cases rest with
    | nil =>
      by_cases hb : b = '.'
      · subst hb
        simp only [VALID_DG_CLASSES_match]
        constructor
        · rintro h
          simp only [Bool.and_eq_true] at h
          exact Or.inr ⟨a, c, rfl, h.1, h.2⟩
        · rintro (⟨x, hx, -⟩ | ⟨x, y, hxy, h1, h2⟩)
          · simp at hx
          · obtain ⟨rfl, -, rfl⟩ : a = x ∧ ('.' : Char) = '.' ∧ c = y := by
              simpa using hxy
            simp [h1, h2]
      · simp [VALID_DG_CLASSES_match, hb]
    | cons d rest2 => simp [VALID_DG_CLASSES_match]

theorem any_wSeqMatch_iff (pats : List WSeq) (hp : ∀ p ∈ pats, wseqOK p)
    (v : List Char) :
    (pats.any (fun p => wSeqMatch p v)) = true ↔
      collapseWs v ∈ pats.flatMap seqJoins := by
  simp only [List.any_eq_true, List.mem_flatMap]
  constructor
  · rintro ⟨p, hpmem, h⟩
    exact ⟨p, hpmem, (wSeqMatch_iff_seqJoins p (hp p hpmem) v).mp h⟩
  · rintro ⟨p, hpmem, h⟩
    exact ⟨p, hpmem, (wSeqMatch_iff_seqJoins p (hp p hpmem) v).mpr h⟩

theorem utils_na_flat :
    ([[[ "no".toList, "not".toList ], [ "regulated".toList ]],
      [[ "no".toList, "not".toList ], [ "applicable".toList ]],
      [[ "no".toList, "not".toList ], [ "required".toList ]],
      [[ "no".toList, "not".toList ], [ "subject".toList ]],
      [[ "none".toList ]],
      [[ "na".toList, "n/a".toList ]],
      [[ "not".toList ], [ "a".toList ], [ "dangerous".toList ],
       [ "good".toList ]]
     ].flatMap seqJoins) = dgNaPhrasesSpec := by decide

theorem utils_dg_eq_spec (s : List Char) :
    utils_validate_dangerous_goods_class s = true ↔ dgSpecWhole s := by
  unfold utils_validate_dangerous_goods_class dgSpecWhole
  by_cases hs : s.isEmpty = true
  · have hs' : s = [] := List.isEmpty_iff.mp hs
    subst hs'
    constructor
    · intro h; simp at h
    · rintro (⟨a, ha, -⟩ | ⟨a, b, hab, -⟩ | hmem)
      · simp [pyStrip] at ha
      · simp [pyStrip] at hab
      · revert hmem; decide
  · have hs' : s.isEmpty = false := by simpa using hs
    simp only [hs', Bool.false_eq_true, if_false]
    by_cases hdg : VALID_DG_CLASSES_match (pyStrip s) = true
    · simp only [hdg, if_true]
      rcases (VALID_DG_iff (pyStrip s)).mp hdg with h | h
      · simp only [true_iff]
        exact Or.inl h
      · simp only [true_iff]
        exact Or.inr (Or.inl h)
    · have hdg' : VALID_DG_CLASSES_match (pyStrip s) = false := by
        simpa using hdg
      simp only [hdg', Bool.false_eq_true, if_false]
      rw [any_wSeqMatch_iff _ (by simp only [wseqOK, wordOK]; decide)
        (lcL (pyStrip s)), utils_na_flat]
      constructor
      · intro h
        exact Or.inr (Or.inr h)
      · rintro (h | h | h)
        · exact absurd ((VALID_DG_iff (pyStrip s)).mpr (Or.inl h)) (by
            simp [hdg'])
        · exact absurd ((VALID_DG_iff (pyStrip s)).mpr (Or.inr h)) (by
            simp [hdg'])
        · exact h

theorem sds_dg_eq_spec (s : List Char) :
    sds_validate_dangerous_goods_class s = true ↔
      ((∃ a, pyStrip s = [a] ∧ digit19 a = true) ∨
       (∃ a b, pyStrip s = [a, '.', b] ∧ digit19 a = true ∧
          digit19 b = true) ∨
       dgSpecSdsBeyond (pyStrip s)) := by
  unfold sds_validate_dangerous_goods_class dgSpecSdsBeyond
  by_cases hs : s.isEmpty = true
  · have hs' : s = [] := List.isEmpty_iff.mp hs
    subst hs'
    constructor
    · intro h; simp at h
    · rintro (⟨a, ha, -⟩ | ⟨a, b, hab, -⟩ | hmem)
      · simp [pyStrip] at ha
      · simp [pyStrip] at hab
      · revert hmem; decide
  · have hs' : s.isEmpty = false := by simpa using hs
    simp only [hs', Bool.false_eq_true, if_false]
    by_cases hdg : VALID_DG_CLASSES_match (pyStrip s) = true
    · simp only [hdg, if_true, true_iff]
      rcases (VALID_DG_iff (pyStrip s)).mp hdg with h | h
      · exact Or.inl h
      · exact Or.inr (Or.inl h)
    · have hdg' : VALID_DG_CLASSES_match (pyStrip s) = false := by
        simpa using hdg
      simp only [hdg', Bool.false_eq_true, if_false, Bool.or_eq_true]
      rw [wSeqMatchPre_iff_seqJoins
            [[ "no".toList, "not".toList ], [ "regulated".toList ]]
            (by simp only [wseqOK, wordOK]; decide) (lcL (pyStrip s)),
          wSeqMatchPre_iff_seqJoins
            [[ "no".toList, "not".toList ], [ "applicable".toList ]]
            (by simp only [wseqOK, wordOK]; decide) (lcL (pyStrip s)),
          wSeqMatch_iff_seqJoins [[ "none".toList ]]
            (by simp only [wseqOK, wordOK]; decide) (lcL (pyStrip s)),
          wSeqMatch_iff_seqJoins [[ "na".toList, "n/a".toList ]]
            (by simp only [wseqOK, wordOK]; decide) (lcL (pyStrip s)),
          wSeqMatchPre_iff_seqJoins
            [[ "not".toList ], [ "a".toList ], [ "dangerous".toList ],
             [ "good".toList ]]
            (by simp only [wseqOK, wordOK]; decide) (lcL (pyStrip s)),
          wSeqMatchPre_iff_seqJoins
            [[ "not".toList ], [ "subject".toList ], [ "to".toList ]]
            (by simp only [wseqOK, wordOK]; decide) (lcL (pyStrip s))]
      rw [(by decide :
            seqJoins [[ "no".toList, "not".toList ], [ "regulated".toList ]] =
              [ "no regulated".toList, "not regulated".toList ]),
          (by decide :
            seqJoins [[ "no".toList, "not".toList ], [ "applicable".toList ]] =
              [ "no applicable".toList, "not applicable".toList ]),
          (by decide : seqJoins [[ "none".toList ]] = [ "none".toList ]),
          (by decide : seqJoins [[ "na".toList, "n/a".toList ]] =
              [ "na".toList, "n/a".toList ]),
          (by decide :
            seqJoins [[ "not".toList ], [ "a".toList ], [ "dangerous".toList ],
              [ "good".toList ]] = [ "not a dangerous good".toList ]),
          (by decide :
            seqJoins [[ "not".toList ], [ "subject".toList ],
              [ "to".toList ]] = [ "not subject to".toList ])]
      have hno1 : ¬ (∃ a, pyStrip s = [a] ∧ digit19 a = true) := fun h =>
        absurd ((VALID_DG_iff (pyStrip s)).mpr (Or.inl h)) (by simp [hdg'])
      have hno2 : ¬ (∃ a b, pyStrip s = [a, '.', b] ∧ digit19 a = true ∧
          digit19 b = true) := fun h =>
        absurd ((VALID_DG_iff (pyStrip s)).mpr (Or.inr h)) (by simp [hdg'])
      generalize hA : (∃ a, pyStrip s = [a] ∧ digit19 a = true) = A
        at hno1 ⊢
      generalize hB : (∃ a b, pyStrip s = [a, '.', b] ∧ digit19 a = true ∧
        digit19 b = true) = B at hno2 ⊢
      simp only [List.map_cons, List.map_nil, List.mem_cons,
        List.not_mem_nil, or_false, List.mem_singleton, or_and_right,
        exists_or, exists_eq_left]
      tauto

/-- C1: the DG-class validator accepts, after trimming, exactly the
single-digit classes `[1-9]` with optional single-digit subdivision, or
a recognized not-applicable response - but the two homonymous
implementations differ on HOW phrases match.  The modules/utils.py
version is exactly the claim's whole-string predicate (`re.fullmatch`);
the sds_extractor.py version matches `not? regulated`,
`not? applicable`, `not a dangerous good` and `not subject to` only as
leading text (`re.match` without `$`), keeping `none` and `n/?a` whole-
string.  The claim's particular examples ("3", "not applicable", "N/A"
accepted; "14.5", "1950" rejected) hold for both versions. -/
theorem C1_dg_validator :
    (∀ s : List Char,
       utils_validate_dangerous_goods_class s = true ↔ dgSpecWhole s) ∧
    (∀ s : List Char,
       sds_validate_dangerous_goods_class s = true ↔
         ((∃ a, pyStrip s = [a] ∧ digit19 a = true) ∨
          (∃ a b, pyStrip s = [a, '.', b] ∧ digit19 a = true ∧
             digit19 b = true) ∨
          dgSpecSdsBeyond (pyStrip s))) ∧
    utils_validate_dangerous_goods_class ("3".toList) = true ∧
    utils_validate_dangerous_goods_class ("not applicable".toList) = true ∧
    utils_validate_dangerous_goods_class ("N/A".toList) = true ∧
    utils_validate_dangerous_goods_class ("14.5".toList) = false ∧
    utils_validate_dangerous_goods_class ("1950".toList) = false ∧
    sds_validate_dangerous_goods_class ("3".toList) = true ∧
    sds_validate_dangerous_goods_class ("not applicable".toList) = true ∧
    sds_validate_dangerous_goods_class ("N/A".toList) = true ∧
    sds_validate_dangerous_goods_class ("14.5".toList) = false ∧
    sds_validate_dangerous_goods_class ("1950".toList) = false :=
  ⟨utils_dg_eq_spec, sds_dg_eq_spec, by decide, by decide, by decide,
   by decide, by decide, by decide, by decide, by decide, by decide,
   by decide⟩

/-- C1 counterexample: "not applicable for transport" refutes the
claimed whole-string reading - the sds_extractor.py validator accepts it
(its `^not?\s+applicable` pattern is applied with `re.match`, a leading-
text match), yet no recognized not-applicable phrase matches it as a
whole string, so the spec-side predicate rejects it (as does the
modules/utils.py validator). -/
theorem C1_cex :
    sds_validate_dangerous_goods_class
        ("not applicable for transport".toList) = true ∧
    ¬ dgSpecWhole ("not applicable for transport".toList) ∧
    utils_validate_dangerous_goods_class
        ("not applicable for transport".toList) = false := by
  refine ⟨by decide, ?_, by decide⟩
  have hstrip : pyStrip ("not applicable for transport".toList) =
      "not applicable for transport".toList := by decide
  rintro (⟨a, ha, -⟩ | ⟨a, b, hab, -⟩ | hmem)
  · rw [hstrip] at ha; simp at ha
  · rw [hstrip] at hab; simp at hab
  · revert hmem; rw [hstrip]; decide

theorem pg_eq_spec (s : List Char) :
    VALID_PACKING_GROUPS_match s = true ↔ pgSpecAmended s := by
  unfold VALID_PACKING_GROUPS_match pgSpecAmended
  simp only [Bool.or_eq_true, decide_eq_true_eq]
  rw [wSeqMatch_iff_seqJoins
        [[ "not".toList ],
         [ "applicable".toList, "required".toList, "assigned".toList ]]
        (by simp only [wseqOK, wordOK]; decide) (lcL s),
      wSeqMatch_iff_seqJoins [[ "not".toList ], [ "subject".toList ]]
        (by simp only [wseqOK, wordOK]; decide) (lcL s)]
  rw [(by decide :
        seqJoins [[ "not".toList ],
          [ "applicable".toList, "required".toList, "assigned".toList ]] =
          [ "not applicable".toList, "not required".toList,
            "not assigned".toList ]),
      (by decide : seqJoins [[ "not".toList ], [ "subject".toList ]] =
          [ "not subject".toList ])]
  rw [← collapseWs_eq_wsfree ("i".toList) (by decide) (lcL s),
      ← collapseWs_eq_wsfree ("ii".toList) (by decide) (lcL s),
      ← collapseWs_eq_wsfree ("iii".toList) (by decide) (lcL s),
      ← collapseWs_eq_wsfree ("iv".toList) (by decide) (lcL s),
      ← collapseWs_eq_wsfree ("na".toList) (by decide) (lcL s),
      ← collapseWs_eq_wsfree ("n.a".toList) (by decide) (lcL s),
      ← collapseWs_eq_wsfree ("n/a".toList) (by decide) (lcL s),
      ← collapseWs_eq_wsfree ("n./a".toList) (by decide) (lcL s),
      ← collapseWs_eq_wsfree ("na.".toList) (by decide) (lcL s),
      ← collapseWs_eq_wsfree ("n.a.".toList) (by decide) (lcL s),
      ← collapseWs_eq_wsfree ("n/a.".toList) (by decide) (lcL s),
      ← collapseWs_eq_wsfree ("n./a.".toList) (by decide) (lcL s),
      ← collapseWs_eq_wsfree ("none".toList) (by decide) (lcL s)]
  simp only [List.map_cons, List.map_nil, List.mem_cons, List.not_mem_nil,
    or_false, List.mem_singleton]
  tauto

/-- C6: the packing-group validator `VALID_PACKING_GROUPS` (the same
regex is inlined in `extract_packing_group_from_table`) accepts exactly
the case-insensitive Roman numerals i, ii, iii, iv, the eight dot/slash
spellings of N/A, `none`, and the phrases not applicable / not required
/ not assigned / not subject as whole strings - the claim's "III" and
"IV" are accepted and "7" is rejected, both directly and through the
Section 14 table extractor.  (Bare "V" is NOT accepted: the branch
`I{1,3}|IV?` can only produce a V after an I.) -/
theorem C6_packing_group_validator :
    (∀ s : List Char,
       VALID_PACKING_GROUPS_match s = true ↔ pgSpecAmended s) ∧
    VALID_PACKING_GROUPS_match ("III".toList) = true ∧
    VALID_PACKING_GROUPS_match ("IV".toList) = true ∧
    VALID_PACKING_GROUPS_match ("7".toList) = false ∧
    extract_packing_group_from_table
        ("UN number  Packing group\n1950  III".toList) =
      some ("III".toList) ∧
    extract_packing_group_from_table
        ("UN number  Packing group\n1950  7".toList) = none :=
  ⟨pg_eq_spec, by decide, by decide, by decide, by decide, by decide⟩

/-- C6 counterexample: bare "V" refutes the claimed legacy tolerance for
"IV"/"V" - the claim's predicate accepts "v" as a Roman numeral, but the
validator's branch `I{1,3}|IV?` only matches a V preceded by an I, so
`VALID_PACKING_GROUPS_match` rejects the string "V". -/
theorem C6_cex :
    VALID_PACKING_GROUPS_match ("V".toList) = false ∧
    pgClaimSpec ("V".toList) := by
  refine ⟨by decide, ?_⟩
  unfold pgClaimSpec
  decide

/-- C9: strings whose stripped length is under 2 are noise - without
qualification for the modules/utils.py classifier, while the
sds_extractor.py homonym first exempts short numeric values (its
`^\d(?:\.\d)?$` allowance, "Allow short numeric values like 9 for DG
class") and only then rejects the short string. -/
theorem C9_short_strings_are_noise :
    (∀ s : List Char, (pyStrip s).length < 2 →
       utils_is_noise_text s = true) ∧
    (∀ s : List Char, (pyStrip s).length < 2 →
       sdsShortNumericPat (pyStrip s) = false →
       sds_is_noise_text s = true) := by
  constructor
  · intro s h
    simp [utils_is_noise_text, h]
  · intro s h1 h2
    by_cases he : s.isEmpty = true
    · simp [sds_is_noise_text, he]
    · have he' : s.isEmpty = false := by simpa using he
      by_cases ht : (pyStrip s).isEmpty = true
      · simp [sds_is_noise_text, he', ht]
      · have ht' : (pyStrip s).isEmpty = false := by simpa using ht
        simp [sds_is_noise_text, he', ht', h1, h2]

/-- C9 witness: ":" has stripped length 1 and both classifiers flag it
as noise, through the theorem. -/
theorem C9_witness :
    (pyStrip (":".toList)).length < 2 ∧
    utils_is_noise_text (":".toList) = true ∧
    sds_is_noise_text (":".toList) = true :=
  ⟨by decide, C9_short_strings_are_noise.1 (":".toList) (by decide),
   C9_short_strings_are_noise.2 (":".toList) (by decide) (by decide)⟩

/-- C9 counterexample: "9" has stripped length 1, yet the
sds_extractor.py `is_noise_text` returns false for it (the short-
numeric allowance), refuting the claim that every string under 2
characters is classified as noise. -/
theorem C9_cex :
    sds_is_noise_text ("9".toList) = false ∧
    (pyStrip ("9".toList)).length < 2 :=
  ⟨by decide, by decide⟩

theorem collapseWsGo_true_head (l : List Char) :
    collapseWsGo true l = [] ∨
      ∃ c r, collapseWsGo true l = c :: r ∧ isPyWs c = false := by
  induction l with
  | nil => exact Or.inl rfl
  | cons d l ih =>
    cases hd : isPyWs d with
    | true => simpa [collapseWsGo, hd] using ih
    | false =>
      exact Or.inr ⟨d, collapseWsGo false l, by simp [collapseWsGo, hd], hd⟩

theorem noAdjWs_tail (c : Char) (r : List Char) (h : noAdjWs (c :: r)) :
    noAdjWs r := by
  cases r with
  | nil => trivial
  | cons d r => exact h.2

theorem noAdjWs_go (l : List Char) : ∀ b, noAdjWs (collapseWsGo b l) := by
  induction l with
  | nil => intro b; simp [collapseWsGo, noAdjWs]
  | cons d l ih =>
    intro b
    cases hd : isPyWs d with
    | true =>
      cases b with
      | true => simpa [collapseWsGo, hd] using ih true
      | false =>
        simp only [collapseWsGo, hd, if_true]
        rcases collapseWsGo_true_head l with h | ⟨c, r, h, hc⟩
        · rw [h]; trivial
        · rw [h]
          exact ⟨fun hpair => by simp [hc] at hpair, by
            have := ih true; rw [h] at this; exact this⟩
    | false =>
      simp only [collapseWsGo, hd, Bool.false_eq_true, if_false]
      rcases hgo : collapseWsGo false l with _ | ⟨e, r⟩
      · trivial
      · exact ⟨fun hpair => by simp [hd] at hpair, by
          have := ih false; rw [hgo] at this; exact this⟩

theorem go_append_end (c : Char) (hc : isPyWs c = false) (r : List Char) :
    ∀ (x : List Char) (b : Bool),
    collapseWsGo b (x ++ c :: r) =
      collapseWsGo b (x ++ [c]) ++ collapseWsGo false r := by
  intro x
  induction x with
  | nil => intro b; simp [collapseWsGo, hc]
  | cons d x ih =>
    intro b
    cases hd : isPyWs d with
    | true =>
      cases b with
      | false => simp [collapseWsGo, hd, ih true]
      | true => simp [collapseWsGo, hd, ih true]
    | false => simp [collapseWsGo, hd, ih false]

theorem go_true_ws_append (y : List Char) :
    ∀ w, (∀ c ∈ w, isPyWs c = true) →
      collapseWsGo true (w ++ y) = collapseWsGo true y := by
  intro w
  induction w with
  | nil => intro _; rfl
  | cons d w ih =>
    intro hws
    have hd : isPyWs d = true := hws d (by simp)
    simp only [List.cons_append, collapseWsGo, hd, if_true]
    exact ih (fun c hc => hws c (by simp [hc]))

theorem go_true_eq_false_head (y : List Char)
    (h : y = [] ∨ ∃ d r, y = d :: r ∧ isPyWs d = false) :
    collapseWsGo true y = collapseWsGo false y := by
  rcases h with rfl | ⟨d, r, rfl, hd⟩
  · rfl
  · simp [collapseWsGo, hd]

theorem collapseWs_last_wsfree :
    ∀ (x : List Char) (c : Char), isPyWs c = false → ∀ b,
      ∃ z, collapseWsGo b (x ++ [c]) = z ++ [c] := by
  intro x
  induction x with
  | nil => intro c hc b; exact ⟨[], by simp [collapseWsGo, hc]⟩
  | cons d x ih =>
    intro c hc b
    cases hd : isPyWs d with
    | true =>
      obtain ⟨z, hz⟩ := ih c hc true
      cases b with
      | false =>
        exact ⟨' ' :: z, by simp [collapseWsGo, hd, hz]⟩
      | true => exact ⟨z, by simp [collapseWsGo, hd, hz]⟩
    | false =>
      obtain ⟨z, hz⟩ := ih c hc false
      exact ⟨d :: z, by simp [collapseWsGo, hd, hz]⟩

theorem pyStrip_eq_self_of (l : List Char)
    (hhead : ∀ c r, l = c :: r → isPyWs c = false)
    (hlast : ∀ z c, l = z ++ [c] → isPyWs c = false) : pyStrip l = l := by
  unfold pyStrip
  have h1 : l.dropWhile isPyWs = l := by
    cases l with
    | nil => rfl
    | cons c r => simp [List.dropWhile, hhead c r rfl]
  rw [h1]
  have h2 : l.reverse.dropWhile isPyWs = l.reverse := by
    cases hrev : l.reverse with
    | nil => rfl
    | cons c r =>
      have hl : l = r.reverse ++ [c] := by
        have := congrArg List.reverse hrev
        simpa using this
      simp [List.dropWhile, hlast _ c hl]
  rw [h2, List.reverse_reverse]

theorem collapseWs_doubled (p w : List Char)
    (hhead : ∀ c r, p = c :: r → isPyWs c = false)
    (hlast : ∀ z c, p = z ++ [c] → isPyWs c = false)
    (hp : p ≠ []) (hw : w ≠ []) (hws : ∀ c ∈ w, isPyWs c = true) :
    collapseWs (p ++ w ++ p) = collapseWs p ++ ' ' :: collapseWs p := by
  rcases List.eq_nil_or_concat p with rfl | ⟨z, c, hzc⟩
  · exact absurd rfl hp
  · rw [List.concat_eq_append] at hzc
    subst hzc
    have hc : isPyWs c = false := hlast z c rfl
    have hhd : ∃ d r, z ++ [c] = d :: r ∧ isPyWs d = false := by
      cases hz : z ++ [c] with
      | nil => simp at hz
      | cons d r => exact ⟨d, r, rfl, hhead d r hz⟩
    have h2 : collapseWsGo false (w ++ (z ++ [c])) =
        ' ' :: collapseWs (z ++ [c]) := by
      cases w with
      | nil => exact absurd rfl hw
      | cons w0 w' =>
        have hw0 : isPyWs w0 = true := hws w0 (by simp)
        rw [List.cons_append,
            show collapseWsGo false (w0 :: (w' ++ (z ++ [c]))) =
              ' ' :: collapseWsGo true (w' ++ (z ++ [c])) from by
                simp [collapseWsGo, hw0],
            go_true_ws_append (z ++ [c]) w'
              (fun e he => hws e (by simp [he])),
            go_true_eq_false_head (z ++ [c]) (Or.inr hhd)]
        rfl
    have h1 : collapseWs ((z ++ [c]) ++ (w ++ (z ++ [c]))) =
        collapseWs (z ++ [c]) ++ collapseWsGo false (w ++ (z ++ [c])) := by
      show collapseWsGo false ((z ++ [c]) ++ (w ++ (z ++ [c]))) =
        collapseWsGo false (z ++ [c]) ++
          collapseWsGo false (w ++ (z ++ [c]))
      rw [List.append_assoc z [c] _]
      simpa using go_append_end c hc (w ++ (z ++ [c])) z false
    calc collapseWs ((z ++ [c]) ++ w ++ (z ++ [c]))
        = collapseWs ((z ++ [c]) ++ (w ++ (z ++ [c]))) := by
          rw [List.append_assoc]
      _ = collapseWs (z ++ [c]) ++ collapseWsGo false (w ++ (z ++ [c])) := h1
      _ = collapseWs (z ++ [c]) ++ ' ' :: collapseWs (z ++ [c]) := by
          rw [h2]

theorem noAdjWs_drop (l : List Char) (h : noAdjWs l) :
    ∀ k, noAdjWs (l.drop k) := by
  induction l with
  | nil => intro k; rw [List.drop_nil]; trivial
  | cons c r ih =>
    intro k
    cases k with
    | zero => exact h
    | succ k => exact ih (noAdjWs_tail c r h) k

theorem noAdjWs_takeWhile_ws (m : List Char) (h : noAdjWs m) :
    (m.takeWhile isPyWs).length ≤ 1 := by
  cases m with
  | nil => simp
  | cons c r =>
    cases hc : isPyWs c with
    | false => simp [List.takeWhile, hc]
    | true =>
      cases r with
      | nil => simp [List.takeWhile, hc]
      | cons d r2 =>
        have hd : isPyWs d = false := by
          by_contra hd
          exact h.1 ⟨hc, by simpa using hd⟩
        simp [List.takeWhile, hc, hd]

theorem dedupScan_sound (cleaned : List Char) :
    ∀ fuel k q, dedupScan cleaned k fuel = some q →
      q ≠ [] ∧ ∃ u, u ≠ [] ∧ (∀ c ∈ u, isPyWs c = true) ∧
        cleaned = q ++ u ++ q := by
  intro fuel
  induction fuel with
  | zero => intro k q h; simp [dedupScan] at h
  | succ fuel ih =>
    intro k q h
    by_cases hlen : cleaned.length ≤ k
    · simp [dedupScan, hlen] at h
    · rw [show dedupScan cleaned k (fuel + 1) =
          (if cleaned.length ≤ k then none
           else if 1 ≤ k && ¬ ((cleaned.drop k).takeWhile isPyWs).isEmpty &&
               decide ((cleaned.drop k).dropWhile isPyWs = cleaned.take k)
             then some (cleaned.take k)
             else dedupScan cleaned (k + 1) fuel) from rfl,
          if_neg hlen] at h
      by_cases hcond : (1 ≤ k &&
          ¬ ((cleaned.drop k).takeWhile isPyWs).isEmpty &&
          decide ((cleaned.drop k).dropWhile isPyWs = cleaned.take k)) = true
      · rw [if_pos hcond] at h
        obtain rfl : cleaned.take k = q := Option.some.inj h
        simp only [Bool.and_eq_true, Bool.not_eq_true', decide_eq_true_eq]
          at hcond
        obtain ⟨⟨hk1, htw⟩, hdw⟩ := hcond
        refine ⟨?_, (cleaned.drop k).takeWhile isPyWs, ?_, ?_, ?_⟩
        · intro hq
          have : cleaned.length ≤ k := by
            have := congrArg List.length hq
            simp only [List.length_take, List.length_nil] at this
            omega
          exact hlen this
        · simpa [List.isEmpty_iff] using htw
        · intro c hc
          exact List.mem_takeWhile_imp hc
        · have h1 : cleaned.drop k =
              (cleaned.drop k).takeWhile isPyWs ++ cleaned.take k := by
            conv_lhs => rw [← List.takeWhile_append_dropWhile
              (p := isPyWs) (l := cleaned.drop k)]
            rw [hdw]
          calc cleaned = cleaned.take k ++ cleaned.drop k :=
                (List.take_append_drop k cleaned).symm
            _ = cleaned.take k ++ ((cleaned.drop k).takeWhile isPyWs ++
                cleaned.take k) := by rw [← h1]
            _ = cleaned.take k ++ (cleaned.drop k).takeWhile isPyWs ++
                cleaned.take k := by rw [List.append_assoc]
      · rw [if_neg (by simpa using hcond)] at h
        exact ih (k + 1) q h

theorem dedupScan_finds (cleaned : List Char) (k0 : Nat) (hk1 : 1 ≤ k0)
    (hklen : k0 < cleaned.length)
    (hvalid : ((cleaned.drop k0).takeWhile isPyWs).isEmpty = false ∧
      (cleaned.drop k0).dropWhile isPyWs = cleaned.take k0)
    (hmin : ∀ k, 1 ≤ k → k < k0 →
      ¬ (((cleaned.drop k).takeWhile isPyWs).isEmpty = false ∧
        (cleaned.drop k).dropWhile isPyWs = cleaned.take k)) :
    ∀ fuel k, k ≤ k0 → k0 + 1 ≤ k + fuel →
      dedupScan cleaned k fuel = some (cleaned.take k0) := by
  intro fuel
  induction fuel with
  | zero => intro k hk hf; omega
  | succ fuel ih =>
    intro k hk hf
    have hklt : ¬ cleaned.length ≤ k := by omega
    rw [show dedupScan cleaned k (fuel + 1) =
        (if cleaned.length ≤ k then none
         else if 1 ≤ k && ¬ ((cleaned.drop k).takeWhile isPyWs).isEmpty &&
             decide ((cleaned.drop k).dropWhile isPyWs = cleaned.take k)
           then some (cleaned.take k)
           else dedupScan cleaned (k + 1) fuel) from rfl,
        if_neg hklt]
    by_cases hke : k = k0
    · subst hke
      rw [if_pos (by
        simp only [Bool.and_eq_true, Bool.not_eq_true', decide_eq_true_eq]
        exact ⟨⟨by simpa using hk1, by simp [hvalid.1]⟩, hvalid.2⟩)]
    · have hklt0 : k < k0 := by omega
      by_cases hk01 : 1 ≤ k
      · rw [if_neg (by
          simp only [Bool.and_eq_true, Bool.not_eq_true', decide_eq_true_eq]
          intro hcond
          exact hmin k hk01 hklt0 ⟨by simp [hcond.1.2], hcond.2⟩)]
        exact ih (k + 1) (by omega) (by omega)
      · rw [if_neg (by
          simp only [Bool.and_eq_true, Bool.not_eq_true', decide_eq_true_eq]
          intro hcond
          exact hk01 hcond.1.1)]
        exact ih (k + 1) (by omega) (by omega)

theorem dedup_doubled (p w : List Char)
    (hhead : ∀ c r, p = c :: r → isPyWs c = false)
    (hlast : ∀ z c, p = z ++ [c] → isPyWs c = false)
    (hp : p ≠ []) (hw : w ≠ []) (hws : ∀ c ∈ w, isPyWs c = true) :
    dedup_repeated_phrase (p ++ w ++ p) = collapseWs p := by
  obtain ⟨h0, t0, hp0⟩ : ∃ h0 t0, p = h0 :: t0 := by
    cases p with
    | nil => exact absurd rfl hp
    | cons a b => exact ⟨a, b, rfl⟩
  have hh0 : isPyWs h0 = false := hhead h0 t0 hp0
  have hcph : collapseWs p = h0 :: collapseWs t0 := by
    rw [hp0, collapseWs_cons_not_ws h0 t0 hh0]
  obtain ⟨z0, c0, hpz⟩ : ∃ z0 c0, p = z0 ++ [c0] := by
    rcases List.eq_nil_or_concat p with rfl | ⟨z, c, hzc⟩
    · exact absurd rfl hp
    · exact ⟨z, c, by rw [hzc, List.concat_eq_append]⟩
  have hc0 : isPyWs c0 = false := hlast z0 c0 hpz
  obtain ⟨z1, hcpl⟩ : ∃ z1, collapseWs p = z1 ++ [c0] := by
    obtain ⟨z1, hz1⟩ := collapseWs_last_wsfree z0 c0 hc0 false
    exact ⟨z1, by rw [hpz]; exact hz1⟩
  have hcw := collapseWs_doubled p w hhead hlast hp hw hws
  have hstrip : pyStrip (collapseWs (p ++ w ++ p)) =
      collapseWs p ++ ' ' :: collapseWs p := by
    rw [hcw]
    refine pyStrip_eq_self_of _ ?_ ?_
    · intro c r hcr
      rw [hcph, List.cons_append] at hcr
      obtain ⟨rfl, -⟩ := List.cons.inj hcr
      exact hh0
    · intro z c hzc
      have h1 : collapseWs p ++ ' ' :: collapseWs p =
          (collapseWs p ++ ' ' :: z1) ++ [c0] := by
        rw [hcpl]
        simp
      rw [h1] at hzc
      have := congrArg List.getLast? hzc.symm
      rw [List.getLast?_concat, List.getLast?_concat] at this
      obtain rfl : c0 = c := Option.some.inj this.symm
      exact hc0
  have hne : (p ++ w ++ p).isEmpty = false := by
    rw [hp0]; simp
  have hk1 : 1 ≤ (collapseWs p).length := by
    rw [hcph]; simp
  have hcl : (collapseWs p ++ ' ' :: collapseWs p).length =
      2 * (collapseWs p).length + 1 := by
    simp; omega
  have htake : (collapseWs p ++ ' ' :: collapseWs p).take
      (collapseWs p).length = collapseWs p := List.take_left _ _
  have hdrop : (collapseWs p ++ ' ' :: collapseWs p).drop
      (collapseWs p).length = ' ' :: collapseWs p := List.drop_left _ _
  have htwcp : (collapseWs p).takeWhile isPyWs = [] := by
    rw [hcph]; simp [List.takeWhile, hh0]
  have hdwcp : (collapseWs p).dropWhile isPyWs = collapseWs p := by
    rw [hcph]; simp [List.dropWhile, hh0]
  have hnoadj : noAdjWs (collapseWs p ++ ' ' :: collapseWs p) := by
    rw [← hcw]
    exact noAdjWs_go _ false
  have hfind := dedupScan_finds (collapseWs p ++ ' ' :: collapseWs p)
    (collapseWs p).length hk1 (by rw [hcl]; omega)
    (by
      rw [hdrop, htake]
      constructor
      · simp [List.takeWhile, (by decide : isPyWs ' ' = true), htwcp]
      · simp [List.dropWhile, (by decide : isPyWs ' ' = true), hdwcp])
    (by
      intro k hk1' hklt ⟨htw, hdw⟩
      have hlen1 : (List.takeWhile isPyWs
          ((collapseWs p ++ ' ' :: collapseWs p).drop k)).length +
          (List.dropWhile isPyWs
          ((collapseWs p ++ ' ' :: collapseWs p).drop k)).length =
          ((collapseWs p ++ ' ' :: collapseWs p).drop k).length := by
        rw [← List.length_append, List.takeWhile_append_dropWhile]
      have hlen2 : ((collapseWs p ++ ' ' :: collapseWs p).drop k).length =
          2 * (collapseWs p).length + 1 - k := by
        rw [List.length_drop, hcl]
      have hlen3 : (List.dropWhile isPyWs
          ((collapseWs p ++ ' ' :: collapseWs p).drop k)).length = k := by
        rw [hdw, List.length_take, hcl]; omega
      have hbound := noAdjWs_takeWhile_ws _
        (noAdjWs_drop _ hnoadj k)
      omega)
    (collapseWs p ++ ' ' :: collapseWs p).length 1 hk1 (by rw [hcl]; omega)
  unfold dedup_repeated_phrase
  simp only [hne, Bool.false_eq_true, if_false]
  rw [hstrip, hfind, htake]

theorem dedup_no_repeat (v : List Char) (hv : v ≠ []) :
    dedup_repeated_phrase v = pyStrip (collapseWs v) ∨
    (dedup_repeated_phrase v ≠ [] ∧ ∃ u, u ≠ [] ∧
      (∀ c ∈ u, isPyWs c = true) ∧
      pyStrip (collapseWs v) =
        dedup_repeated_phrase v ++ u ++ dedup_repeated_phrase v) := by
  have hne : v.isEmpty = false := by
    cases v with
    | nil => exact absurd rfl hv
    | cons a b => rfl
  unfold dedup_repeated_phrase
  simp only [hne, Bool.false_eq_true, if_false]
  cases hscan : dedupScan (pyStrip (collapseWs v)) 1
      (pyStrip (collapseWs v)).length with
  | none => exact Or.inl rfl
  | some q =>
    obtain ⟨hq, u, hu, hws, heq⟩ :=
      dedupScan_sound (pyStrip (collapseWs v)) _ 1 q hscan
    exact Or.inr ⟨hq, u, hu, hws, heq⟩

/-- C10: `dedup_repeated_phrase` collapses an exact whole-phrase
repetition - for every non-empty phrase `p` without leading or trailing
whitespace and every non-empty whitespace separator `w`, the doubled
string comes back as `p` with internal whitespace runs collapsed to
single spaces; and on any non-empty input, either the result is just the
whitespace-normalised input, or the normalised input was exactly the
result repeated around a whitespace run.  The cleanup IS applied to the
manufacturer value of `parse_pdf` (third conjunct: the doubled supplier
name collapses) - but not to the product name, see the counterexample. -/
theorem C10_dedup_repeated_phrase :
    (∀ p w : List Char,
       (∀ c r, p = c :: r → isPyWs c = false) →
       (∀ z c, p = z ++ [c] → isPyWs c = false) →
       p ≠ [] → w ≠ [] → (∀ c ∈ w, isPyWs c = true) →
       dedup_repeated_phrase (p ++ w ++ p) = collapseWs p) ∧
    (∀ v : List Char, v ≠ [] →
       dedup_repeated_phrase v = pyStrip (collapseWs v) ∨
       (dedup_repeated_phrase v ≠ [] ∧ ∃ u, u ≠ [] ∧
         (∀ c ∈ u, isPyWs c = true) ∧
         pyStrip (collapseWs v) =
           dedup_repeated_phrase v ++ u ++ dedup_repeated_phrase v)) ∧
    pp_manufacturer (("SECTION 1: Identification\nSupplier: " ++
        "Chemtools Pty Ltd Chemtools Pty Ltd\n" ++
        "SECTION 2: Hazards Identification\nx").toList) =
      ⟨some ("Chemtools Pty Ltd".toList), 1⟩ :=
  ⟨dedup_doubled, dedup_no_repeat, by decide⟩

/-- C10 witness: the doubled-phrase law applied at `p = "a b"`,
`w = tab-space`: the engine returns "a b". -/
theorem C10_witness :
    dedup_repeated_phrase ("a b".toList ++ "\t ".toList ++ "a b".toList) =
      collapseWs ("a b".toList) ∧
    collapseWs ("a b".toList) = "a b".toList := by
  refine ⟨C10_dedup_repeated_phrase.1 ("a b".toList) ("\t ".toList)
    ?_ ?_ (by decide) (by decide) (by decide), by decide⟩
  · intro c r h
    injection h with h1 _
    rw [← h1]; decide
  · intro z c h
    have h2 := congrArg List.getLast? h
    rw [List.getLast?_concat,
      (rfl : List.getLast? ("a b".toList) = some 'b')] at h2
    obtain rfl : 'b' = c := Option.some.inj h2
    decide

/-- C10 counterexample: `parse_pdf` never applies
`dedup_repeated_phrase` to the product-name value - the document whose
product-name line is the doubled phrase "Acme Acme" parses to the
doubled value itself, although the dedup helper would collapse it. -/
theorem C10_cex :
    pp_product_name ("Product Name: Acme Acme".toList) =
      ⟨some ("Acme Acme".toList), 1⟩ ∧
    dedup_repeated_phrase ("Acme Acme".toList) = "Acme".toList :=
  ⟨by decide, by decide⟩

theorem bestOf_ge_init :
    ∀ (l : List (Option (List Char))) (b : List Char),
      stripLen b ≤ stripLen (l.foldl
        (fun best att => match att with
          | some t => if stripLen best < stripLen t then t else best
          | none => best) b) := by
  intro l
  induction l with
  | nil => intro b; simp
  | cons a l ih =>
    intro b
    cases a with
    | none => simpa using ih b
    | some t =>
      simp only [List.foldl_cons]
      by_cases h : stripLen b < stripLen t
      · simp only [if_pos h]
        exact le_trans (le_of_lt h) (ih t)
      · simp only [if_neg h]
        exact ih b

theorem bestOf_max :
    ∀ (l : List (Option (List Char))) (b t : List Char), some t ∈ l →
      stripLen t ≤ stripLen (l.foldl
        (fun best att => match att with
          | some u => if stripLen best < stripLen u then u else best
          | none => best) b) := by
  intro l
  induction l with
  | nil => intro b t ht; simp at ht
  | cons a l ih =>
    intro b t ht
    rcases List.mem_cons.mp ht with rfl | hmem
    · simp only [List.foldl_cons]
      by_cases h : stripLen b < stripLen t
      · simp only [if_pos h]
        exact bestOf_ge_init l t
      · simp only [if_neg h]
        exact le_trans (le_of_not_lt h) (bestOf_ge_init l b)
    · cases a with
      | none => simpa using ih b t hmem
      | some u =>
        simp only [List.foldl_cons]
        by_cases h : stripLen b < stripLen u
        · simp only [if_pos h]; exact ih u t hmem
        · simp only [if_neg h]; exact ih b t hmem

theorem bestOf_stable :
    ∀ (l : List (Option (List Char))) (b : List Char),
      (∀ u, some u ∈ l → stripLen u ≤ stripLen b) →
      (l.foldl
        (fun best att => match att with
          | some u => if stripLen best < stripLen u then u else best
          | none => best) b) = b := by
  intro l
  induction l with
  | nil => intro b _; rfl
  | cons a l ih =>
    intro b hall
    cases a with
    | none => exact ih b (fun u hu => hall u (by simp [hu]))
    | some u =>
      simp only [List.foldl_cons]
      rw [if_neg (not_lt_of_le (hall u (by simp)))]
      exact ih b (fun u2 hu2 => hall u2 (by simp [hu2]))

theorem bestOf_unique_max :
    ∀ (l : List (Option (List Char))) (b t : List Char), some t ∈ l →
      stripLen b < stripLen t →
      (∀ u, some u ∈ l → u ≠ t → stripLen u < stripLen t) →
      (l.foldl
        (fun best att => match att with
          | some u => if stripLen best < stripLen u then u else best
          | none => best) b) = t := by
  intro l
  induction l with
  | nil => intro b t ht; simp at ht
  | cons a l ih =>
    intro b t ht hb hu
    by_cases ha : a = some t
    · subst ha
      simp only [List.foldl_cons, if_pos hb]
      refine bestOf_stable l t (fun u hmem => ?_)
      by_cases hut : u = t
      · subst hut; exact le_refl _
      · exact le_of_lt (hu u (by simp [hmem]) hut)
    · have hmem : some t ∈ l := by
        rcases List.mem_cons.mp ht with h | h
        · exact absurd h.symm ha
        · exact h
      cases a with
      | none =>
        simp only [List.foldl_cons]
        exact ih b t hmem hb (fun u h2 h3 => hu u (by simp [h2]) h3)
      | some u =>
        have hut : u ≠ t := fun h => ha (by rw [h])
        have hult : stripLen u < stripLen t := hu u (by simp) hut
        simp only [List.foldl_cons]
        by_cases h : stripLen b < stripLen u
        · simp only [if_pos h]
          exact ih u t hmem hult (fun x h2 h3 => hu x (by simp [h2]) h3)
        · simp only [if_neg h]
          exact ih b t hmem hb (fun x h2 h3 => hu x (by simp [h2]) h3)

theorem extract_text_no_ocr (attempts : List (Option (List Char)))
    (ocrAvailable : Bool) (images : Option (List (Option (List Char))))
    (h : MIN_TEXT_LENGTH ≤ stripLen (bestOf attempts)) :
    extract_text attempts ocrAvailable images = bestOf attempts := by
  unfold extract_text
  rw [if_neg (by
    simp only [Bool.and_eq_true, decide_eq_true_eq]
    rintro ⟨h1, -⟩
    omega)]
  rw [if_neg (by
    intro he
    have : stripLen (bestOf attempts) = 0 := by
      unfold stripLen
      simpa [List.isEmpty_iff] using he
    unfold MIN_TEXT_LENGTH at h
    omega)]

/-- C7: the longest-stripped-text selection holds only for
modules/text_extractor.py `extract_text`: there every successful
attempt's stripped length is bounded by the winner's, an attempt
strictly longer (stripped) than every other IS the winner no matter
where in the trial order it sits, and when the winner already reaches
`MIN_TEXT_LENGTH` the function returns it unchanged (no OCR).  The
extractor `parse_pdf` actually calls, sds_extractor.py
`extract_text_from_pdf`, performs no length comparison at all: the
final conjunct shows that whenever the first backend (pdfplumber)
produces text with a non-empty strip, that text is returned whatever
the later backends would have produced. -/
theorem C7_best_text :
    (∀ (attempts : List (Option (List Char))) (t : List Char),
       some t ∈ attempts → stripLen t ≤ stripLen (bestOf attempts)) ∧
    (∀ (attempts : List (Option (List Char))) (t : List Char),
       some t ∈ attempts → 0 < stripLen t →
       (∀ u, some u ∈ attempts → u ≠ t → stripLen u < stripLen t) →
       bestOf attempts = t) ∧
    (∀ (attempts : List (Option (List Char))) (ocrAvailable : Bool)
       (images : Option (List (Option (List Char)))),
       MIN_TEXT_LENGTH ≤ stripLen (bestOf attempts) →
       extract_text attempts ocrAvailable images = bestOf attempts) ∧
    (∀ (t1 : List Char) (o2 o3 o4 : Option (List Char)),
       (pyStrip t1).isEmpty = false →
       extract_text_from_pdf (some t1) o2 o3 o4 = t1) := by
  refine ⟨?_, ?_, extract_text_no_ocr, ?_⟩
  · intro attempts t ht
    exact bestOf_max attempts [] t ht
  · intro attempts t ht h0 hu
    have hb : stripLen ([] : List Char) < stripLen t := by
      have h1 : stripLen ([] : List Char) = 0 := rfl
      omega
    exact bestOf_unique_max attempts [] t ht hb hu
  · intro t1 o2 o3 o4 h1
    unfold extract_text_from_pdf
    simp [h1]

/-- C7 witness: among the attempts ab / wxyz / failed backend, the
strictly longest "wxyz" wins through the theorem, the shorter "ab" is
bounded by the winner, a 50-character direct extraction is returned
as-is by `extract_text`, and `extract_text_from_pdf` keeps the first
backend's "ab" whatever the others hold. -/
theorem C7_witness :
    bestOf [some ("ab".toList), some ("wxyz".toList), none] =
      "wxyz".toList ∧
    stripLen ("ab".toList) ≤
      stripLen (bestOf [some ("ab".toList), some ("wxyz".toList), none]) ∧
    extract_text
      [some ("01234567890123456789012345678901234567890123456789".toList)]
      true none =
      bestOf
      [some ("01234567890123456789012345678901234567890123456789".toList)] ∧
    extract_text_from_pdf (some ("ab".toList)) (some ("wxyz".toList))
      none none = "ab".toList := by
  refine ⟨C7_best_text.2.1 _ _ (by decide) (by decide) ?_,
    C7_best_text.1 _ _ (by decide), C7_best_text.2.2.1 _ _ _ (by decide),
    C7_best_text.2.2.2 ("ab".toList) _ _ _ (by decide)⟩
  intro u hu hne
  have hu2 : u = "ab".toList ∨ u = "wxyz".toList := by
    simpa using hu
  rcases hu2 with rfl | rfl
  · decide
  · exact absurd rfl hne

/-- C7 counterexample: `extract_text_from_pdf` - the extractor
`parse_pdf` uses - refutes longest-wins: with pdfplumber producing "ab"
and PyMuPDF "wxyz", it returns the shorter "ab" (first non-empty
backend), although "wxyz" has the strictly greater stripped length and
the text_extractor.py fold would have picked it. -/
theorem C7_cex :
    extract_text_from_pdf (some ("ab".toList)) (some ("wxyz".toList))
      none none = "ab".toList ∧
    stripLen ("ab".toList) < stripLen ("wxyz".toList) ∧
    bestOf [some ("ab".toList), some ("wxyz".toList)] = "wxyz".toList :=
  ⟨by decide, by decide, by decide⟩

theorem mkFR_pair (v : Option (List Char)) :
    (mkFR v).value = none → (mkFR v).confidence = 0 := by
  cases v with
  | none => intro _; rfl
  | some x => intro h; simp [mkFR] at h

theorem sweep_pair (b : Bool) (v : Option (List Char)) :
    (finalSweep b (mkFR v)).value = none →
      (finalSweep b (mkFR v)).confidence = 0 := by
  cases v with
  | none => intro _; rfl
  | some x =>
    simp only [finalSweep, mkFR]
    split
    · intro _; rfl
    · intro h; simp at h

/-- C8: with the extracted text supplied to `parse_pdf`, the explicit
error record is returned exactly for empty text (never fabricating field
values); for non-empty text the result is the eight per-field records,
each computed by its own function of the text alone - so no field's
failure can influence another - and any field whose value is null
carries confidence 0. -/
theorem C8_error_and_independence :
    (∀ (today : PyDate) (text : List Char),
       parse_pdf_with_text today text = SdsParseResult.error ↔ text = []) ∧
    (∀ (today : PyDate) (text : List Char), text ≠ [] →
       parse_pdf_with_text today text = SdsParseResult.parsed
         (pp_product_name text) (pp_manufacturer text)
         (pp_description text) (pp_product_use text) (pp_dg_class text)
         (pp_subsidiary_risk text) (pp_packing_group text)
         (pp_issue_date today text)) ∧
    (∀ (today : PyDate) (text : List Char) pn mf de pu dg sr pg isd,
       parse_pdf_with_text today text =
         SdsParseResult.parsed pn mf de pu dg sr pg isd →
       ∀ fr ∈ [pn, mf, de, pu, dg, sr, pg, isd],
         fr.value = none → fr.confidence = 0) := by
  have hemp : ∀ text : List Char, text ≠ [] → text.isEmpty = false := by
    intro text h
    cases text with
    | nil => exact absurd rfl h
    | cons a b => rfl
  refine ⟨?_, ?_, ?_⟩
  · intro today text
    constructor
    · intro h
      by_contra hne
      unfold parse_pdf_with_text at h
      simp only [hemp text hne, Bool.false_eq_true, if_false] at h
      exact SdsParseResult.noConfusion h
    · rintro rfl
      rfl
  · intro today text hne
    unfold parse_pdf_with_text
    simp only [hemp text hne, Bool.false_eq_true, if_false]
  · intro today text pn mf de pu dg sr pg isd h fr hfr
    by_cases hne : text = []
    · subst hne
      simp [parse_pdf_with_text] at h
    · unfold parse_pdf_with_text at h
      simp only [hemp text hne, Bool.false_eq_true, if_false] at h
      obtain ⟨rfl, rfl, rfl, rfl, rfl, rfl, rfl, rfl⟩ :=
        SdsParseResult.parsed.inj h.symm
      simp only [List.mem_cons, List.not_mem_nil, or_false] at hfr
      rcases hfr with rfl | rfl | rfl | rfl | rfl | rfl | rfl | rfl
      · exact sweep_pair true _
      · exact sweep_pair false _
      · exact mkFR_pair _
      · exact mkFR_pair _
      · exact mkFR_pair _
      · exact mkFR_pair _
      · exact mkFR_pair _
      · exact mkFR_pair _

/-- C8 witness: the theorem applied at empty text (the error record) and
at the one-character document "x" (a full eight-field parse). -/
theorem C8_witness :
    parse_pdf_with_text ⟨2026, 10, 12⟩ [] = SdsParseResult.error ∧
    parse_pdf_with_text ⟨2026, 10, 12⟩ ("x".toList) =
      SdsParseResult.parsed (pp_product_name ("x".toList))
        (pp_manufacturer ("x".toList)) (pp_description ("x".toList))
        (pp_product_use ("x".toList)) (pp_dg_class ("x".toList))
        (pp_subsidiary_risk ("x".toList)) (pp_packing_group ("x".toList))
        (pp_issue_date ⟨2026, 10, 12⟩ ("x".toList)) :=
  ⟨(C8_error_and_independence.1 ⟨2026, 10, 12⟩ []).mpr rfl,
   C8_error_and_independence.2.1 ⟨2026, 10, 12⟩ ("x".toList) (by decide)⟩

theorem ealScanNext_skip (line : List Char) (rest : List (List Char))
    (c0 : Char) (t0 : List Char) (hline : pyStrip line = c0 :: t0)
    (hc0 : ¬ c0 = ':')
    (hlab : FIELD_LABELS_all.any
      (fun lab => reSearchB lab (c0 :: t0)) = false)
    (hhc : isHeaderContinuation (c0 :: t0) = false)
    (hnoise : utils_is_noise_text (c0 :: t0) = true) :
    ealScanNext "manufacturer" (line :: rest) =
      ealScanNext "manufacturer" rest := by
  simp only [ealScanNext, hline]
  simp [hc0, hlab, hhc, hnoise]

theorem ealScanNext_found (line : List Char) (rest : List (List Char))
    (c0 : Char) (t0 : List Char) (hline : pyStrip line = c0 :: t0)
    (hc0 : ¬ c0 = ':')
    (hlab : FIELD_LABELS_all.any
      (fun lab => reSearchB lab (c0 :: t0)) = false)
    (hhc : isHeaderContinuation (c0 :: t0) = false)
    (hnoise : utils_is_noise_text (c0 :: t0) = false) :
    ealScanNext "manufacturer" (line :: rest) = JScan.found (c0 :: t0) := by
  simp only [ealScanNext, hline]
  simp [hc0, hlab, hhc, hnoise]

/-- C5: label-directed extraction keeps looking after rejecting a noisy
candidate - in the post-label line scan of `extract_after_label`, a line
whose stripped text is classified as noise is skipped in favour of the
scan of the remaining lines, and a clean line is returned; in the
claim's scenario, "Facsimile Number" is noise while "Chemtools Pty Ltd"
is not, and the Section-1 block yields manufacturer "Chemtools Pty Ltd"
through the whole `parse_pdf` manufacturer path. -/
theorem C5_noise_retry :
    (∀ (line : List Char) (rest : List (List Char)) (c0 : Char)
       (t0 : List Char), pyStrip line = c0 :: t0 → ¬ c0 = ':' →
       FIELD_LABELS_all.any (fun lab => reSearchB lab (c0 :: t0)) = false →
       isHeaderContinuation (c0 :: t0) = false →
       utils_is_noise_text (c0 :: t0) = true →
       ealScanNext "manufacturer" (line :: rest) =
         ealScanNext "manufacturer" rest) ∧
    (∀ (line : List Char) (rest : List (List Char)) (c0 : Char)
       (t0 : List Char), pyStrip line = c0 :: t0 → ¬ c0 = ':' →
       FIELD_LABELS_all.any (fun lab => reSearchB lab (c0 :: t0)) = false →
       isHeaderContinuation (c0 :: t0) = false →
       utils_is_noise_text (c0 :: t0) = false →
       ealScanNext "manufacturer" (line :: rest) =
         JScan.found (c0 :: t0)) ∧
    utils_is_noise_text ("Facsimile Number".toList) = true ∧
    utils_is_noise_text ("Chemtools Pty Ltd".toList) = false ∧
    pp_manufacturer (("Safety Data Sheet\nSECTION 1: Identification\n" ++
        "Product Name: Test Product\nManufacturer: Facsimile Number\n" ++
        "Chemtools Pty Ltd\nRecommended use: Cleaning\n" ++
        "SECTION 2: Hazards Identification\nFlammable liquid\n").toList) =
      ⟨some ("Chemtools Pty Ltd".toList), 1⟩ :=
  ⟨ealScanNext_skip, ealScanNext_found, by decide, by decide, by decide⟩

/-- C5 witness: scanning the two lines below the label, the theorem
first skips the noisy "Facsimile Number" line and then returns
"Chemtools Pty Ltd". -/
theorem C5_witness :
    ealScanNext "manufacturer"
        [("Facsimile Number".toList), ("Chemtools Pty Ltd".toList)] =
      ealScanNext "manufacturer" [("Chemtools Pty Ltd".toList)] ∧
    ealScanNext "manufacturer" [("Chemtools Pty Ltd".toList)] =
      JScan.found ("Chemtools Pty Ltd".toList) := by
  constructor
  · exact C5_noise_retry.1 ("Facsimile Number".toList)
      [("Chemtools Pty Ltd".toList)] 'F' ("acsimile Number".toList)
      (by decide) (by decide) (by decide) (by decide) (by decide)
  · exact C5_noise_retry.2.1 ("Chemtools Pty Ltd".toList) [] 'C'
      ("hemtools Pty Ltd".toList)
      (by decide) (by decide) (by decide) (by decide) (by decide)

theorem findSome_eq_some_mem {α β : Type} (l : List α) (f : α → Option β)
    (b : β) : l.findSome? f = some b → ∃ a ∈ l, f a = some b := by
  induction l with
  | nil => intro h; simp [List.findSome?] at h
  | cons a l ih =>
    intro h
    rw [List.findSome?_cons] at h
    cases hf : f a with
    | some c =>
      simp only [hf] at h
      exact ⟨a, by simp, by rw [hf, h]⟩
    | none =>
      simp only [hf] at h
      obtain ⟨x, hx, hfx⟩ := ih h
      exact ⟨x, by simp [hx], hfx⟩

theorem acceptPast_good (today : PyDate) (o : Option PyDate)
    (r : List Char) (h : acceptPast today o = some r) :
    ∃ d : PyDate, dateKey d ≤ dateKey today ∧ r = fmtIso d := by
  cases o with
  | none => simp [acceptPast] at h
  | some d =>
    simp only [acceptPast] at h
    by_cases hle : dateKey d ≤ dateKey today
    · rw [if_pos hle] at h
      exact ⟨d, hle, (Option.some.inj h).symm⟩
    · rw [if_neg hle] at h
      exact absurd h (by simp)

theorem resolveDates_good (today : PyDate) :
    ∀ (ms : List (List Char × List Char)) (chosen : Option (List Char)),
      (∀ s, chosen = some s →
        ∃ d : PyDate, dateKey d ≤ dateKey today ∧ s = fmtIso d) →
      ∀ r, resolveDates today ms chosen = some r →
        ∃ d : PyDate, dateKey d ≤ dateKey today ∧ r = fmtIso d := by
  intro ms
  induction ms with
  | nil => intro chosen hch r h; exact hch r h
  | cons lc rest ih =>
    intro chosen hch r h
    obtain ⟨label, cand⟩ := lc
    unfold resolveDates at h
    cases hdu : duParse (pyStrip cand) with
    | none =>
      simp only [hdu] at h
      exact ih chosen hch r h
    | some d =>
      simp only [hdu] at h
      by_cases hfut : dateKey today < dateKey d
      · rw [if_pos hfut] at h
        exact ih chosen hch r h
      · rw [if_neg hfut] at h
        by_cases hhp : highPriorityKeys.any
            (fun k => containsSub k label) = true
        · rw [if_pos hhp] at h
          exact ⟨d, le_of_not_lt hfut, (Option.some.inj h).symm⟩
        · rw [if_neg (by simp [hhp])] at h
          refine ih (some (chosen.getD (fmtIso d))) ?_ r h
          intro s hs
          cases hc : chosen with
          | some s0 =>
            rw [hc] at hs
            simp only [Option.getD_some] at hs
            exact hch s (by rw [hc, hs])
          | none =>
            rw [hc] at hs
            simp only [Option.getD_none] at hs
            exact ⟨d, le_of_not_lt hfut, (Option.some.inj hs).symm⟩

theorem extract_issue_date_good (today : PyDate) (text : List Char)
    (r : List Char) (h : extract_issue_date today text = some r) :
    ∃ d : PyDate, dateKey d ≤ dateKey today ∧ r = fmtIso d := by
  unfold extract_issue_date at h
  exact resolveDates_good today _ none (by intro s hs; cases hs) r h

theorem extract_date_from_header_good (today : PyDate) (text : List Char)
    (r : List Char) (h : extract_date_from_header today text = some r) :
    ∃ d : PyDate, dateKey d ≤ dateKey today ∧ r = fmtIso d := by
  unfold extract_date_from_header at h
  by_cases he : text.isEmpty = true
  · rw [if_pos he] at h; exact absurd h (by simp)
  · rw [if_neg he] at h
    obtain ⟨line, -, hline⟩ := findSome_eq_some_mem _ _ r h
    by_cases hemp : (pyStrip line).isEmpty = true
    · rw [if_pos hemp] at hline; exact absurd hline (by simp)
    · rw [if_neg hemp] at hline
      obtain ⟨pr, -, hpr⟩ := findSome_eq_some_mem _ _ r hline
      cases hcap : searchCapture pr.1 pr.2 (pyStrip line) with
      | none =>
        simp only [hcap] at hpr
        exact Option.noConfusion hpr
      | some dstr =>
        simp only [hcap] at hpr
        obtain ⟨fmt, -, hfmt⟩ := findSome_eq_some_mem _ _ r hpr
        exact acceptPast_good today _ r hfmt

theorem sds_extract_date_good (today : PyDate) (text : List Char)
    (r : List Char) (h : sds_extract_date today text = some r) :
    ∃ d : PyDate, dateKey d ≤ dateKey today ∧ r = fmtIso d := by
  unfold sds_extract_date at h
  cases h1 : extract_issue_date today text with
  | some v =>
    simp only [h1] at h
    exact extract_issue_date_good today text r (by rw [h1, h])
  | none =>
    simp only [h1] at h
    cases h2 : legacyDatePatterns.findSome? (fun pr =>
        (findAllCap pr.1 pr.2 none text (text.length + 1)).findSome?
          (fun dstr =>
            let cleaned := dotSub dstr
            legacyFmts.findSome? (fun fmt =>
              acceptPast today (strptimeFmt fmt cleaned)))) with
    | some v =>
      simp only [h2] at h
      obtain ⟨pr, -, hpr⟩ := findSome_eq_some_mem _ _ v h2
      obtain ⟨dstr, -, hdstr⟩ := findSome_eq_some_mem _ _ v hpr
      obtain ⟨fmt, -, hfmt⟩ := findSome_eq_some_mem _ _ v hdstr
      rw [Option.some.inj h] at hfmt
      exact acceptPast_good today _ r hfmt
    | none =>
      simp only [h2] at h
      exact extract_date_from_header_good today text r h

/-- C4: every date the extraction layer returns comes from a parsed
calendar date that is not after today, formatted `%Y-%m-%d` - for the
dateutil-based candidate resolution, for the header fallback, and for
the whole `extract_date` chain of sds_extractor.py; a syntactically
well-formed but future candidate is rejected (final conjunct: the 2033
date yields nothing at parse time 2026-10-12). -/
theorem C4_future_dates_rejected :
    (∀ (today : PyDate) (text : List Char) (r : List Char),
       extract_issue_date today text = some r →
       ∃ d : PyDate, dateKey d ≤ dateKey today ∧ r = fmtIso d) ∧
    (∀ (today : PyDate) (text : List Char) (r : List Char),
       extract_date_from_header today text = some r →
       ∃ d : PyDate, dateKey d ≤ dateKey today ∧ r = fmtIso d) ∧
    (∀ (today : PyDate) (text : List Char) (r : List Char),
       sds_extract_date today text = some r →
       ∃ d : PyDate, dateKey d ≤ dateKey today ∧ r = fmtIso d) ∧
    extract_issue_date ⟨2026, 10, 12⟩
      ("Issue date: 5 May 2033".toList) = none :=
  ⟨extract_issue_date_good, extract_date_from_header_good,
   sds_extract_date_good, by decide⟩

/-- C4 witness: the theorem applied to "Issue date: 5 May 2022" at
parse time 2026-10-12 - the returned string is the ISO form of a
non-future date. -/
theorem C4_witness :
    ∃ d : PyDate, dateKey d ≤ dateKey ⟨2026, 10, 12⟩ ∧
      "2022-05-05".toList = fmtIso d :=
  C4_future_dates_rejected.1 ⟨2026, 10, 12⟩
    ("Issue date: 5 May 2022".toList) ("2022-05-05".toList) (by decide)

theorem utilsFindEnd_min (text : List Char) (n : Nat) :
    ∀ (fuel p : Nat), text.length ≤ p + fuel →
      ∀ q, p ≤ q → q < utilsFindEnd text n p fuel →
        utilsGreaterHeaderAt text n q = false := by
  intro fuel
  induction fuel with
  | zero =>
    intro p hf q hpq hq
    simp only [utilsFindEnd] at hq
    omega
  | succ fuel ih =>
    intro p hf q hpq hq
    simp only [utilsFindEnd] at hq
    by_cases hlen : text.length ≤ p
    · rw [if_pos hlen] at hq; omega
    · rw [if_neg hlen] at hq
      by_cases hhit : utilsGreaterHeaderAt text n p = true
      · rw [if_pos hhit] at hq; omega
      · rw [if_neg hhit] at hq
        by_cases hqp : q = p
        · subst hqp; simpa using hhit
        · exact ih (p + 1) (by omega) q (by omega) hq

theorem utilsFindEnd_hit (text : List Char) (n : Nat) :
    ∀ (fuel p : Nat),
      utilsFindEnd text n p fuel < text.length →
      utilsGreaterHeaderAt text n (utilsFindEnd text n p fuel) = true := by
  intro fuel
  induction fuel with
  | zero =>
    intro p h
    simp only [utilsFindEnd] at h ⊢
    omega
  | succ fuel ih =>
    intro p h
    simp only [utilsFindEnd] at h ⊢
    by_cases hlen : text.length ≤ p
    · rw [if_pos hlen] at h ⊢; omega
    · rw [if_neg hlen] at h ⊢
      by_cases hhit : utilsGreaterHeaderAt text n p = true
      · rw [if_pos hhit] at h ⊢; exact hhit
      · rw [if_neg hhit] at h ⊢; exact ih (p + 1) h

/-- C2: the modules/utils.py `get_section` body really is the span from
just after the matched header line to the first strictly-greater-
numbered `SECTION_PATTERN` header at a line start (or end of text): the
returned string is exactly that slice, no strictly-greater header
starts anywhere inside the span, and the span's right end, when it is
not the end of text, IS such a header.  On the claim's concrete layout,
Section 1 keeps the address line "2 Fred Street, Springfield" as
content (single space after the digit, so `SECTION_PATTERN`'s
`(?:\s|:|\.)(?=\s)` rejects it) and stops exactly at the SECTION 2
header. -/
theorem C2_section_boundaries :
    (∀ (text : List Char) (n s mlen : Nat),
       scanLSLen (utilsStartToks n) none text 0 true = some (s, mlen) →
       utils_get_section text n =
         (text.take (utilsFindEnd text n (s + mlen) (text.length + 1))).drop
           (s + mlen) ∧
       (∀ q, s + mlen ≤ q →
          q < utilsFindEnd text n (s + mlen) (text.length + 1) →
          utilsGreaterHeaderAt text n q = false) ∧
       (utilsFindEnd text n (s + mlen) (text.length + 1) < text.length →
          utilsGreaterHeaderAt text n
            (utilsFindEnd text n (s + mlen) (text.length + 1)) = true)) ∧
    utils_get_section
        (("SECTION 1: Identification\nAcme\n2 Fred Street, Springfield\n" ++
          "SECTION 2: Hazards\nBad").toList) 1 =
      ("\nAcme\n2 Fred Street, Springfield\n").toList := by
  refine ⟨?_, by decide⟩
  intro text n s mlen hscan
  refine ⟨?_, ?_, utilsFindEnd_hit text n (text.length + 1) (s + mlen)⟩
  · unfold utils_get_section
    rw [hscan]
  · intro q h1 h2
    exact utilsFindEnd_min text n (text.length + 1) (s + mlen)
      (by omega) q h1 h2

/-- C2 witness: the theorem applied to the concrete five-line document -
the header match spans positions 0-25, and the computed span for
Section 1 is the slice from 25 to the start of the SECTION 2 line. -/
theorem C2_witness :
    utils_get_section
        (("SECTION 1: Identification\nAcme\n2 Fred Street, Springfield\n" ++
          "SECTION 2: Hazards\nBad").toList) 1 =
      ((("SECTION 1: Identification\nAcme\n2 Fred Street, Springfield\n" ++
          "SECTION 2: Hazards\nBad").toList).take
        (utilsFindEnd (("SECTION 1: Identification\n" ++
          "Acme\n2 Fred Street, Springfield\n" ++
          "SECTION 2: Hazards\nBad").toList) 1 25 81)).drop 25 :=
  (C2_section_boundaries.1
    (("SECTION 1: Identification\nAcme\n2 Fred Street, Springfield\n" ++
      "SECTION 2: Hazards\nBad").toList) 1 0 25 (by decide)).1

/-- C2 counterexample: the sds_extractor.py homonym violates the claimed
boundary discipline on both ends.  Its strict path returns the body
WITH the section's own header line (first conjunct: the Section 1 body
starts with "SECTION 1: Identification"), and its loose fallback
accepts a bare digit followed by a space as the next-section lookahead,
so the address line "2 Fred Street, Springfield" terminates Section 1
(second conjunct). -/
theorem C2_cex :
    sds_get_section
        (("SECTION 1: Identification\nAcme\nSECTION 2: Hazards\nBad").toList)
        1 =
      ("SECTION 1: Identification\nAcme\n").toList ∧
    sds_get_section
        (("1. Product details\nAcme stuff\n2 Fred Street, Springfield\n" ++
          "more text").toList) 1 =
      ("1. Product details\nAcme stuff").toList :=
  ⟨by decide, by decide⟩

/-- C3: the claimed end-to-end scenario diverges from the code.  On the
text carrying both a printing date and "Revision: 19 January 2024", the
revision label does outrank the printing date, but `DATE_PATTERN`'s
greedy 40-character label group `([^\n]{0,40})` swallows the first
digit of the day ("Revision: 1"), so dateutil parses "9 January 2024"
and the pipeline returns "2024-01-09" - not the specified
"2024-01-19". -/
theorem C3_truncated_revision_day :
    extract_issue_date ⟨2026, 10, 12⟩
        (("Printing date: 5 May 2022\nRevision: 19 January 2024").toList) =
      some ("2024-01-09".toList) ∧
    sds_extract_date ⟨2026, 10, 12⟩
        (("Printing date: 5 May 2022\nRevision: 19 January 2024").toList) =
      some ("2024-01-09".toList) :=
  ⟨by decide, by decide⟩
